import Mathlib

/-!
L1 split cache simulator (`cachesim.c`): shallow embedding and verified properties.

The C program keeps two set-associative caches (a 4-way instruction cache and an
8-way data cache, 16384 sets of 64-byte lines each) and replays a trace of
operations on them.  The embedding below follows `cachesim.c` function by function:

* heap arrays (`set_t* sets`, `line_t* ways`) are total functions from the index to
  the element; only the indices below the allocated length are ever read or written;
* `uint32_t` values are `Nat`; the decoder masks every field, so no value leaves 32 bits;
* the `unsigned long` counters are `Nat` with the increment taken modulo `2^64`;
* `int` values (the LRU rank, the results of the search helpers, which may be `-1`) are
  `Int`; the ranks of reachable states stay below `2 * ways`, far from overflow;
* `printf` output is the list of emitted events that a handler returns next to the
  new cache; the global `g_mode` is an explicit argument.
-/

namespace L1SplitCache

/-! ## Constants -/

def ADDRESS_SIZE_BITS : Nat := 32
def ILINE_SIZE_BYTES : Nat := 64
def DLINE_SIZE_BYTES : Nat := 64
def NUM_SETS_DCACHE : Nat := 16384
def NUM_SETS_ICACHE : Nat := 16384
def IWAYS : Nat := 4
def DWAYS : Nat := 8

def OP_DREAD : Int := 0
def OP_DWRITE : Int := 1
def OP_IFETCH : Int := 2
def OP_INVALIDATE : Int := 3
def OP_RFO_SNOOP : Int := 4
def OP_CLEAR : Int := 8
def OP_PRINT : Int := 9

/-! ## Types -/

inductive cache_typee where
  | INSTRUCTION
  | DATA
  deriving DecidableEq, Repr

inductive mesi_t where
  | MESI_I
  | MESI_S
  | MESI_E
  | MESI_M
  deriving DecidableEq, Repr

open cache_typee mesi_t

structure stats_t where
  reads : Nat
  writes : Nat
  hits : Nat
  misses : Nat
  deriving DecidableEq, Repr

structure line_t where
  tag : Nat
  mesi : mesi_t
  lru : Int
  deriving DecidableEq, Repr

structure set_t where
  ways : Nat → line_t

structure cache_t where
  name : String
  stats : stats_t
  sets : Nat → set_t

/-- The two global caches `I_cache` and `D_cache`. -/
structure caches where
  I_cache : cache_t
  D_cache : cache_t

/-- One line of output of the program: the four L2 messages and the lines of `cache_print`. -/
inductive event where
  | read_from_l2
  | rfo_from_l2
  | write_to_l2
  | return_data_to_l2
  | contents (name : String)
  | set_header (i : Nat)
  | way_line (w : Nat) (tag : Nat) (state : String) (lru : String)
  deriving DecidableEq, Repr

/-! ## Memory access helpers -/

/-- Store `ln` in way `w` of a set (`set->ways[w] = ln`). -/
def set_t.put (s : set_t) (w : Nat) (ln : line_t) : set_t :=
  ⟨Function.update s.ways w ln⟩

/-- Store a set at index `i` of a cache (`c->sets[i] = s`). -/
def cache_t.put_set (c : cache_t) (i : Nat) (s : set_t) : cache_t :=
  { c with sets := Function.update c.sets i s }

/-- The line `c->sets[i].ways[w]`. -/
def cache_t.line (c : cache_t) (i w : Nat) : line_t :=
  (c.sets i).ways w

/-- Store `ln` in `c->sets[i].ways[w]`. -/
def cache_t.put_line (c : cache_t) (i w : Nat) (ln : line_t) : cache_t :=
  c.put_set i ((c.sets i).put w ln)

/-- The `++` of an `unsigned long` counter (64-bit `unsigned long`). -/
def ulong_inc (x : Nat) : Nat := (x + 1) % 2 ^ 64

/-! ## Address decode -/

/-- Search loop of `ceil_log2`: the least `k` (from `k` upwards, at most `fuel` steps) with
`n ≤ 2^k`. -/
def ceil_log2_go (n : Nat) : Nat → Nat → Nat
  | 0, k => k
  | fuel + 1, k => if n ≤ 2 ^ k then k else ceil_log2_go n fuel (k + 1)

/-- The value of the C expression `ceil(log2(n))` converted to `int`, for `1 ≤ n ≤ 2^64`:
the least `k` with `n ≤ 2^k`. -/
def ceil_log2 (n : Nat) : Nat := ceil_log2_go n 64 0

structure decoded where
  tag : Nat
  index : Nat
  offset : Nat
  deriving DecidableEq, Repr

def decode_addressbyCacheType (addr : Nat) (ctype : cache_typee) : decoded :=
  let offsetbits :=
    if ctype = INSTRUCTION then ceil_log2 ILINE_SIZE_BYTES else ceil_log2 DLINE_SIZE_BYTES
  let indexbits :=
    if ctype = INSTRUCTION then ceil_log2 NUM_SETS_ICACHE else ceil_log2 NUM_SETS_DCACHE
  let tagbits := ADDRESS_SIZE_BITS - (offsetbits + indexbits)
  { offset := addr &&& ((1 <<< offsetbits) - 1)
    index := (addr >>> offsetbits) &&& ((1 <<< indexbits) - 1)
    tag := (addr >>> (offsetbits + indexbits)) &&& ((1 <<< tagbits) - 1) }

/-! ## Cache geometry -/

def get_ways_byCacheType (ctype : cache_typee) : Nat :=
  if ctype = INSTRUCTION then IWAYS else DWAYS

def get_numsets_byCacheType (ctype : cache_typee) : Nat :=
  if ctype = INSTRUCTION then NUM_SETS_ICACHE else NUM_SETS_DCACHE

/-! ## L2 messages (printed only in mode 1) -/

def msg_read_from_l2 (g_mode : Int) : List event :=
  if g_mode = 1 then [event.read_from_l2] else []

def msg_rfo_from_l2 (g_mode : Int) : List event :=
  if g_mode = 1 then [event.rfo_from_l2] else []

def msg_write_to_l2 (g_mode : Int) : List event :=
  if g_mode = 1 then [event.write_to_l2] else []

def msg_return_data_to_l2 (g_mode : Int) : List event :=
  if g_mode = 1 then [event.return_data_to_l2] else []

/-! ## Search and LRU helpers -/

/-- First way with a non-Invalid state and a matching tag, or `-1`. -/
def cache_find_way (c : cache_t) (index tag : Nat) (ctype : cache_typee) : Int :=
  let num_ways := get_ways_byCacheType ctype
  let set := c.sets index
  match (List.range num_ways).find?
      (fun w => decide ((set.ways w).mesi ≠ MESI_I ∧ (set.ways w).tag = tag)) with
  | some w => (w : Int)
  | none => -1

/-- First way in state Invalid, or `-1`. -/
def cache_find_invalid_way (c : cache_t) (index : Nat) (ctype : cache_typee) : Int :=
  let num_ways := get_ways_byCacheType ctype
  let set := c.sets index
  match (List.range num_ways).find? (fun w => decide ((set.ways w).mesi = MESI_I)) with
  | some w => (w : Int)
  | none => -1

/-- One iteration of the scan of `cache_find_lru_way`; the accumulator is
`(max_lru, max_lru_way)`. -/
def find_lru_step (set : set_t) (acc : Int × Int) (way_idx : Nat) : Int × Int :=
  if (set.ways way_idx).lru > acc.1 then ((set.ways way_idx).lru, (way_idx : Int)) else acc

/-- The way with the greatest `lru` value (first one found, starting from `max_lru = 0`). -/
def cache_find_lru_way (c : cache_t) (index : Nat) (ctype : cache_typee) : Int :=
  let num_ways := get_ways_byCacheType ctype
  let set := c.sets index
  ((List.range num_ways).foldl (find_lru_step set) (0, 0)).2

/-- One iteration of the loop of `cache_update_lru`. -/
def update_lru_step (max_lru : Int) (set : set_t) (way_idx : Nat) : set_t :=
  if (set.ways way_idx).lru ≤ max_lru then
    set.put way_idx { set.ways way_idx with lru := (set.ways way_idx).lru + 1 }
  else set

/-- Make `way` the most recently used way of set `index`. -/
def cache_update_lru (c : cache_t) (index : Nat) (way : Int) (ctype : cache_typee) : cache_t :=
  let num_ways := get_ways_byCacheType ctype
  let set := c.sets index
  let max_lru := (set.ways way.toNat).lru
  let set := (List.range num_ways).foldl (update_lru_step max_lru) set
  let set := set.put way.toNat { set.ways way.toNat with lru := 0 }
  c.put_set index set

/-! ## Initialisation and clear -/

/-- Contents of memory that no cache array covers (never read by the program). -/
def zero_line : line_t := { tag := 0, mesi := MESI_I, lru := 0 }

/-- Build a cache: zeroed counters, `calloc`-ed sets and ways, every line Invalid with
rank `num_of_ways - 1` (the tag is the zero left by `calloc`). -/
def cache_init (name : String) (ctype : cache_typee) : cache_t :=
  let num_of_sets := get_numsets_byCacheType ctype
  let num_of_ways := get_ways_byCacheType ctype
  { name := name
    stats := { reads := 0, writes := 0, hits := 0, misses := 0 }
    sets := fun idx =>
      if idx < num_of_sets then
        ⟨fun j =>
          if j < num_of_ways then { tag := 0, mesi := MESI_I, lru := (num_of_ways : Int) - 1 }
          else zero_line⟩
      else ⟨fun _ => zero_line⟩ }

/-- Clear cache contents and counters (opcode 8). -/
def cache_clear (c : cache_t) (ctype : cache_typee) : cache_t :=
  let num_of_sets := get_numsets_byCacheType ctype
  let num_of_ways := get_ways_byCacheType ctype
  { c with
    sets := fun i =>
      if i < num_of_sets then
        ⟨fun w =>
          if w < num_of_ways then { tag := 0, mesi := MESI_I, lru := (num_of_ways : Int) - 1 }
          else (c.sets i).ways w⟩
      else c.sets i
    stats := { reads := 0, writes := 0, hits := 0, misses := 0 } }

/-! ## Printing -/

def mesi_str (m : mesi_t) : String :=
  match m with
  | MESI_I => "I"
  | MESI_S => "S"
  | MESI_E => "E"
  | MESI_M => "M"

/-- Loop of `DecimalToBinary`: `i` characters are still to be written, from the last
position of the buffer to the first; `n >>= 1` is the floor division by two. -/
def DecimalToBinary_go : Nat → Int → List Char → List Char
  | 0, _, outbuf => outbuf
  | i + 1, n, outbuf => DecimalToBinary_go i (n / 2) ((if n % 2 ≠ 0 then '1' else '0') :: outbuf)

/-- The string printed after `LRU=`: the low `ceil(log2(nway))` bits of `n`. -/
def DecimalToBinary (n : Int) (nway : Nat) : String :=
  String.mk (DecimalToBinary_go (ceil_log2 nway) n [])

/-- One iteration of the inner loop of `cache_print`; the accumulator is
`(printed_header, output so far)`. -/
def print_way_step (set : set_t) (i num_of_ways : Nat) (acc : Bool × List event) (w : Nat) :
    Bool × List event :=
  let ln := set.ways w
  if ln.mesi ≠ MESI_I then
    let acc : Bool × List event := if acc.1 = false then (true, acc.2 ++ [event.set_header i]) else acc
    (acc.1, acc.2 ++ [event.way_line w ln.tag (mesi_str ln.mesi) (DecimalToBinary ln.lru num_of_ways)])
  else acc

/-- Output of `cache_print` for one set. -/
def print_set (set : set_t) (i num_of_ways : Nat) : List event :=
  ((List.range num_of_ways).foldl (print_way_step set i num_of_ways) (false, [])).2

def cache_print (c : cache_t) (ctype : cache_typee) : List event :=
  let num_of_sets := get_numsets_byCacheType ctype
  let num_of_ways := get_ways_byCacheType ctype
  event.contents c.name ::
    ((List.range num_of_sets).map (fun i => print_set (c.sets i) i num_of_ways)).flatten

/-! ## Instruction fetch -/

def icache_ifetch (g_mode : Int) (c : cache_t) (addr : Nat) : cache_t × List event :=
  let ctype := INSTRUCTION
  let d := decode_addressbyCacheType addr ctype
  let tag := d.tag
  let index := d.index
  let c := { c with stats := { c.stats with reads := ulong_inc c.stats.reads } }
  let way := cache_find_way c index tag ctype
  if way ≥ 0 then
    let c := { c with stats := { c.stats with hits := ulong_inc c.stats.hits } }
    let c :=
      if (c.line index way.toNat).mesi = MESI_E then
        c.put_line index way.toNat { c.line index way.toNat with mesi := MESI_S }
      else c
    (cache_update_lru c index way ctype, [])
  else
    let c := { c with stats := { c.stats with misses := ulong_inc c.stats.misses } }
    let insert_way := cache_find_invalid_way c index ctype
    let insert_way := if insert_way < 0 then cache_find_lru_way c index ctype else insert_way
    let c := c.put_line index insert_way.toNat { c.line index insert_way.toNat with tag := tag }
    let c := c.put_line index insert_way.toNat { c.line index insert_way.toNat with mesi := MESI_E }
    let out := msg_read_from_l2 g_mode
    (cache_update_lru c index insert_way ctype, out)

/-! ## Data cache accesses -/

def dcache_read (g_mode : Int) (c : cache_t) (addr : Nat) : cache_t × List event :=
  let ctype := DATA
  let d := decode_addressbyCacheType addr ctype
  let tag := d.tag
  let index := d.index
  let c := { c with stats := { c.stats with reads := ulong_inc c.stats.reads } }
  let way := cache_find_way c index tag ctype
  if way ≥ 0 then
    let c := { c with stats := { c.stats with hits := ulong_inc c.stats.hits } }
    let c :=
      if (c.line index way.toNat).mesi = MESI_E then
        c.put_line index way.toNat { c.line index way.toNat with mesi := MESI_S }
      else c
    (cache_update_lru c index way ctype, [])
  else
    let c := { c with stats := { c.stats with misses := ulong_inc c.stats.misses } }
    let insert_way := cache_find_invalid_way c index ctype
    let r : Int × List event :=
      if insert_way < 0 then
        let insert_way := cache_find_lru_way c index ctype
        (insert_way,
          if (c.line index insert_way.toNat).mesi = MESI_M then msg_write_to_l2 g_mode else [])
      else (insert_way, [])
    let insert_way := r.1
    let out := r.2
    let c := c.put_line index insert_way.toNat { c.line index insert_way.toNat with tag := tag }
    let c := c.put_line index insert_way.toNat { c.line index insert_way.toNat with mesi := MESI_E }
    let out := out ++ msg_read_from_l2 g_mode
    (cache_update_lru c index insert_way ctype, out)

def dcache_write (g_mode : Int) (c : cache_t) (addr : Nat) : cache_t × List event :=
  let ctype := DATA
  let d := decode_addressbyCacheType addr INSTRUCTION
  let tag := d.tag
  let index := d.index
  let c := { c with stats := { c.stats with writes := ulong_inc c.stats.writes } }
  let way := cache_find_way c index tag ctype
  if way ≥ 0 then
    let c := { c with stats := { c.stats with hits := ulong_inc c.stats.hits } }
    let c :=
      if (c.line index way.toNat).mesi = MESI_E ∨ (c.line index way.toNat).mesi = MESI_S then
        c.put_line index way.toNat { c.line index way.toNat with mesi := MESI_M }
      else c
    (cache_update_lru c index way ctype, [])
  else
    let c := { c with stats := { c.stats with misses := ulong_inc c.stats.misses } }
    let insert_way := cache_find_invalid_way c index ctype
    let r : Int × List event :=
      if insert_way < 0 then
        let insert_way := cache_find_lru_way c index ctype
        (insert_way,
          if (c.line index insert_way.toNat).mesi = MESI_M then msg_write_to_l2 g_mode else [])
      else (insert_way, [])
    let insert_way := r.1
    let out := r.2
    let c := c.put_line index insert_way.toNat { c.line index insert_way.toNat with tag := tag }
    let out := out ++ msg_rfo_from_l2 g_mode
    let c := c.put_line index insert_way.toNat { c.line index insert_way.toNat with mesi := MESI_E }
    let out := out ++ msg_write_to_l2 g_mode
    let c := c.put_line index insert_way.toNat { c.line index insert_way.toNat with mesi := MESI_M }
    (cache_update_lru c index insert_way ctype, out)

def dcache_invalidate (c : cache_t) (addr : Nat) : cache_t × List event :=
  let ctype := DATA
  let d := decode_addressbyCacheType addr INSTRUCTION
  let tag := d.tag
  let index := d.index
  let way := cache_find_way c index tag ctype
  if way ≥ 0 then
    (c.put_line index way.toNat { c.line index way.toNat with mesi := MESI_I }, [])
  else (c, [])

def dcache_rfo_snoop (g_mode : Int) (c : cache_t) (addr : Nat) : cache_t × List event :=
  let ctype := DATA
  let d := decode_addressbyCacheType addr INSTRUCTION
  let tag := d.tag
  let index := d.index
  let way := cache_find_way c index tag ctype
  if way ≥ 0 then
    let ln := c.line index way.toNat
    if ln.mesi = MESI_M ∨ ln.mesi = MESI_E ∨ ln.mesi = MESI_S then
      (c.put_line index way.toNat { ln with mesi := MESI_I }, msg_return_data_to_l2 g_mode)
    else (c, [])
  else (c, [])

/-! ## Dispatch and the trace loop -/

def process_op (g_mode : Int) (st : caches) (opcode : Int) (addr : Nat) : caches × List event :=
  if opcode = OP_DREAD then
    let r := dcache_read g_mode st.D_cache addr
    ({ st with D_cache := r.1 }, r.2)
  else if opcode = OP_DWRITE then
    let r := dcache_write g_mode st.D_cache addr
    ({ st with D_cache := r.1 }, r.2)
  else if opcode = OP_IFETCH then
    let r := icache_ifetch g_mode st.I_cache addr
    ({ st with I_cache := r.1 }, r.2)
  else if opcode = OP_INVALIDATE then
    let r := dcache_invalidate st.D_cache addr
    ({ st with D_cache := r.1 }, r.2)
  else if opcode = OP_RFO_SNOOP then
    let r := dcache_rfo_snoop g_mode st.D_cache addr
    ({ st with D_cache := r.1 }, r.2)
  else if opcode = OP_CLEAR then
    ({ I_cache := cache_clear st.I_cache INSTRUCTION, D_cache := cache_clear st.D_cache DATA }, [])
  else if opcode = OP_PRINT then
    (st, cache_print st.D_cache DATA ++ cache_print st.I_cache INSTRUCTION)
  else (st, [])

/-- The caches as `main` builds them before the first trace record. -/
def init_caches : caches :=
  { I_cache := cache_init "I$" INSTRUCTION, D_cache := cache_init "D$" DATA }

/-- The caches after the trace records `ops` (opcode, address), processed in order. -/
def run (g_mode : Int) (ops : List (Int × Nat)) : caches :=
  ops.foldl (fun st op => (process_op g_mode st op.1 op.2).1) init_caches

/-- The ranks of the `n` ways of a set, in way order. -/
def ranks (s : set_t) (n : Nat) : List Int :=
  (List.range n).map (fun w => (s.ways w).lru)

/-! ## Vocabulary of the properties -/

/-- The way that a miss fills, as the miss branch of the three access handlers computes
it: the first Invalid way, or the result of `cache_find_lru_way` when there is none. -/
def fill_way (c : cache_t) (index : Nat) (ctype : cache_typee) : Int :=
  if cache_find_invalid_way c index ctype < 0 then cache_find_lru_way c index ctype
  else cache_find_invalid_way c index ctype

/-- The set after an access to way `w`: way `w` holds `tag` and `mesi` with rank 0, the
ways below `n` ranked at or below the old rank of `w` move up by one. -/
def touched (n : Nat) (s : set_t) (w : Nat) (tag : Nat) (mesi : mesi_t) (j : Nat) : line_t :=
  if j = w then { tag := tag, mesi := mesi, lru := 0 }
  else if j < n ∧ (s.ways j).lru ≤ (s.ways w).lru then
    { s.ways j with lru := (s.ways j).lru + 1 }
  else s.ways j

/-- Shape of the ranks of a set of `n` ways: for some `k ≤ n`, the ways below `k` hold
pairwise distinct ranks in `[0, k)`, and every way from `k` on is Invalid with rank
`n - 1 + k` (it has not been filled since the cache was initialised or cleared). -/
def lru_shape (n : Nat) (s : set_t) : Prop :=
  ∃ k, k ≤ n ∧
    (∀ w, k ≤ w → w < n → (s.ways w).lru = (n : Int) - 1 + k ∧ (s.ways w).mesi = MESI_I) ∧
    (∀ w, w < k → 0 ≤ (s.ways w).lru ∧ (s.ways w).lru < k) ∧
    (∀ w1 w2, w1 < k → w2 < k → (s.ways w1).lru = (s.ways w2).lru → w1 = w2)

/-- No duplicate residency: at most one non-Invalid way of the set holds a given tag. -/
def no_dup (n : Nat) (s : set_t) : Prop :=
  ∀ w1 w2, w1 < n → w2 < n → (s.ways w1).mesi ≠ MESI_I → (s.ways w2).mesi ≠ MESI_I →
    (s.ways w1).tag = (s.ways w2).tag → w1 = w2

/-- Every set of the cache has the rank shape and no duplicate residency. -/
def cache_ok (ctype : cache_typee) (c : cache_t) : Prop :=
  ∀ i, i < get_numsets_byCacheType ctype →
    lru_shape (get_ways_byCacheType ctype) (c.sets i) ∧
    no_dup (get_ways_byCacheType ctype) (c.sets i)

/-- Both caches satisfy their invariants. -/
def caches_ok (st : caches) : Prop :=
  cache_ok INSTRUCTION st.I_cache ∧ cache_ok DATA st.D_cache

/-- The ranks of the `n` ways of the set are a permutation of `0..n-1`. -/
def ranks_perm (n : Nat) (s : set_t) : Prop :=
  List.Perm (ranks s n) ((List.range n).map Int.ofNat)

/-- Rank shape in terms of permutations: for some `k ≤ n` the ranks of the ways `0..k-1`
are a permutation of `0..k-1`, and every way `k..n-1` is Invalid with rank `n - 1 + k`. -/
def rank_shape (n : Nat) (s : set_t) : Prop :=
  ∃ k, k ≤ n ∧ ranks_perm k s ∧
    ∀ w, k ≤ w → w < n → (s.ways w).lru = (n : Int) - 1 + k ∧ (s.ways w).mesi = MESI_I

/-- The data cache after the data reads of the addresses `addrs`, issued in order. -/
def dcache_reads (g_mode : Int) (c : cache_t) (addrs : List Nat) : cache_t :=
  addrs.foldl (fun c addr => (dcache_read g_mode c addr).1) c

/-- The cache of the given type: `I_cache` for `INSTRUCTION`, `D_cache` for `DATA`. -/
def caches.of (st : caches) (ctype : cache_typee) : cache_t :=
  match ctype with
  | INSTRUCTION => st.I_cache
  | DATA => st.D_cache

/-- The counters agree as `unsigned long` values: `hits + misses = reads + writes` modulo
`2^64`, each counter below `2^64`. -/
def stats_ok (s : stats_t) : Prop :=
  (s.hits + s.misses) % 2 ^ 64 = (s.reads + s.writes) % 2 ^ 64 ∧
  s.reads < 2 ^ 64 ∧ s.writes < 2 ^ 64 ∧ s.hits < 2 ^ 64 ∧ s.misses < 2 ^ 64

/-- Recency order of the ways of a set: way `a` comes no later than way `b` when its rank is
smaller, or equal with `a ≤ b` (lower way index first, as in the victim scan). -/
def rank_le (s : set_t) (a b : Nat) : Prop :=
  (s.ways a).lru < (s.ways b).lru ∨ ((s.ways a).lru = (s.ways b).lru ∧ a ≤ b)

instance rank_le_decidable (s : set_t) : DecidableRel (rank_le s) :=
  fun a b => by
    unfold rank_le
    exact inferInstance

instance rank_le_total (s : set_t) : IsTotal Nat (rank_le s) :=
  ⟨fun a b => by
    unfold rank_le
    omega⟩

instance rank_le_trans (s : set_t) : IsTrans Nat (rank_le s) :=
  ⟨fun a b c h1 h2 => by
    unfold rank_le at *
    omega⟩

instance rank_le_antisymm (s : set_t) : IsAntisymm Nat (rank_le s) :=
  ⟨fun a b h1 h2 => by
    unfold rank_le at *
    omega⟩

/-- The recency list of a set of `n` ways: the way indices ordered by rank, the most
recently used way (rank 0) in front. -/
def recency (s : set_t) (n : Nat) : List Nat :=
  (List.range n).insertionSort (rank_le s)

/-- The touch operation of the specification on an explicit recency list (front = most
recent): move the way `w` to the front. -/
def move_to_front (w : Nat) (l : List Nat) : List Nat :=
  w :: l.erase w

/-! ## Basic facts about the helpers -/

theorem ceil_log2_64 : ceil_log2 64 = 6 := by decide

theorem ceil_log2_16384 : ceil_log2 16384 = 14 := by decide

theorem ulong_inc_eq (x : Nat) (h : x + 1 < 2 ^ 64) : ulong_inc x = x + 1 := by
  unfold ulong_inc
  exact Nat.mod_eq_of_lt h

theorem put_ways (s : set_t) (w : Nat) (ln : line_t) (j : Nat) :
    (s.put w ln).ways j = if j = w then ln else s.ways j := by
  simp [set_t.put, Function.update_apply]

theorem put_line_sets (c : cache_t) (i w : Nat) (ln : line_t) (i2 j : Nat) :
    ((c.put_line i w ln).sets i2).ways j =
      if i2 = i ∧ j = w then ln else (c.sets i2).ways j := by
  simp only [cache_t.put_line, cache_t.put_set, Function.update_apply]
  by_cases h : i2 = i
  · subst h
    simp [put_ways]
  · simp [h]

theorem put_line_stats (c : cache_t) (i w : Nat) (ln : line_t) :
    (c.put_line i w ln).stats = c.stats := rfl

theorem put_line_name (c : cache_t) (i w : Nat) (ln : line_t) :
    (c.put_line i w ln).name = c.name := rfl

/-- The loop of `cache_update_lru`, way by way: the ways below `n` whose rank is at most
`m` are incremented, nothing else changes. -/
theorem update_lru_fold (m : Int) (n : Nat) (s : set_t) :
    ∀ j, ((List.range n).foldl (update_lru_step m) s).ways j =
      if j < n ∧ (s.ways j).lru ≤ m then { s.ways j with lru := (s.ways j).lru + 1 }
      else s.ways j := by
  induction n with
  | zero => intro j; simp
  | succ n ih =>
    intro j
    rw [List.range_succ, List.foldl_append]
    simp only [List.foldl_cons, List.foldl_nil]
    have hn := ih n
    simp only [lt_irrefl, false_and, if_false] at hn
    have hj := ih j
    generalize List.foldl (update_lru_step m) s (List.range n) = sn at hn hj
    clear ih
    unfold update_lru_step
    rw [hn]
    by_cases hm : (s.ways n).lru ≤ m
    · rw [if_pos hm, put_ways]
      by_cases hjn : j = n
      · subst hjn
        simp [hm]
      · rw [if_neg hjn, hj]
        have : j < n + 1 ↔ j < n := by omega
        simp only [this]
    · rw [if_neg hm, hj]
      by_cases hjn : j = n
      · subst hjn
        simp [hm]
      · have : j < n + 1 ↔ j < n := by omega
        simp only [this]

/-- Pointwise effect of `cache_update_lru`. -/
theorem update_lru_sets (c : cache_t) (index : Nat) (way : Int) (ctype : cache_typee)
    (i j : Nat) :
    ((cache_update_lru c index way ctype).sets i).ways j =
      if i = index then
        if j = way.toNat then { (c.sets i).ways j with lru := 0 }
        else if j < get_ways_byCacheType ctype ∧
            ((c.sets i).ways j).lru ≤ ((c.sets i).ways way.toNat).lru then
          { (c.sets i).ways j with lru := ((c.sets i).ways j).lru + 1 }
        else (c.sets i).ways j
      else (c.sets i).ways j := by
  simp only [cache_update_lru, cache_t.put_set, Function.update_apply]
  by_cases h : i = index
  · subst h
    simp only [if_true, put_ways, update_lru_fold]
    by_cases hj : j = way.toNat
    · subst hj
      simp only [if_true]
      split <;> rfl
    · simp only [hj, if_false]
  · simp [h]

theorem update_lru_stats (c : cache_t) (index : Nat) (way : Int) (ctype : cache_typee) :
    (cache_update_lru c index way ctype).stats = c.stats := rfl

theorem update_lru_name (c : cache_t) (index : Nat) (way : Int) (ctype : cache_typee) :
    (cache_update_lru c index way ctype).name = c.name := rfl

/-- The first index below `n` that satisfies `p`, as `List.find?` on `List.range n` finds it. -/
theorem find_range_some (p : Nat → Bool) (n w : Nat)
    (h : (List.range n).find? p = some w) :
    w < n ∧ p w = true ∧ ∀ j, j < w → p j = false := by
  induction n with
  | zero => simp at h
  | succ n ih =>
    rw [List.range_succ, List.find?_append] at h
    cases hf : (List.range n).find? p with
    | some v =>
      rw [hf] at h
      simp only [Option.or_some, Option.some.injEq] at h
      subst h
      obtain ⟨h1, h2, h3⟩ := ih hf
      exact ⟨by omega, h2, h3⟩
    | none =>
      rw [hf] at h
      simp only [Option.none_or] at h
      by_cases hp : p n = true
      · simp only [List.find?_cons, hp, Option.some.injEq] at h
        subst h
        refine ⟨by omega, hp, ?_⟩
        intro j hj
        have := List.find?_eq_none.1 hf j (List.mem_range.2 hj)
        simpa using this
      · simp [List.find?_cons, hp] at h

theorem find_range_none (p : Nat → Bool) (n : Nat)
    (h : (List.range n).find? p = none) : ∀ j, j < n → p j = false := by
  intro j hj
  have := List.find?_eq_none.1 h j (List.mem_range.2 hj)
  simpa using this

/-- Outcome of `cache_find_way`: either `-1` and no way of the set matches, or the first
matching way. -/
theorem cache_find_way_spec (c : cache_t) (index tag : Nat) (ctype : cache_typee) :
    (cache_find_way c index tag ctype = -1 ∧
      ∀ j, j < get_ways_byCacheType ctype →
        ¬ (((c.sets index).ways j).mesi ≠ MESI_I ∧ ((c.sets index).ways j).tag = tag)) ∨
    ∃ w, w < get_ways_byCacheType ctype ∧ cache_find_way c index tag ctype = (w : Int) ∧
      ((c.sets index).ways w).mesi ≠ MESI_I ∧ ((c.sets index).ways w).tag = tag ∧
      ∀ j, j < w →
        ¬ (((c.sets index).ways j).mesi ≠ MESI_I ∧ ((c.sets index).ways j).tag = tag) := by
  unfold cache_find_way
  simp only []
  cases hf : (List.range (get_ways_byCacheType ctype)).find?
      (fun w => decide (((c.sets index).ways w).mesi ≠ MESI_I ∧ ((c.sets index).ways w).tag = tag)) with
  | none =>
    left
    refine ⟨rfl, ?_⟩
    intro j hj
    have := find_range_none _ _ hf j hj
    simpa using this
  | some w =>
    right
    obtain ⟨h1, h2, h3⟩ := find_range_some _ _ _ hf
    refine ⟨w, h1, rfl, ?_, ?_, ?_⟩
    · simp only [decide_eq_true_eq] at h2
      exact h2.1
    · simp only [decide_eq_true_eq] at h2
      exact h2.2
    · intro j hj
      have := h3 j hj
      simpa using this

/-- Outcome of `cache_find_invalid_way`: either `-1` and no way is Invalid, or the first
Invalid way. -/
theorem cache_find_invalid_way_spec (c : cache_t) (index : Nat) (ctype : cache_typee) :
    (cache_find_invalid_way c index ctype = -1 ∧
      ∀ j, j < get_ways_byCacheType ctype → ((c.sets index).ways j).mesi ≠ MESI_I) ∨
    ∃ w, w < get_ways_byCacheType ctype ∧ cache_find_invalid_way c index ctype = (w : Int) ∧
      ((c.sets index).ways w).mesi = MESI_I ∧
      ∀ j, j < w → ((c.sets index).ways j).mesi ≠ MESI_I := by
  unfold cache_find_invalid_way
  simp only []
  cases hf : (List.range (get_ways_byCacheType ctype)).find?
      (fun w => decide (((c.sets index).ways w).mesi = MESI_I)) with
  | none =>
    left
    refine ⟨rfl, ?_⟩
    intro j hj
    have := find_range_none _ _ hf j hj
    simpa using this
  | some w =>
    right
    obtain ⟨h1, h2, h3⟩ := find_range_some _ _ _ hf
    refine ⟨w, h1, rfl, ?_, ?_⟩
    · simpa using h2
    · intro j hj
      have := h3 j hj
      simpa using this

/-- The scan of `cache_find_lru_way` returns a way index of the set (or way 0). -/
theorem find_lru_fold_bound (set : set_t) (n : Nat) :
    ∃ w : Nat, ((List.range n).foldl (find_lru_step set) (0, 0)).2 = (w : Int) ∧
      (w < n ∨ w = 0) := by
  induction n with
  | zero => exact ⟨0, rfl, Or.inr rfl⟩
  | succ n ih =>
    rw [List.range_succ, List.foldl_append]
    simp only [List.foldl_cons, List.foldl_nil]
    obtain ⟨w, hw, hb⟩ := ih
    generalize List.foldl (find_lru_step set) (0, 0) (List.range n) = acc at hw
    unfold find_lru_step
    split
    · exact ⟨n, rfl, Or.inl (by omega)⟩
    · exact ⟨w, hw, by omega⟩

theorem cache_find_lru_way_bound (c : cache_t) (index : Nat) (ctype : cache_typee) :
    ∃ w : Nat, cache_find_lru_way c index ctype = (w : Int) ∧ w < get_ways_byCacheType ctype := by
  obtain ⟨w, hw, hb⟩ := find_lru_fold_bound (c.sets index) (get_ways_byCacheType ctype)
  refine ⟨w, hw, ?_⟩
  have : 0 < get_ways_byCacheType ctype := by
    cases ctype <;> decide
  omega

theorem fill_way_spec (c : cache_t) (index : Nat) (ctype : cache_typee) :
    ∃ w, w < get_ways_byCacheType ctype ∧ fill_way c index ctype = (w : Int) ∧
      (∀ j, j < w → ((c.sets index).ways j).mesi ≠ MESI_I) ∧
      (((c.sets index).ways w).mesi ≠ MESI_I →
        ∀ j, j < get_ways_byCacheType ctype → ((c.sets index).ways j).mesi ≠ MESI_I) := by
  unfold fill_way
  rcases cache_find_invalid_way_spec c index ctype with ⟨h1, h2⟩ | ⟨w, h1, h2, h3, h4⟩
  · obtain ⟨w, hw, hb⟩ := cache_find_lru_way_bound c index ctype
    refine ⟨w, hb, ?_, ?_, ?_⟩
    · rw [h1, hw]
      simp
    · intro j hj
      exact h2 j (by omega)
    · intro _
      exact h2
  · refine ⟨w, h1, ?_, h4, ?_⟩
    · rw [h2]
      simp
    · intro h
      exact absurd h3 h

/-! ## The access handlers, branch by branch -/

theorem dcache_read_hit (g_mode : Int) (c : cache_t) (addr w : Nat)
    (h : cache_find_way c (decode_addressbyCacheType addr DATA).index
      (decode_addressbyCacheType addr DATA).tag DATA = (w : Int)) :
    (∀ i j, ((dcache_read g_mode c addr).1.sets i).ways j =
      if i = (decode_addressbyCacheType addr DATA).index then
        touched DWAYS (c.sets i) w ((c.sets i).ways w).tag
          (if ((c.sets i).ways w).mesi = MESI_E then MESI_S else ((c.sets i).ways w).mesi) j
      else (c.sets i).ways j) ∧
    (dcache_read g_mode c addr).1.stats =
      { reads := ulong_inc c.stats.reads, writes := c.stats.writes,
        hits := ulong_inc c.stats.hits, misses := c.stats.misses } ∧
    (dcache_read g_mode c addr).2 = [] := by
  have hf : ∀ st, cache_find_way { c with stats := st } (decode_addressbyCacheType addr DATA).index
      (decode_addressbyCacheType addr DATA).tag DATA = (w : Int) := fun _ => h
  unfold dcache_read
  simp only [hf, ge_iff_le, Int.natCast_nonneg, if_true, Int.toNat_ofNat, cache_t.line]
  refine ⟨?_, ?_, ?_⟩
  · intro i j
    rw [update_lru_sets]
    by_cases hi : i = (decode_addressbyCacheType addr DATA).index
    · subst hi
      simp only [if_true, touched, Int.toNat_ofNat]
      have hw : get_ways_byCacheType DATA = DWAYS := rfl
      rw [hw]
      by_cases hE : ((c.sets (decode_addressbyCacheType addr DATA).index).ways w).mesi = MESI_E
      · simp only [hE, if_true, put_line_sets, true_and]
        by_cases hj : j = w
        · subst hj
          simp
        · simp [hj]
      · simp only [hE, if_false]
        by_cases hj : j = w
        · subst hj
          simp
        · simp [hj]
    · simp only [hi, if_false]
      split
      · rw [put_line_sets]
        simp [hi]
      · rfl
  · simp only [update_lru_stats]
    split <;> rfl
  · trivial

theorem dcache_read_miss (g_mode : Int) (c : cache_t) (addr : Nat)
    (h : cache_find_way c (decode_addressbyCacheType addr DATA).index
      (decode_addressbyCacheType addr DATA).tag DATA = -1) :
    (∀ i j, ((dcache_read g_mode c addr).1.sets i).ways j =
      if i = (decode_addressbyCacheType addr DATA).index then
        touched DWAYS (c.sets i) (fill_way c i DATA).toNat
          (decode_addressbyCacheType addr DATA).tag MESI_E j
      else (c.sets i).ways j) ∧
    (dcache_read g_mode c addr).1.stats =
      { reads := ulong_inc c.stats.reads, writes := c.stats.writes,
        hits := c.stats.hits, misses := ulong_inc c.stats.misses } ∧
    (dcache_read g_mode c addr).2 =
      (if cache_find_invalid_way c (decode_addressbyCacheType addr DATA).index DATA < 0 ∧
          ((c.sets (decode_addressbyCacheType addr DATA).index).ways
            (cache_find_lru_way c (decode_addressbyCacheType addr DATA).index DATA).toNat).mesi
            = MESI_M
        then msg_write_to_l2 g_mode else []) ++ msg_read_from_l2 g_mode := by
  have hf : ∀ st, cache_find_way { c with stats := st } (decode_addressbyCacheType addr DATA).index
      (decode_addressbyCacheType addr DATA).tag DATA = -1 := fun _ => h
  have hi : ∀ st, cache_find_invalid_way { c with stats := st }
      (decode_addressbyCacheType addr DATA).index DATA =
      cache_find_invalid_way c (decode_addressbyCacheType addr DATA).index DATA := fun _ => rfl
  have hl : ∀ st, cache_find_lru_way { c with stats := st }
      (decode_addressbyCacheType addr DATA).index DATA =
      cache_find_lru_way c (decode_addressbyCacheType addr DATA).index DATA := fun _ => rfl
  have hneg : ¬ ((-1 : Int) ≥ 0) := by decide
  unfold dcache_read
  simp only [hf, hneg, if_false, hi, hl, cache_t.line]
  refine ⟨?_, ?_, ?_⟩
  · intro i j
    rw [update_lru_sets]
    by_cases hidx : i = (decode_addressbyCacheType addr DATA).index
    · subst hidx
      have hw : get_ways_byCacheType DATA = DWAYS := rfl
      have hfw : (if cache_find_invalid_way c (decode_addressbyCacheType addr DATA).index DATA < 0
          then (cache_find_lru_way c (decode_addressbyCacheType addr DATA).index DATA,
            if ((c.sets (decode_addressbyCacheType addr DATA).index).ways
              (cache_find_lru_way c (decode_addressbyCacheType addr DATA).index DATA).toNat).mesi
              = MESI_M then msg_write_to_l2 g_mode else [])
          else (cache_find_invalid_way c (decode_addressbyCacheType addr DATA).index DATA, [])).1
          = fill_way c (decode_addressbyCacheType addr DATA).index DATA := by
        unfold fill_way
        split <;> rfl
      simp only [hfw, if_true, touched, hw, put_line_sets, true_and]
      by_cases hj : j = (fill_way c (decode_addressbyCacheType addr DATA).index DATA).toNat
      · simp [hj]
      · simp [hj]
    · simp only [hidx, if_false, put_line_sets, false_and]
  · simp only [update_lru_stats, put_line_stats]
  · split
    · rename_i hlt
      simp [hlt]
    · rename_i hlt
      simp [hlt]

theorem icache_ifetch_hit (g_mode : Int) (c : cache_t) (addr w : Nat)
    (h : cache_find_way c (decode_addressbyCacheType addr INSTRUCTION).index
      (decode_addressbyCacheType addr INSTRUCTION).tag INSTRUCTION = (w : Int)) :
    (∀ i j, ((icache_ifetch g_mode c addr).1.sets i).ways j =
      if i = (decode_addressbyCacheType addr INSTRUCTION).index then
        touched IWAYS (c.sets i) w ((c.sets i).ways w).tag
          (if ((c.sets i).ways w).mesi = MESI_E then MESI_S else ((c.sets i).ways w).mesi) j
      else (c.sets i).ways j) ∧
    (icache_ifetch g_mode c addr).1.stats =
      { reads := ulong_inc c.stats.reads, writes := c.stats.writes,
        hits := ulong_inc c.stats.hits, misses := c.stats.misses } ∧
    (icache_ifetch g_mode c addr).2 = [] := by
  have hf : ∀ st, cache_find_way { c with stats := st }
      (decode_addressbyCacheType addr INSTRUCTION).index
      (decode_addressbyCacheType addr INSTRUCTION).tag INSTRUCTION = (w : Int) := fun _ => h
  unfold icache_ifetch
  simp only [hf, ge_iff_le, Int.natCast_nonneg, if_true, Int.toNat_ofNat, cache_t.line]
  refine ⟨?_, ?_, ?_⟩
  · intro i j
    rw [update_lru_sets]
    by_cases hi : i = (decode_addressbyCacheType addr INSTRUCTION).index
    · subst hi
      simp only [if_true, touched, Int.toNat_ofNat]
      have hw : get_ways_byCacheType INSTRUCTION = IWAYS := rfl
      rw [hw]
      by_cases hE :
          ((c.sets (decode_addressbyCacheType addr INSTRUCTION).index).ways w).mesi = MESI_E
      · simp only [hE, if_true, put_line_sets, true_and]
        by_cases hj : j = w
        · subst hj
          simp
        · simp [hj]
      · simp only [hE, if_false]
        by_cases hj : j = w
        · subst hj
          simp
        · simp [hj]
    · simp only [hi, if_false]
      split
      · rw [put_line_sets]
        simp [hi]
      · rfl
  · simp only [update_lru_stats]
    split <;> rfl
  · trivial

theorem icache_ifetch_miss (g_mode : Int) (c : cache_t) (addr : Nat)
    (h : cache_find_way c (decode_addressbyCacheType addr INSTRUCTION).index
      (decode_addressbyCacheType addr INSTRUCTION).tag INSTRUCTION = -1) :
    (∀ i j, ((icache_ifetch g_mode c addr).1.sets i).ways j =
      if i = (decode_addressbyCacheType addr INSTRUCTION).index then
        touched IWAYS (c.sets i) (fill_way c i INSTRUCTION).toNat
          (decode_addressbyCacheType addr INSTRUCTION).tag MESI_E j
      else (c.sets i).ways j) ∧
    (icache_ifetch g_mode c addr).1.stats =
      { reads := ulong_inc c.stats.reads, writes := c.stats.writes,
        hits := c.stats.hits, misses := ulong_inc c.stats.misses } ∧
    (icache_ifetch g_mode c addr).2 = msg_read_from_l2 g_mode := by
  have hf : ∀ st, cache_find_way { c with stats := st }
      (decode_addressbyCacheType addr INSTRUCTION).index
      (decode_addressbyCacheType addr INSTRUCTION).tag INSTRUCTION = -1 := fun _ => h
  have hi : ∀ st, cache_find_invalid_way { c with stats := st }
      (decode_addressbyCacheType addr INSTRUCTION).index INSTRUCTION =
      cache_find_invalid_way c (decode_addressbyCacheType addr INSTRUCTION).index INSTRUCTION :=
    fun _ => rfl
  have hl : ∀ st, cache_find_lru_way { c with stats := st }
      (decode_addressbyCacheType addr INSTRUCTION).index INSTRUCTION =
      cache_find_lru_way c (decode_addressbyCacheType addr INSTRUCTION).index INSTRUCTION :=
    fun _ => rfl
  have hneg : ¬ ((-1 : Int) ≥ 0) := by decide
  unfold icache_ifetch
  simp only [hf, hneg, if_false, hi, hl, cache_t.line]
  refine ⟨?_, ?_, ?_⟩
  · intro i j
    rw [update_lru_sets]
    by_cases hidx : i = (decode_addressbyCacheType addr INSTRUCTION).index
    · subst hidx
      have hw : get_ways_byCacheType INSTRUCTION = IWAYS := rfl
      have hfw : (if cache_find_invalid_way c
            (decode_addressbyCacheType addr INSTRUCTION).index INSTRUCTION < 0
          then cache_find_lru_way c (decode_addressbyCacheType addr INSTRUCTION).index INSTRUCTION
          else cache_find_invalid_way c
            (decode_addressbyCacheType addr INSTRUCTION).index INSTRUCTION)
          = fill_way c (decode_addressbyCacheType addr INSTRUCTION).index INSTRUCTION := rfl
      simp only [hfw, if_true, touched, hw, put_line_sets, true_and]
      by_cases hj : j = (fill_way c (decode_addressbyCacheType addr INSTRUCTION).index
          INSTRUCTION).toNat
      · simp [hj]
      · simp [hj]
    · simp only [hidx, if_false, put_line_sets, false_and]
  · simp only [update_lru_stats, put_line_stats]
  · trivial

theorem dcache_write_hit (g_mode : Int) (c : cache_t) (addr w : Nat)
    (h : cache_find_way c (decode_addressbyCacheType addr INSTRUCTION).index
      (decode_addressbyCacheType addr INSTRUCTION).tag DATA = (w : Int)) :
    (∀ i j, ((dcache_write g_mode c addr).1.sets i).ways j =
      if i = (decode_addressbyCacheType addr INSTRUCTION).index then
        touched DWAYS (c.sets i) w ((c.sets i).ways w).tag
          (if ((c.sets i).ways w).mesi = MESI_E ∨ ((c.sets i).ways w).mesi = MESI_S
            then MESI_M else ((c.sets i).ways w).mesi) j
      else (c.sets i).ways j) ∧
    (dcache_write g_mode c addr).1.stats =
      { reads := c.stats.reads, writes := ulong_inc c.stats.writes,
        hits := ulong_inc c.stats.hits, misses := c.stats.misses } ∧
    (dcache_write g_mode c addr).2 = [] := by
  have hf : ∀ st, cache_find_way { c with stats := st }
      (decode_addressbyCacheType addr INSTRUCTION).index
      (decode_addressbyCacheType addr INSTRUCTION).tag DATA = (w : Int) := fun _ => h
  unfold dcache_write
  simp only [hf, ge_iff_le, Int.natCast_nonneg, if_true, Int.toNat_ofNat, cache_t.line]
  refine ⟨?_, ?_, ?_⟩
  · intro i j
    rw [update_lru_sets]
    by_cases hi : i = (decode_addressbyCacheType addr INSTRUCTION).index
    · subst hi
      simp only [if_true, touched, Int.toNat_ofNat]
      have hw : get_ways_byCacheType DATA = DWAYS := rfl
      rw [hw]
      by_cases hE :
          ((c.sets (decode_addressbyCacheType addr INSTRUCTION).index).ways w).mesi = MESI_E ∨
          ((c.sets (decode_addressbyCacheType addr INSTRUCTION).index).ways w).mesi = MESI_S
      · simp only [hE, if_true, put_line_sets, true_and]
        by_cases hj : j = w
        · subst hj
          simp
        · simp [hj]
      · simp only [hE, if_false]
        by_cases hj : j = w
        · subst hj
          simp
        · simp [hj]
    · simp only [hi, if_false]
      split
      · rw [put_line_sets]
        simp [hi]
      · rfl
  · simp only [update_lru_stats]
    split <;> rfl
  · trivial

theorem dcache_write_miss (g_mode : Int) (c : cache_t) (addr : Nat)
    (h : cache_find_way c (decode_addressbyCacheType addr INSTRUCTION).index
      (decode_addressbyCacheType addr INSTRUCTION).tag DATA = -1) :
    (∀ i j, ((dcache_write g_mode c addr).1.sets i).ways j =
      if i = (decode_addressbyCacheType addr INSTRUCTION).index then
        touched DWAYS (c.sets i) (fill_way c i DATA).toNat
          (decode_addressbyCacheType addr INSTRUCTION).tag MESI_M j
      else (c.sets i).ways j) ∧
    (dcache_write g_mode c addr).1.stats =
      { reads := c.stats.reads, writes := ulong_inc c.stats.writes,
        hits := c.stats.hits, misses := ulong_inc c.stats.misses } ∧
    (dcache_write g_mode c addr).2 =
      (if cache_find_invalid_way c (decode_addressbyCacheType addr INSTRUCTION).index DATA < 0 ∧
          ((c.sets (decode_addressbyCacheType addr INSTRUCTION).index).ways
            (cache_find_lru_way c
              (decode_addressbyCacheType addr INSTRUCTION).index DATA).toNat).mesi = MESI_M
        then msg_write_to_l2 g_mode else []) ++ msg_rfo_from_l2 g_mode ++
        msg_write_to_l2 g_mode := by
  have hf : ∀ st, cache_find_way { c with stats := st }
      (decode_addressbyCacheType addr INSTRUCTION).index
      (decode_addressbyCacheType addr INSTRUCTION).tag DATA = -1 := fun _ => h
  have hi : ∀ st, cache_find_invalid_way { c with stats := st }
      (decode_addressbyCacheType addr INSTRUCTION).index DATA =
      cache_find_invalid_way c (decode_addressbyCacheType addr INSTRUCTION).index DATA :=
    fun _ => rfl
  have hl : ∀ st, cache_find_lru_way { c with stats := st }
      (decode_addressbyCacheType addr INSTRUCTION).index DATA =
      cache_find_lru_way c (decode_addressbyCacheType addr INSTRUCTION).index DATA :=
    fun _ => rfl
  have hneg : ¬ ((-1 : Int) ≥ 0) := by decide
  unfold dcache_write
  simp only [hf, hneg, if_false, hi, hl, cache_t.line]
  refine ⟨?_, ?_, ?_⟩
  · intro i j
    rw [update_lru_sets]
    by_cases hidx : i = (decode_addressbyCacheType addr INSTRUCTION).index
    · subst hidx
      have hw : get_ways_byCacheType DATA = DWAYS := rfl
      have hfw : (if cache_find_invalid_way c
            (decode_addressbyCacheType addr INSTRUCTION).index DATA < 0
          then (cache_find_lru_way c (decode_addressbyCacheType addr INSTRUCTION).index DATA,
            if ((c.sets (decode_addressbyCacheType addr INSTRUCTION).index).ways
              (cache_find_lru_way c
                (decode_addressbyCacheType addr INSTRUCTION).index DATA).toNat).mesi
              = MESI_M then msg_write_to_l2 g_mode else [])
          else (cache_find_invalid_way c
            (decode_addressbyCacheType addr INSTRUCTION).index DATA, [])).1
          = fill_way c (decode_addressbyCacheType addr INSTRUCTION).index DATA := by
        unfold fill_way
        split <;> rfl
      simp only [hfw, if_true, touched, hw, put_line_sets, true_and]
      by_cases hj : j = (fill_way c (decode_addressbyCacheType addr INSTRUCTION).index DATA).toNat
      · simp [hj]
      · simp [hj]
    · simp only [hidx, if_false, put_line_sets, false_and]
  · simp only [update_lru_stats, put_line_stats]
  · split
    · rename_i hlt
      simp [hlt]
    · rename_i hlt
      simp [hlt]

theorem dcache_invalidate_hit (c : cache_t) (addr w : Nat)
    (h : cache_find_way c (decode_addressbyCacheType addr INSTRUCTION).index
      (decode_addressbyCacheType addr INSTRUCTION).tag DATA = (w : Int)) :
    dcache_invalidate c addr =
      (c.put_line (decode_addressbyCacheType addr INSTRUCTION).index w
        { (c.sets (decode_addressbyCacheType addr INSTRUCTION).index).ways w with
          mesi := MESI_I }, []) := by
  unfold dcache_invalidate
  simp only [h, ge_iff_le, Int.natCast_nonneg, if_true, Int.toNat_ofNat, cache_t.line]

theorem dcache_invalidate_miss (c : cache_t) (addr : Nat)
    (h : cache_find_way c (decode_addressbyCacheType addr INSTRUCTION).index
      (decode_addressbyCacheType addr INSTRUCTION).tag DATA = -1) :
    dcache_invalidate c addr = (c, []) := by
  have hneg : ¬ ((-1 : Int) ≥ 0) := by decide
  unfold dcache_invalidate
  simp only [h, hneg, if_false]

theorem dcache_rfo_snoop_hit (g_mode : Int) (c : cache_t) (addr w : Nat)
    (h : cache_find_way c (decode_addressbyCacheType addr INSTRUCTION).index
      (decode_addressbyCacheType addr INSTRUCTION).tag DATA = (w : Int))
    (hm : ((c.sets (decode_addressbyCacheType addr INSTRUCTION).index).ways w).mesi ≠ MESI_I) :
    dcache_rfo_snoop g_mode c addr =
      (c.put_line (decode_addressbyCacheType addr INSTRUCTION).index w
        { (c.sets (decode_addressbyCacheType addr INSTRUCTION).index).ways w with
          mesi := MESI_I }, msg_return_data_to_l2 g_mode) := by
  have hm2 : ((c.sets (decode_addressbyCacheType addr INSTRUCTION).index).ways w).mesi = MESI_M ∨
      ((c.sets (decode_addressbyCacheType addr INSTRUCTION).index).ways w).mesi = MESI_E ∨
      ((c.sets (decode_addressbyCacheType addr INSTRUCTION).index).ways w).mesi = MESI_S := by
    cases hx : ((c.sets (decode_addressbyCacheType addr INSTRUCTION).index).ways w).mesi
    · exact absurd hx hm
    · simp
    · simp
    · simp
  unfold dcache_rfo_snoop
  simp only [h, ge_iff_le, Int.natCast_nonneg, if_true, Int.toNat_ofNat, cache_t.line, hm2]

theorem dcache_rfo_snoop_miss (g_mode : Int) (c : cache_t) (addr : Nat)
    (h : cache_find_way c (decode_addressbyCacheType addr INSTRUCTION).index
      (decode_addressbyCacheType addr INSTRUCTION).tag DATA = -1) :
    dcache_rfo_snoop g_mode c addr = (c, []) := by
  have hneg : ¬ ((-1 : Int) ≥ 0) := by decide
  unfold dcache_rfo_snoop
  simp only [h, hneg, if_false]

/-! ## Invariants of one set -/

theorem touched_lru (n : Nat) (s : set_t) (w t : Nat) (m : mesi_t) (j : Nat) :
    (touched n s w t m j).lru =
      if j = w then 0
      else if j < n ∧ (s.ways j).lru ≤ (s.ways w).lru then (s.ways j).lru + 1
      else (s.ways j).lru := by
  unfold touched
  split
  · rfl
  · split <;> rfl

theorem touched_mesi (n : Nat) (s : set_t) (w t : Nat) (m : mesi_t) (j : Nat) :
    (touched n s w t m j).mesi = if j = w then m else (s.ways j).mesi := by
  unfold touched
  split
  · rfl
  · split <;> rfl

theorem touched_tag (n : Nat) (s : set_t) (w t : Nat) (m : mesi_t) (j : Nat) :
    (touched n s w t m j).tag = if j = w then t else (s.ways j).tag := by
  unfold touched
  split
  · rfl
  · split <;> rfl

theorem lru_shape_touched (n : Nat) (s s2 : set_t) (w t : Nat) (m : mesi_t) (hw : w < n)
    (hinv : lru_shape n s)
    (hcond : (s.ways w).mesi ≠ MESI_I ∨ ∀ j, j < w → (s.ways j).mesi ≠ MESI_I)
    (h2 : ∀ j, s2.ways j = touched n s w t m j) : lru_shape n s2 := by
  obtain ⟨k, hk, hA, hB, hC⟩ := hinv
  have hwk : w ≤ k := by
    by_contra hlt
    have hkI := (hA k (le_refl k) (by omega)).2
    rcases hcond with h | h
    · exact h (hA w (by omega) hw).2
    · exact h k (by omega) hkI
  by_cases hlt : w < k
  · refine ⟨k, hk, ?_, ?_, ?_⟩
    · intro j hj hjn
      have hne : j ≠ w := by omega
      have h1 := hA j hj hjn
      have h3 := hB w hlt
      rw [h2 j]
      rw [touched_lru, touched_mesi, if_neg hne, if_neg hne]
      refine ⟨?_, h1.2⟩
      split
      · omega
      · exact h1.1
    · intro j hj
      have h1 := hB j hj
      have h3 := hB w hlt
      have h4 := hC j w hj hlt
      rw [h2 j, touched_lru]
      split
      · omega
      · split <;> omega
    · intro w1 w2 h1 h2k
      have b1 := hB w1 h1
      have b2 := hB w2 h2k
      have b3 := hB w hlt
      have c1 := hC w1 w2 h1 h2k
      have c2 := hC w1 w h1 hlt
      have c3 := hC w2 w h2k hlt
      rw [h2 w1, h2 w2, touched_lru, touched_lru]
      split <;> split <;> (try split) <;> (try split) <;> omega
  · have hwk2 : w = k := by omega
    subst hwk2
    have hwr := (hA w (le_refl w) hw).1
    refine ⟨w + 1, by omega, ?_, ?_, ?_⟩
    · intro j hj hjn
      have hne : j ≠ w := by omega
      have h1 := hA j (by omega) hjn
      rw [h2 j]
      rw [touched_lru, touched_mesi, if_neg hne, if_neg hne]
      refine ⟨?_, h1.2⟩
      have hc : j < n ∧ (s.ways j).lru ≤ (s.ways w).lru := ⟨hjn, by omega⟩
      rw [if_pos hc]
      push_cast
      omega
    · intro j hj
      rw [h2 j, touched_lru]
      by_cases e : j = w
      · rw [if_pos e]
        refine ⟨le_refl _, ?_⟩
        push_cast
        omega
      · have hjw : j < w := by omega
        have h1 := hB j hjw
        have hc : j < n ∧ (s.ways j).lru ≤ (s.ways w).lru := ⟨by omega, by omega⟩
        rw [if_neg e, if_pos hc]
        push_cast
        omega
    · intro w1 w2 h1 h2k
      rw [h2 w1, h2 w2, touched_lru, touched_lru]
      by_cases e1 : w1 = w
      · by_cases e2 : w2 = w
        · intro _
          omega
        · have b2 := hB w2 (by omega)
          have hc : w2 < n ∧ (s.ways w2).lru ≤ (s.ways w).lru := ⟨by omega, by omega⟩
          rw [if_pos e1, if_neg e2, if_pos hc]
          intro h
          omega
      · have b1 := hB w1 (by omega)
        have hc1 : w1 < n ∧ (s.ways w1).lru ≤ (s.ways w).lru := ⟨by omega, by omega⟩
        by_cases e2 : w2 = w
        · rw [if_neg e1, if_pos e2, if_pos hc1]
          intro h
          omega
        · have b2 := hB w2 (by omega)
          have hc2 : w2 < n ∧ (s.ways w2).lru ≤ (s.ways w).lru := ⟨by omega, by omega⟩
          have c1 := hC w1 w2 (by omega) (by omega)
          rw [if_neg e1, if_neg e2, if_pos hc1, if_pos hc2]
          intro h
          omega

/-- Changing states only (ranks kept, Invalid ways kept Invalid) keeps the rank shape. -/
theorem lru_shape_mesi (n : Nat) (s s2 : set_t) (hinv : lru_shape n s)
    (hl : ∀ j, (s2.ways j).lru = (s.ways j).lru)
    (hm : ∀ j, (s.ways j).mesi = MESI_I → (s2.ways j).mesi = MESI_I) : lru_shape n s2 := by
  obtain ⟨k, hk, hA, hB, hC⟩ := hinv
  refine ⟨k, hk, ?_, ?_, ?_⟩
  · intro j hj hjn
    rw [hl j]
    exact ⟨(hA j hj hjn).1, hm j (hA j hj hjn).2⟩
  · intro j hj
    rw [hl j]
    exact hB j hj
  · intro w1 w2 h1 h2
    rw [hl w1, hl w2]
    exact hC w1 w2 h1 h2

theorem no_dup_touched (n : Nat) (s s2 : set_t) (w t : Nat) (m : mesi_t)
    (hinv : no_dup n s)
    (hcond : ((s.ways w).mesi ≠ MESI_I ∧ (s.ways w).tag = t) ∨
      ∀ j, j < n → ¬ ((s.ways j).mesi ≠ MESI_I ∧ (s.ways j).tag = t))
    (hw : w < n)
    (h2 : ∀ j, s2.ways j = touched n s w t m j) : no_dup n s2 := by
  intro w1 w2 h1 h2n
  rw [h2 w1, h2 w2, touched_mesi, touched_mesi, touched_tag, touched_tag]
  by_cases e1 : w1 = w
  · by_cases e2 : w2 = w
    · intro _ _ _
      omega
    · rw [if_pos e1, if_neg e2, if_pos e1, if_neg e2]
      intro _ hm2 ht
      exfalso
      rcases hcond with ⟨ha, hb⟩ | hc
      · exact e2 (hinv w2 w h2n hw hm2 ha (by rw [hb, ht]))
      · exact hc w2 h2n ⟨hm2, ht.symm⟩
  · by_cases e2 : w2 = w
    · rw [if_neg e1, if_pos e2, if_neg e1, if_pos e2]
      intro hm1 _ ht
      exfalso
      rcases hcond with ⟨ha, hb⟩ | hc
      · exact e1 (hinv w1 w h1 hw hm1 ha (by rw [hb, ht]))
      · exact hc w1 h1 ⟨hm1, ht⟩
    · rw [if_neg e1, if_neg e2, if_neg e1, if_neg e2]
      exact hinv w1 w2 h1 h2n

/-- Changing states only (tags kept, no Invalid way revived) keeps residency unique. -/
theorem no_dup_mesi (n : Nat) (s s2 : set_t) (hinv : no_dup n s)
    (ht : ∀ j, (s2.ways j).tag = (s.ways j).tag)
    (hm : ∀ j, (s.ways j).mesi = MESI_I → (s2.ways j).mesi = MESI_I) : no_dup n s2 := by
  intro w1 w2 h1 h2 m1 m2
  rw [ht w1, ht w2]
  exact hinv w1 w2 h1 h2 (fun h => m1 (hm w1 h)) (fun h => m2 (hm w2 h))

/-! ## Invariants of a cache -/

theorem ways_pos (ctype : cache_typee) : 0 < get_ways_byCacheType ctype := by
  cases ctype <;> decide

theorem cache_init_ok (name : String) (ctype : cache_typee) :
    cache_ok ctype (cache_init name ctype) := by
  intro i hi
  have hs : ∀ j, j < get_ways_byCacheType ctype →
      ((cache_init name ctype).sets i).ways j =
        { tag := 0, mesi := MESI_I, lru := (get_ways_byCacheType ctype : Int) - 1 } := by
    intro j hj
    simp [cache_init, hi, hj]
  constructor
  · refine ⟨0, Nat.zero_le _, ?_, ?_, ?_⟩
    · intro w _ hw
      rw [hs w hw]
      simp
    · intro w hw
      omega
    · intro w1 w2 h1
      omega
  · intro w1 w2 h1 _ hm
    rw [hs w1 h1] at hm
    exact absurd rfl hm

theorem cache_clear_ok (c : cache_t) (ctype : cache_typee) :
    cache_ok ctype (cache_clear c ctype) := by
  intro i hi
  have hs : ∀ j, j < get_ways_byCacheType ctype →
      ((cache_clear c ctype).sets i).ways j =
        { tag := 0, mesi := MESI_I, lru := (get_ways_byCacheType ctype : Int) - 1 } := by
    intro j hj
    simp [cache_clear, hi, hj]
  constructor
  · refine ⟨0, Nat.zero_le _, ?_, ?_, ?_⟩
    · intro w _ hw
      rw [hs w hw]
      simp
    · intro w hw
      omega
    · intro w1 w2 h1
      omega
  · intro w1 w2 h1 _ hm
    rw [hs w1 h1] at hm
    exact absurd rfl hm

/-- An access (hit on way `w`, or fill of way `w` after a miss) keeps the invariants. -/
theorem cache_ok_touched (ctype : cache_typee) (c c2 : cache_t) (idx w t : Nat) (m : mesi_t)
    (hok : cache_ok ctype c) (hw : w < get_ways_byCacheType ctype)
    (hcond : (((c.sets idx).ways w).mesi ≠ MESI_I ∧ ((c.sets idx).ways w).tag = t) ∨
      ((∀ j, j < get_ways_byCacheType ctype →
          ¬ (((c.sets idx).ways j).mesi ≠ MESI_I ∧ ((c.sets idx).ways j).tag = t)) ∧
        ∀ j, j < w → ((c.sets idx).ways j).mesi ≠ MESI_I))
    (h : ∀ i j, (c2.sets i).ways j =
      if i = idx then touched (get_ways_byCacheType ctype) (c.sets i) w t m j
      else (c.sets i).ways j) : cache_ok ctype c2 := by
  intro i hi
  obtain ⟨hl, hd⟩ := hok i hi
  by_cases e : i = idx
  · subst e
    have h2 : ∀ j, (c2.sets i).ways j =
        touched (get_ways_byCacheType ctype) (c.sets i) w t m j := by
      intro j
      rw [h i j, if_pos rfl]
    constructor
    · refine lru_shape_touched _ _ _ w t m hw hl ?_ h2
      rcases hcond with ⟨ha, _⟩ | ⟨_, hb⟩
      · exact Or.inl ha
      · exact Or.inr hb
    · refine no_dup_touched _ _ _ w t m hd ?_ hw h2
      rcases hcond with ha | ⟨hb, _⟩
      · exact Or.inl ha
      · exact Or.inr hb
  · have h2 : ∀ j, (c2.sets i).ways j = (c.sets i).ways j := by
      intro j
      rw [h i j, if_neg e]
    constructor
    · exact lru_shape_mesi _ _ _ hl (fun j => by rw [h2 j]) (fun j hI => by rw [h2 j]; exact hI)
    · exact no_dup_mesi _ _ _ hd (fun j => by rw [h2 j]) (fun j hI => by rw [h2 j]; exact hI)

/-- Forcing one line to Invalid keeps the invariants. -/
theorem cache_ok_invalidated (ctype : cache_typee) (c : cache_t) (idx w : Nat)
    (hok : cache_ok ctype c) :
    cache_ok ctype (c.put_line idx w { (c.sets idx).ways w with mesi := MESI_I }) := by
  intro i hi
  obtain ⟨hl, hd⟩ := hok i hi
  constructor
  · refine lru_shape_mesi _ _ _ hl ?_ ?_
    · intro j
      rw [put_line_sets]
      split
      · rename_i hc
        rw [hc.1, hc.2]
      · rfl
    · intro j hI
      rw [put_line_sets]
      split
      · rfl
      · exact hI
  · refine no_dup_mesi _ _ _ hd ?_ ?_
    · intro j
      rw [put_line_sets]
      split
      · rename_i hc
        rw [hc.1, hc.2]
      · rfl
    · intro j hI
      rw [put_line_sets]
      split
      · rfl
      · exact hI

theorem dcache_read_ok (g_mode : Int) (c : cache_t) (addr : Nat) (hok : cache_ok DATA c) :
    cache_ok DATA (dcache_read g_mode c addr).1 := by
  rcases cache_find_way_spec c (decode_addressbyCacheType addr DATA).index
      (decode_addressbyCacheType addr DATA).tag DATA with ⟨h1, h2⟩ | ⟨w, hw, h1, h3, h4, _⟩
  · obtain ⟨w, hw, hf, hb, _⟩ := fill_way_spec c (decode_addressbyCacheType addr DATA).index DATA
    have hs := (dcache_read_miss g_mode c addr h1).1
    refine cache_ok_touched DATA c _ (decode_addressbyCacheType addr DATA).index w
      (decode_addressbyCacheType addr DATA).tag MESI_E hok hw (Or.inr ⟨h2, hb⟩) ?_
    intro i j
    rw [hs i j]
    by_cases e : i = (decode_addressbyCacheType addr DATA).index
    · subst e
      rw [if_pos rfl, if_pos rfl, hf]
      rfl
    · rw [if_neg e, if_neg e]
  · have hs := (dcache_read_hit g_mode c addr w h1).1
    refine cache_ok_touched DATA c _ (decode_addressbyCacheType addr DATA).index w
      ((c.sets (decode_addressbyCacheType addr DATA).index).ways w).tag
      (if ((c.sets (decode_addressbyCacheType addr DATA).index).ways w).mesi = MESI_E then MESI_S
        else ((c.sets (decode_addressbyCacheType addr DATA).index).ways w).mesi)
      hok hw (Or.inl ⟨h3, rfl⟩) ?_
    intro i j
    rw [hs i j]
    by_cases e : i = (decode_addressbyCacheType addr DATA).index
    · subst e
      rfl
    · rw [if_neg e, if_neg e]

theorem dcache_write_ok (g_mode : Int) (c : cache_t) (addr : Nat) (hok : cache_ok DATA c) :
    cache_ok DATA (dcache_write g_mode c addr).1 := by
  rcases cache_find_way_spec c (decode_addressbyCacheType addr INSTRUCTION).index
      (decode_addressbyCacheType addr INSTRUCTION).tag DATA with
    ⟨h1, h2⟩ | ⟨w, hw, h1, h3, h4, _⟩
  · obtain ⟨w, hw, hf, hb, _⟩ :=
      fill_way_spec c (decode_addressbyCacheType addr INSTRUCTION).index DATA
    have hs := (dcache_write_miss g_mode c addr h1).1
    refine cache_ok_touched DATA c _ (decode_addressbyCacheType addr INSTRUCTION).index w
      (decode_addressbyCacheType addr INSTRUCTION).tag MESI_M hok hw (Or.inr ⟨h2, hb⟩) ?_
    intro i j
    rw [hs i j]
    by_cases e : i = (decode_addressbyCacheType addr INSTRUCTION).index
    · subst e
      rw [if_pos rfl, if_pos rfl, hf]
      rfl
    · rw [if_neg e, if_neg e]
  · have hs := (dcache_write_hit g_mode c addr w h1).1
    refine cache_ok_touched DATA c _ (decode_addressbyCacheType addr INSTRUCTION).index w
      ((c.sets (decode_addressbyCacheType addr INSTRUCTION).index).ways w).tag
      (if ((c.sets (decode_addressbyCacheType addr INSTRUCTION).index).ways w).mesi = MESI_E ∨
          ((c.sets (decode_addressbyCacheType addr INSTRUCTION).index).ways w).mesi = MESI_S
        then MESI_M
        else ((c.sets (decode_addressbyCacheType addr INSTRUCTION).index).ways w).mesi)
      hok hw (Or.inl ⟨h3, rfl⟩) ?_
    intro i j
    rw [hs i j]
    by_cases e : i = (decode_addressbyCacheType addr INSTRUCTION).index
    · subst e
      rfl
    · rw [if_neg e, if_neg e]

theorem icache_ifetch_ok (g_mode : Int) (c : cache_t) (addr : Nat)
    (hok : cache_ok INSTRUCTION c) : cache_ok INSTRUCTION (icache_ifetch g_mode c addr).1 := by
  rcases cache_find_way_spec c (decode_addressbyCacheType addr INSTRUCTION).index
      (decode_addressbyCacheType addr INSTRUCTION).tag INSTRUCTION with
    ⟨h1, h2⟩ | ⟨w, hw, h1, h3, h4, _⟩
  · obtain ⟨w, hw, hf, hb, _⟩ :=
      fill_way_spec c (decode_addressbyCacheType addr INSTRUCTION).index INSTRUCTION
    have hs := (icache_ifetch_miss g_mode c addr h1).1
    refine cache_ok_touched INSTRUCTION c _ (decode_addressbyCacheType addr INSTRUCTION).index w
      (decode_addressbyCacheType addr INSTRUCTION).tag MESI_E hok hw (Or.inr ⟨h2, hb⟩) ?_
    intro i j
    rw [hs i j]
    by_cases e : i = (decode_addressbyCacheType addr INSTRUCTION).index
    · subst e
      rw [if_pos rfl, if_pos rfl, hf]
      rfl
    · rw [if_neg e, if_neg e]
  · have hs := (icache_ifetch_hit g_mode c addr w h1).1
    refine cache_ok_touched INSTRUCTION c _ (decode_addressbyCacheType addr INSTRUCTION).index w
      ((c.sets (decode_addressbyCacheType addr INSTRUCTION).index).ways w).tag
      (if ((c.sets (decode_addressbyCacheType addr INSTRUCTION).index).ways w).mesi = MESI_E
        then MESI_S
        else ((c.sets (decode_addressbyCacheType addr INSTRUCTION).index).ways w).mesi)
      hok hw (Or.inl ⟨h3, rfl⟩) ?_
    intro i j
    rw [hs i j]
    by_cases e : i = (decode_addressbyCacheType addr INSTRUCTION).index
    · subst e
      rfl
    · rw [if_neg e, if_neg e]

theorem dcache_invalidate_ok (c : cache_t) (addr : Nat) (hok : cache_ok DATA c) :
    cache_ok DATA (dcache_invalidate c addr).1 := by
  rcases cache_find_way_spec c (decode_addressbyCacheType addr INSTRUCTION).index
      (decode_addressbyCacheType addr INSTRUCTION).tag DATA with
    ⟨h1, _⟩ | ⟨w, _, h1, _, _, _⟩
  · rw [dcache_invalidate_miss c addr h1]
    exact hok
  · rw [dcache_invalidate_hit c addr w h1]
    exact cache_ok_invalidated DATA c _ w hok

theorem dcache_rfo_snoop_ok (g_mode : Int) (c : cache_t) (addr : Nat) (hok : cache_ok DATA c) :
    cache_ok DATA (dcache_rfo_snoop g_mode c addr).1 := by
  rcases cache_find_way_spec c (decode_addressbyCacheType addr INSTRUCTION).index
      (decode_addressbyCacheType addr INSTRUCTION).tag DATA with
    ⟨h1, _⟩ | ⟨w, _, h1, h3, _, _⟩
  · rw [dcache_rfo_snoop_miss g_mode c addr h1]
    exact hok
  · rw [dcache_rfo_snoop_hit g_mode c addr w h1 h3]
    exact cache_ok_invalidated DATA c _ w hok

theorem process_op_ok (g_mode : Int) (st : caches) (opcode : Int) (addr : Nat)
    (hok : caches_ok st) : caches_ok (process_op g_mode st opcode addr).1 := by
  obtain ⟨hI, hD⟩ := hok
  unfold process_op
  split
  · exact ⟨hI, dcache_read_ok g_mode _ addr hD⟩
  split
  · exact ⟨hI, dcache_write_ok g_mode _ addr hD⟩
  split
  · exact ⟨icache_ifetch_ok g_mode _ addr hI, hD⟩
  split
  · exact ⟨hI, dcache_invalidate_ok _ addr hD⟩
  split
  · exact ⟨hI, dcache_rfo_snoop_ok g_mode _ addr hD⟩
  split
  · exact ⟨cache_clear_ok _ _, cache_clear_ok _ _⟩
  split
  · exact ⟨hI, hD⟩
  · exact ⟨hI, hD⟩

/-- A property of the initial caches that every operation preserves holds after any trace. -/
theorem run_induction (P : caches → Prop) (g_mode : Int) (h0 : P init_caches)
    (hstep : ∀ st opcode addr, P st → P (process_op g_mode st opcode addr).1)
    (ops : List (Int × Nat)) : P (run g_mode ops) := by
  unfold run
  generalize init_caches = st at h0
  induction ops generalizing st with
  | nil => exact h0
  | cons op rest ih =>
    rw [List.foldl_cons]
    exact ih _ (hstep st op.1 op.2 h0)

theorem run_ok (g_mode : Int) (ops : List (Int × Nat)) : caches_ok (run g_mode ops) :=
  run_induction caches_ok g_mode ⟨cache_init_ok _ _, cache_init_ok _ _⟩
    (fun st opcode addr h => process_op_ok g_mode st opcode addr h) ops

/-! ## Ranks as permutations -/

theorem lru_shape_rank_shape (n : Nat) (s : set_t) (h : lru_shape n s) : rank_shape n s := by
  obtain ⟨k, hk, hA, hB, hC⟩ := h
  refine ⟨k, hk, ?_, hA⟩
  unfold ranks_perm ranks
  have hnd : ((List.range k).map (fun w => (s.ways w).lru)).Nodup :=
    List.Nodup.map_on
      (fun x hx y hy hxy => hC x y (List.mem_range.1 hx) (List.mem_range.1 hy) hxy)
      (List.nodup_range k)
  have hsub : (List.range k).map (fun w => (s.ways w).lru) ⊆ (List.range k).map Int.ofNat := by
    intro r hr
    obtain ⟨j, hj, hjr⟩ := List.mem_map.1 hr
    have hb := hB j (List.mem_range.1 hj)
    rw [hjr] at hb
    refine List.mem_map.2 ⟨r.toNat, List.mem_range.2 (by omega), ?_⟩
    exact Int.toNat_of_nonneg hb.1
  exact (List.subperm_of_subset hnd hsub).perm_of_length_le (by simp)

theorem rank_shape_full (n : Nat) (s : set_t) (h : rank_shape n s)
    (hfull : ∀ w, w < n → (s.ways w).mesi ≠ MESI_I) : ranks_perm n s := by
  obtain ⟨k, hk, hp, hA⟩ := h
  have hkn : k = n := by
    by_contra hne
    exact hfull k (by omega) (hA k (le_refl k) (by omega)).2
  subst hkn
  exact hp

/-! ## C1: the ranks of a set -/

/-- C1, the claim as stated fails: after the single data read `0 0x0` on the fresh caches
the ranks of set 0 of the data cache are `0, 8, 8, 8, 8, 8, 8, 8`, not a permutation of
`0..7` (and in the fresh caches every rank is `ways - 1`). -/
theorem C1_counterexample :
    ranks ((run 1 [(0, 0)]).D_cache.sets 0) DWAYS = [0, 8, 8, 8, 8, 8, 8, 8] ∧
    ¬ ranks_perm DWAYS ((run 1 [(0, 0)]).D_cache.sets 0) ∧
    ranks ((run 1 []).D_cache.sets 0) DWAYS = [7, 7, 7, 7, 7, 7, 7, 7] ∧
    ¬ ranks_perm DWAYS ((run 1 []).D_cache.sets 0) := by
  refine ⟨by decide, ?_, by decide, ?_⟩
  · intro h
    have h8 : (8 : Int) ∈ ranks ((run 1 [(0, 0)]).D_cache.sets 0) DWAYS := by decide
    have := (List.Perm.mem_iff h).1 h8
    revert this
    decide
  · intro h
    have h0 : (0 : Int) ∈ (List.range DWAYS).map Int.ofNat := by decide
    have := (List.Perm.mem_iff h).2 h0
    revert this
    decide

/-- C1 (amended): in every state reachable from the fresh caches by trace operations, every
set of either cache has, for some `k ≤ ways`, ranks of the ways `0..k-1` that are a
permutation of `0..k-1`, while every way `k..ways-1` is Invalid with rank `ways - 1 + k`;
so a set without an Invalid way has ranks that are a permutation of `0..ways-1`. -/
theorem C1_rank_shape (g_mode : Int) (ops : List (Int × Nat)) (i : Nat)
    (hi : i < NUM_SETS_DCACHE) :
    rank_shape DWAYS ((run g_mode ops).D_cache.sets i) ∧
    rank_shape IWAYS ((run g_mode ops).I_cache.sets i) ∧
    ((∀ w, w < DWAYS → (((run g_mode ops).D_cache.sets i).ways w).mesi ≠ MESI_I) →
      ranks_perm DWAYS ((run g_mode ops).D_cache.sets i)) ∧
    ((∀ w, w < IWAYS → (((run g_mode ops).I_cache.sets i).ways w).mesi ≠ MESI_I) →
      ranks_perm IWAYS ((run g_mode ops).I_cache.sets i)) := by
  obtain ⟨hI, hD⟩ := run_ok g_mode ops
  have hd := lru_shape_rank_shape _ _ (hD i hi).1
  have hiw := lru_shape_rank_shape _ _ (hI i hi).1
  exact ⟨hd, hiw, rank_shape_full _ _ hd, rank_shape_full _ _ hiw⟩

/-- C1 witness: set 0 of both caches after the trace `0 0x0`, `2 0x0`. -/
theorem C1_rank_shape_witness :
    rank_shape DWAYS ((run 1 [(0, 0), (2, 0)]).D_cache.sets 0) ∧
    rank_shape IWAYS ((run 1 [(0, 0), (2, 0)]).I_cache.sets 0) ∧
    ((∀ w, w < DWAYS → (((run 1 [(0, 0), (2, 0)]).D_cache.sets 0).ways w).mesi ≠ MESI_I) →
      ranks_perm DWAYS ((run 1 [(0, 0), (2, 0)]).D_cache.sets 0)) ∧
    ((∀ w, w < IWAYS → (((run 1 [(0, 0), (2, 0)]).I_cache.sets 0).ways w).mesi ≠ MESI_I) →
      ranks_perm IWAYS ((run 1 [(0, 0), (2, 0)]).I_cache.sets 0)) :=
  C1_rank_shape 1 [(0, 0), (2, 0)] 0 (by decide)

/-! ## C2, C3: address decode -/

theorem decode_type_irrel (addr : Nat) :
    decode_addressbyCacheType addr INSTRUCTION = decode_addressbyCacheType addr DATA := rfl

theorem decode_fields (addr : Nat) (ctype : cache_typee) :
    (decode_addressbyCacheType addr ctype).offset = addr &&& 63 ∧
    (decode_addressbyCacheType addr ctype).index = (addr >>> 6) &&& 16383 ∧
    (decode_addressbyCacheType addr ctype).tag = (addr >>> 20) &&& 4095 := by
  cases ctype
  · exact ⟨rfl, rfl, rfl⟩
  · exact ⟨rfl, rfl, rfl⟩

/-- C2: for either cache type the decoder returns `offset = addr & 63`,
`index = (addr >> 6) & 16383` and `tag = (addr >> 20) & 4095`, so the result does not
depend on the cache type (the handlers that pass type 0 decode like `dcache_read`). -/
theorem C2_decode (addr : Nat) (ctype : cache_typee) :
    (decode_addressbyCacheType addr ctype).offset = addr &&& 63 ∧
    (decode_addressbyCacheType addr ctype).index = (addr >>> 6) &&& 16383 ∧
    (decode_addressbyCacheType addr ctype).tag = (addr >>> 20) &&& 4095 ∧
    decode_addressbyCacheType addr INSTRUCTION = decode_addressbyCacheType addr DATA := by
  obtain ⟨ho, hix, ht⟩ := decode_fields addr ctype
  exact ⟨ho, hix, ht, decode_type_irrel addr⟩

theorem recompose (addr : Nat) (h : addr < 2 ^ 32) :
    (((addr >>> 20) &&& 4095) <<< 20) ||| (((addr >>> 6) &&& 16383) <<< 6) ||| (addr &&& 63)
      = addr := by
  apply Nat.eq_of_testBit_eq
  intro i
  have e1 : (4095 : Nat) = 2 ^ 12 - 1 := by norm_num
  have e2 : (16383 : Nat) = 2 ^ 14 - 1 := by norm_num
  have e3 : (63 : Nat) = 2 ^ 6 - 1 := by norm_num
  rw [e1, e2, e3]
  simp only [Nat.testBit_or, Nat.testBit_shiftLeft, Nat.testBit_and, Nat.testBit_shiftRight,
    Nat.testBit_two_pow_sub_one]
  by_cases h1 : i < 6
  · have a1 : ¬ i ≥ 20 := by omega
    have a2 : ¬ i ≥ 6 := by omega
    simp [*]
  · by_cases h2 : i < 20
    · have a1 : ¬ i ≥ 20 := by omega
      have a2 : i ≥ 6 := by omega
      have a3 : i - 6 < 14 := by omega
      have a4 : 6 + (i - 6) = i := by omega
      simp [*]
    · by_cases h3 : i < 32
      · have a1 : i ≥ 20 := by omega
        have a2 : i ≥ 6 := by omega
        have a3 : i - 20 < 12 := by omega
        have a4 : 20 + (i - 20) = i := by omega
        have a5 : ¬ i - 6 < 14 := by omega
        simp [*]
      · have hb : addr.testBit i = false := by
          apply Nat.testBit_lt_two_pow
          calc addr < 2 ^ 32 := h
            _ ≤ 2 ^ i := Nat.pow_le_pow_right (by norm_num) (by omega)
        have a3 : ¬ i - 20 < 12 := by omega
        have a5 : ¬ i - 6 < 14 := by omega
        simp [*]

/-- C3: for a 32-bit address, `(tag << 20) | (index << 6) | offset` of the decoded fields is
the address again, with `index < 16384`, `offset < 64` and `tag < 4096`. -/
theorem C3_roundtrip (addr : Nat) (ctype : cache_typee) (h : addr < 2 ^ 32) :
    ((decode_addressbyCacheType addr ctype).tag <<< 20) |||
      ((decode_addressbyCacheType addr ctype).index <<< 6) |||
      (decode_addressbyCacheType addr ctype).offset = addr ∧
    (decode_addressbyCacheType addr ctype).index < 16384 ∧
    (decode_addressbyCacheType addr ctype).offset < 64 ∧
    (decode_addressbyCacheType addr ctype).tag < 4096 := by
  obtain ⟨ho, hix, ht⟩ := decode_fields addr ctype
  rw [ho, hix, ht]
  refine ⟨recompose addr h, ?_, ?_, ?_⟩
  · exact Nat.and_lt_two_pow _ (by norm_num : (16383 : Nat) < 2 ^ 14)
  · exact Nat.and_lt_two_pow _ (by norm_num : (63 : Nat) < 2 ^ 6)
  · exact Nat.and_lt_two_pow _ (by norm_num : (4095 : Nat) < 2 ^ 12)

/-- C3 witness: the address `0xDEADBEEF` in the data cache. -/
theorem C3_roundtrip_witness :
    ((decode_addressbyCacheType 0xDEADBEEF DATA).tag <<< 20) |||
      ((decode_addressbyCacheType 0xDEADBEEF DATA).index <<< 6) |||
      (decode_addressbyCacheType 0xDEADBEEF DATA).offset = 0xDEADBEEF ∧
    (decode_addressbyCacheType 0xDEADBEEF DATA).index < 16384 ∧
    (decode_addressbyCacheType 0xDEADBEEF DATA).offset < 64 ∧
    (decode_addressbyCacheType 0xDEADBEEF DATA).tag < 4096 :=
  C3_roundtrip 0xDEADBEEF DATA (by decide)

/-! ## C4: no duplicate residency -/

theorem no_dup_find_way (c : cache_t) (ctype : cache_typee) (i tag w : Nat)
    (hd : no_dup (get_ways_byCacheType ctype) (c.sets i))
    (hw : w < get_ways_byCacheType ctype) (hm : ((c.sets i).ways w).mesi ≠ MESI_I)
    (ht : ((c.sets i).ways w).tag = tag) : cache_find_way c i tag ctype = (w : Int) := by
  rcases cache_find_way_spec c i tag ctype with ⟨_, h2⟩ | ⟨v, hv, h1, h3, h4, _⟩
  · exact absurd ⟨hm, ht⟩ (h2 w hw)
  · have : v = w := hd v w hv hw h3 hm (by rw [h4, ht])
    rw [h1, this]

/-- C4: in every state reachable from the fresh caches by trace operations, every set of
either cache holds at most one non-Invalid way with a given tag, so the way returned by
`cache_find_way` is the only match: every non-Invalid way holding the tag is that way. -/
theorem C4_no_duplicate_residency (g_mode : Int) (ops : List (Int × Nat)) (i : Nat)
    (hi : i < NUM_SETS_DCACHE) :
    no_dup DWAYS ((run g_mode ops).D_cache.sets i) ∧
    no_dup IWAYS ((run g_mode ops).I_cache.sets i) ∧
    (∀ tag w, w < DWAYS → (((run g_mode ops).D_cache.sets i).ways w).mesi ≠ MESI_I →
      (((run g_mode ops).D_cache.sets i).ways w).tag = tag →
      cache_find_way (run g_mode ops).D_cache i tag DATA = (w : Int)) ∧
    (∀ tag w, w < IWAYS → (((run g_mode ops).I_cache.sets i).ways w).mesi ≠ MESI_I →
      (((run g_mode ops).I_cache.sets i).ways w).tag = tag →
      cache_find_way (run g_mode ops).I_cache i tag INSTRUCTION = (w : Int)) := by
  obtain ⟨hI, hD⟩ := run_ok g_mode ops
  refine ⟨(hD i hi).2, (hI i hi).2, ?_, ?_⟩
  · intro tag w hw hm ht
    exact no_dup_find_way _ DATA i tag w (hD i hi).2 hw hm ht
  · intro tag w hw hm ht
    exact no_dup_find_way _ INSTRUCTION i tag w (hI i hi).2 hw hm ht

/-- C4 witness: set 0 of both caches after reads, a write, an invalidate and fetches that
all map to set 0. -/
theorem C4_no_duplicate_residency_witness :
    no_dup DWAYS ((run 1 [(0, 0), (1, 0x100000), (3, 0), (0, 0), (2, 0), (2, 0x100000)]).D_cache.sets 0) ∧
    no_dup IWAYS ((run 1 [(0, 0), (1, 0x100000), (3, 0), (0, 0), (2, 0), (2, 0x100000)]).I_cache.sets 0) ∧
    (∀ tag w, w < DWAYS →
      (((run 1 [(0, 0), (1, 0x100000), (3, 0), (0, 0), (2, 0), (2, 0x100000)]).D_cache.sets 0).ways w).mesi
        ≠ MESI_I →
      (((run 1 [(0, 0), (1, 0x100000), (3, 0), (0, 0), (2, 0), (2, 0x100000)]).D_cache.sets 0).ways w).tag
        = tag →
      cache_find_way (run 1 [(0, 0), (1, 0x100000), (3, 0), (0, 0), (2, 0), (2, 0x100000)]).D_cache
        0 tag DATA = (w : Int)) ∧
    (∀ tag w, w < IWAYS →
      (((run 1 [(0, 0), (1, 0x100000), (3, 0), (0, 0), (2, 0), (2, 0x100000)]).I_cache.sets 0).ways w).mesi
        ≠ MESI_I →
      (((run 1 [(0, 0), (1, 0x100000), (3, 0), (0, 0), (2, 0), (2, 0x100000)]).I_cache.sets 0).ways w).tag
        = tag →
      cache_find_way (run 1 [(0, 0), (1, 0x100000), (3, 0), (0, 0), (2, 0), (2, 0x100000)]).I_cache
        0 tag INSTRUCTION = (w : Int)) :=
  C4_no_duplicate_residency 1 [(0, 0), (1, 0x100000), (3, 0), (0, 0), (2, 0), (2, 0x100000)] 0
    (by decide)

/-! ## C6: notifications of a write miss -/

/-- C6, the claim as stated fails: the write `1 0x0` on the fresh data cache is a write
miss and emits two notifications (read-for-ownership, write), not three. -/
theorem C6_counterexample :
    cache_find_way (cache_init "D$" DATA) (decode_addressbyCacheType 0 DATA).index
      (decode_addressbyCacheType 0 DATA).tag DATA = -1 ∧
    (dcache_write 1 (cache_init "D$" DATA) 0).2 = [event.rfo_from_l2, event.write_to_l2] ∧
    (dcache_write 1 (cache_init "D$" DATA) 0).2.length ≠ 3 := by
  decide

/-- C6 (amended): with notifications enabled a write miss emits read-for-ownership then
write, preceded by a write-back exactly when the set has no Invalid way and the victim of
`cache_find_lru_way` is Modified: three notifications in that case, two otherwise. -/
theorem C6_write_miss_notifications (c : cache_t) (addr : Nat)
    (hmiss : cache_find_way c (decode_addressbyCacheType addr DATA).index
      (decode_addressbyCacheType addr DATA).tag DATA < 0) :
    (dcache_write 1 c addr).2 =
      (if cache_find_invalid_way c (decode_addressbyCacheType addr DATA).index DATA < 0 ∧
          ((c.sets (decode_addressbyCacheType addr DATA).index).ways
            (cache_find_lru_way c (decode_addressbyCacheType addr DATA).index DATA).toNat).mesi
            = MESI_M
        then [event.write_to_l2, event.rfo_from_l2, event.write_to_l2]
        else [event.rfo_from_l2, event.write_to_l2]) ∧
    (dcache_write 1 c addr).2.length =
      (if cache_find_invalid_way c (decode_addressbyCacheType addr DATA).index DATA < 0 ∧
          ((c.sets (decode_addressbyCacheType addr DATA).index).ways
            (cache_find_lru_way c (decode_addressbyCacheType addr DATA).index DATA).toNat).mesi
            = MESI_M
        then 3 else 2) := by
  have h1 : cache_find_way c (decode_addressbyCacheType addr INSTRUCTION).index
      (decode_addressbyCacheType addr INSTRUCTION).tag DATA = -1 := by
    rw [decode_type_irrel]
    rcases cache_find_way_spec c (decode_addressbyCacheType addr DATA).index
        (decode_addressbyCacheType addr DATA).tag DATA with ⟨h, _⟩ | ⟨w, _, h, _⟩
    · exact h
    · rw [h] at hmiss
      omega
  have hout := (dcache_write_miss 1 c addr h1).2.2
  rw [decode_type_irrel] at hout
  rw [hout]
  split
  · exact ⟨rfl, rfl⟩
  · exact ⟨rfl, rfl⟩

/-- C6 witness: a write of tag 0 to a set whose eight ways are Modified and hold the tags
1..8 (the write-back case). -/
theorem C6_write_miss_notifications_witness :
    (dcache_write 1
      { name := "D$", stats := { reads := 0, writes := 8, hits := 0, misses := 8 },
        sets := fun _ => ⟨fun j => { tag := j + 1, mesi := MESI_M, lru := (j : Int) }⟩ } 0).2 =
      [event.write_to_l2, event.rfo_from_l2, event.write_to_l2] :=
  ((C6_write_miss_notifications
    { name := "D$", stats := { reads := 0, writes := 8, hits := 0, misses := 8 },
      sets := fun _ => ⟨fun j => { tag := j + 1, mesi := MESI_M, lru := (j : Int) }⟩ } 0
    (by decide)).1).trans (by decide)

/-! ## C7: write hit -/

/-- C7: when the line of the address is resident (way `w`, found by `cache_find_way`, so in
state Exclusive, Shared or Modified), `dcache_write` leaves it in state Modified with its
tag, emits nothing in any mode, increments `writes` and `hits` by one (as `unsigned long`)
and leaves `misses` and `reads` unchanged. -/
theorem C7_write_hit (g_mode : Int) (c : cache_t) (addr w : Nat)
    (hres : cache_find_way c (decode_addressbyCacheType addr DATA).index
      (decode_addressbyCacheType addr DATA).tag DATA = (w : Int))
    (hstate : ((c.sets (decode_addressbyCacheType addr DATA).index).ways w).mesi = MESI_E ∨
      ((c.sets (decode_addressbyCacheType addr DATA).index).ways w).mesi = MESI_S ∨
      ((c.sets (decode_addressbyCacheType addr DATA).index).ways w).mesi = MESI_M) :
    (((dcache_write g_mode c addr).1.sets (decode_addressbyCacheType addr DATA).index).ways w).mesi
      = MESI_M ∧
    (((dcache_write g_mode c addr).1.sets (decode_addressbyCacheType addr DATA).index).ways w).tag
      = (decode_addressbyCacheType addr DATA).tag ∧
    (dcache_write g_mode c addr).2 = [] ∧
    (dcache_write g_mode c addr).1.stats.writes = ulong_inc c.stats.writes ∧
    (dcache_write g_mode c addr).1.stats.hits = ulong_inc c.stats.hits ∧
    (dcache_write g_mode c addr).1.stats.misses = c.stats.misses ∧
    (dcache_write g_mode c addr).1.stats.reads = c.stats.reads := by
  have h1 : cache_find_way c (decode_addressbyCacheType addr INSTRUCTION).index
      (decode_addressbyCacheType addr INSTRUCTION).tag DATA = (w : Int) := by
    rw [decode_type_irrel]
    exact hres
  obtain ⟨hs, hst, hout⟩ := dcache_write_hit g_mode c addr w h1
  rw [decode_type_irrel] at hs
  have htag : ((c.sets (decode_addressbyCacheType addr DATA).index).ways w).tag =
      (decode_addressbyCacheType addr DATA).tag := by
    rcases cache_find_way_spec c (decode_addressbyCacheType addr DATA).index
        (decode_addressbyCacheType addr DATA).tag DATA with ⟨h, _⟩ | ⟨v, _, h, _, h4, _⟩
    · rw [h] at hres
      omega
    · rw [h] at hres
      have : v = w := by omega
      rw [← this]
      exact h4
  refine ⟨?_, ?_, hout, ?_, ?_, ?_, ?_⟩
  · rw [hs, if_pos rfl, touched_mesi, if_pos rfl]
    rcases hstate with h | h | h
    · rw [h]
      rfl
    · rw [h]
      rfl
    · rw [h]
      rfl
  · rw [hs, if_pos rfl, touched_tag, if_pos rfl]
    exact htag
  · rw [hst]
  · rw [hst]
  · rw [hst]
  · rw [hst]

/-- C7 witness: a write to address 0 after a read of address 0 (line in state Exclusive). -/
theorem C7_write_hit_witness :
    (((dcache_write 1 (dcache_read 1 (cache_init "D$" DATA) 0).1 0).1.sets
      (decode_addressbyCacheType 0 DATA).index).ways 0).mesi = MESI_M ∧
    (dcache_write 1 (dcache_read 1 (cache_init "D$" DATA) 0).1 0).2 = [] :=
  ⟨(C7_write_hit 1 (dcache_read 1 (cache_init "D$" DATA) 0).1 0 0 (by decide)
      (Or.inl (by decide))).1,
    (C7_write_hit 1 (dcache_read 1 (cache_init "D$" DATA) 0).1 0 0 (by decide)
      (Or.inl (by decide))).2.2.1⟩

/-! ## C8: a read followed by a read of the same address -/

/-- After `dcache_read` the tag of the address is resident in its set. -/
theorem dcache_read_resident (g_mode : Int) (c : cache_t) (addr : Nat) :
    ∃ w : Nat, cache_find_way (dcache_read g_mode c addr).1
      (decode_addressbyCacheType addr DATA).index
      (decode_addressbyCacheType addr DATA).tag DATA = (w : Int) := by
  have key : ∃ w, w < get_ways_byCacheType DATA ∧
      (((dcache_read g_mode c addr).1.sets (decode_addressbyCacheType addr DATA).index).ways w).mesi
        ≠ MESI_I ∧
      (((dcache_read g_mode c addr).1.sets (decode_addressbyCacheType addr DATA).index).ways w).tag
        = (decode_addressbyCacheType addr DATA).tag := by
    rcases cache_find_way_spec c (decode_addressbyCacheType addr DATA).index
        (decode_addressbyCacheType addr DATA).tag DATA with ⟨h1, _⟩ | ⟨w, hw, h1, h3, h4, _⟩
    · obtain ⟨w, hw, hf, _, _⟩ :=
        fill_way_spec c (decode_addressbyCacheType addr DATA).index DATA
      have hs := (dcache_read_miss g_mode c addr h1).1
      refine ⟨w, hw, ?_, ?_⟩
      · rw [hs, if_pos rfl, touched_mesi, hf, Int.toNat_ofNat, if_pos rfl]
        decide
      · rw [hs, if_pos rfl, touched_tag, hf, Int.toNat_ofNat, if_pos rfl]
    · have hs := (dcache_read_hit g_mode c addr w h1).1
      refine ⟨w, hw, ?_, ?_⟩
      · rw [hs, if_pos rfl, touched_mesi, if_pos rfl]
        split
        · decide
        · exact h3
      · rw [hs, if_pos rfl, touched_tag, if_pos rfl]
        exact h4
  obtain ⟨w, hw, hm, ht⟩ := key
  rcases cache_find_way_spec (dcache_read g_mode c addr).1
      (decode_addressbyCacheType addr DATA).index
      (decode_addressbyCacheType addr DATA).tag DATA with ⟨_, h2⟩ | ⟨v, _, h, _⟩
  · exact absurd ⟨hm, ht⟩ (h2 w hw)
  · exact ⟨v, h⟩

/-- C8: for every data-cache state and address, a second `dcache_read` of the same address
right after a first one is a hit: the tag is found, `misses` is unchanged, `hits` and
`reads` are each incremented by one (as `unsigned long`), `writes` is unchanged and nothing
is emitted. -/
theorem C8_read_then_read_hits (g_mode : Int) (c : cache_t) (addr : Nat) :
    cache_find_way (dcache_read g_mode c addr).1 (decode_addressbyCacheType addr DATA).index
      (decode_addressbyCacheType addr DATA).tag DATA ≥ 0 ∧
    (dcache_read g_mode (dcache_read g_mode c addr).1 addr).1.stats.misses =
      (dcache_read g_mode c addr).1.stats.misses ∧
    (dcache_read g_mode (dcache_read g_mode c addr).1 addr).1.stats.hits =
      ulong_inc (dcache_read g_mode c addr).1.stats.hits ∧
    (dcache_read g_mode (dcache_read g_mode c addr).1 addr).1.stats.reads =
      ulong_inc (dcache_read g_mode c addr).1.stats.reads ∧
    (dcache_read g_mode (dcache_read g_mode c addr).1 addr).1.stats.writes =
      (dcache_read g_mode c addr).1.stats.writes ∧
    (dcache_read g_mode (dcache_read g_mode c addr).1 addr).2 = [] := by
  obtain ⟨w, hw⟩ := dcache_read_resident g_mode c addr
  obtain ⟨_, hst, hout⟩ := dcache_read_hit g_mode (dcache_read g_mode c addr).1 addr w hw
  refine ⟨?_, ?_, ?_, ?_, ?_, hout⟩
  · rw [hw]
    exact Int.natCast_nonneg w
  · rw [hst]
  · rw [hst]
  · rw [hst]
  · rw [hst]

/-! ## C10: the instruction cache is never Modified -/

/-- No line of the cache is in state Modified. -/
theorem icache_ifetch_no_M (g_mode : Int) (c : cache_t) (addr : Nat)
    (h : ∀ i j, ((c.sets i).ways j).mesi ≠ MESI_M) :
    ∀ i j, (((icache_ifetch g_mode c addr).1.sets i).ways j).mesi ≠ MESI_M := by
  intro i j
  rcases cache_find_way_spec c (decode_addressbyCacheType addr INSTRUCTION).index
      (decode_addressbyCacheType addr INSTRUCTION).tag INSTRUCTION with
    ⟨h1, _⟩ | ⟨w, _, h1, _, _, _⟩
  · rw [(icache_ifetch_miss g_mode c addr h1).1 i j]
    split
    · rw [touched_mesi]
      split
      · decide
      · exact h i j
    · exact h i j
  · rw [(icache_ifetch_hit g_mode c addr w h1).1 i j]
    split
    · rw [touched_mesi]
      split
      · split
        · decide
        · exact h i w
      · exact h i j
    · exact h i j

theorem cache_clear_no_M (c : cache_t) (ctype : cache_typee)
    (h : ∀ i j, ((c.sets i).ways j).mesi ≠ MESI_M) :
    ∀ i j, (((cache_clear c ctype).sets i).ways j).mesi ≠ MESI_M := by
  intro i j
  unfold cache_clear
  simp only []
  split
  · simp only []
    split
    · show MESI_I ≠ MESI_M
      decide
    · exact h i j
  · exact h i j

theorem process_op_no_M (g_mode : Int) (st : caches) (opcode : Int) (addr : Nat)
    (h : ∀ i j, ((st.I_cache.sets i).ways j).mesi ≠ MESI_M) :
    ∀ i j, ((((process_op g_mode st opcode addr).1).I_cache.sets i).ways j).mesi ≠ MESI_M := by
  unfold process_op
  split
  · exact h
  split
  · exact h
  split
  · exact icache_ifetch_no_M g_mode _ addr h
  split
  · exact h
  split
  · exact h
  split
  · exact cache_clear_no_M _ _ h
  split
  · exact h
  · exact h

/-- C10: in every state reachable from the fresh caches by trace operations, every line of
the instruction cache is Invalid, Shared or Exclusive; Modified is never reached. -/
theorem C10_icache_never_modified (g_mode : Int) (ops : List (Int × Nat)) (i j : Nat) :
    (((run g_mode ops).I_cache.sets i).ways j).mesi ≠ MESI_M ∧
    ((((run g_mode ops).I_cache.sets i).ways j).mesi = MESI_I ∨
      (((run g_mode ops).I_cache.sets i).ways j).mesi = MESI_S ∨
      (((run g_mode ops).I_cache.sets i).ways j).mesi = MESI_E) := by
  have h := run_induction (fun st => ∀ i j, ((st.I_cache.sets i).ways j).mesi ≠ MESI_M) g_mode
    (by
      intro i j
      simp only [init_caches, cache_init]
      split
      · simp only []
        split
        · show MESI_I ≠ MESI_M
          decide
        · show MESI_I ≠ MESI_M
          decide
      · show MESI_I ≠ MESI_M
        decide)
    (fun st opcode addr hst => process_op_no_M g_mode st opcode addr hst) ops i j
  refine ⟨h, ?_⟩
  cases hm : (((run g_mode ops).I_cache.sets i).ways j).mesi
  · exact Or.inl rfl
  · exact Or.inr (Or.inl rfl)
  · exact Or.inr (Or.inr rfl)
  · exact absurd hm h

/-! ## C9: clear -/

theorem print_fold_invalid (set : set_t) (i nw : Nat) (acc : Bool × List event) (n : Nat)
    (h : ∀ w, w < n → (set.ways w).mesi = MESI_I) :
    (List.range n).foldl (print_way_step set i nw) acc = acc := by
  induction n with
  | zero => rfl
  | succ n ih =>
    rw [List.range_succ, List.foldl_append, ih (fun w hw => h w (by omega))]
    simp only [List.foldl_cons, List.foldl_nil]
    unfold print_way_step
    simp [h n (by omega)]

theorem print_set_invalid (set : set_t) (i n : Nat)
    (h : ∀ w, w < n → (set.ways w).mesi = MESI_I) : print_set set i n = [] := by
  unfold print_set
  rw [print_fold_invalid set i n _ n h]

/-- A cache whose lines are all Invalid prints its title and no set. -/
theorem cache_print_invalid (c : cache_t) (ctype : cache_typee)
    (h : ∀ i, i < get_numsets_byCacheType ctype → ∀ w, w < get_ways_byCacheType ctype →
      ((c.sets i).ways w).mesi = MESI_I) :
    cache_print c ctype = [event.contents c.name] := by
  unfold cache_print
  simp only [List.cons.injEq, true_and]
  rw [List.flatten_eq_nil_iff]
  intro l hl
  obtain ⟨i, hi, rfl⟩ := List.mem_map.1 hl
  exact print_set_invalid _ _ _ (h i (List.mem_range.1 hi))

theorem cache_clear_line (c : cache_t) (ctype : cache_typee) (i w : Nat)
    (hi : i < get_numsets_byCacheType ctype) (hw : w < get_ways_byCacheType ctype) :
    ((cache_clear c ctype).sets i).ways w =
      { tag := 0, mesi := MESI_I, lru := (get_ways_byCacheType ctype : Int) - 1 } := by
  simp [cache_clear, hi, hw]

theorem cache_init_line (name : String) (ctype : cache_typee) (i w : Nat)
    (hi : i < get_numsets_byCacheType ctype) (hw : w < get_ways_byCacheType ctype) :
    ((cache_init name ctype).sets i).ways w =
      { tag := 0, mesi := MESI_I, lru := (get_ways_byCacheType ctype : Int) - 1 } := by
  simp [cache_init, hi, hw]

theorem cache_clear_idem (c : cache_t) (ctype : cache_typee) :
    cache_clear (cache_clear c ctype) ctype = cache_clear c ctype := by
  unfold cache_clear
  simp only [cache_t.mk.injEq, true_and, and_true]
  funext i
  by_cases hi : i < get_numsets_byCacheType ctype
  · simp only [hi, if_true, set_t.mk.injEq]
    funext w
    by_cases hw : w < get_ways_byCacheType ctype
    · simp only [hw, if_true]
    · simp only [hw, if_false]
  · simp only [hi, if_false]

/-- C9: for every state of the two caches, opcode 8 leaves every line of every set of both
caches Invalid with tag 0 and rank `ways - 1` (3 and 7), as in the initial state, and all
counters 0; it prints nothing, the state print after it lists no set, and a second clear
changes nothing. -/
theorem C9_clear (g_mode : Int) (st : caches) (addr : Nat) :
    (∀ i w, i < NUM_SETS_ICACHE → w < IWAYS →
      (((process_op g_mode st 8 addr).1.I_cache.sets i).ways w =
          { tag := 0, mesi := MESI_I, lru := 3 } ∧
        ((process_op g_mode st 8 addr).1.I_cache.sets i).ways w =
          (init_caches.I_cache.sets i).ways w)) ∧
    (∀ i w, i < NUM_SETS_DCACHE → w < DWAYS →
      (((process_op g_mode st 8 addr).1.D_cache.sets i).ways w =
          { tag := 0, mesi := MESI_I, lru := 7 } ∧
        ((process_op g_mode st 8 addr).1.D_cache.sets i).ways w =
          (init_caches.D_cache.sets i).ways w)) ∧
    (process_op g_mode st 8 addr).1.I_cache.stats =
      { reads := 0, writes := 0, hits := 0, misses := 0 } ∧
    (process_op g_mode st 8 addr).1.D_cache.stats =
      { reads := 0, writes := 0, hits := 0, misses := 0 } ∧
    (process_op g_mode st 8 addr).2 = [] ∧
    (∀ addr2, (process_op g_mode (process_op g_mode st 8 addr).1 9 addr2).2 =
      [event.contents st.D_cache.name, event.contents st.I_cache.name]) ∧
    (∀ addr2, (process_op g_mode (process_op g_mode st 8 addr).1 8 addr2).1 =
      (process_op g_mode st 8 addr).1) := by
  have hc : ∀ a s, process_op g_mode s 8 a =
      ({ I_cache := cache_clear s.I_cache INSTRUCTION, D_cache := cache_clear s.D_cache DATA },
        []) := fun _ _ => rfl
  have hp : ∀ a s, process_op g_mode s 9 a =
      (s, cache_print s.D_cache DATA ++ cache_print s.I_cache INSTRUCTION) := fun _ _ => rfl
  rw [hc]
  refine ⟨?_, ?_, rfl, rfl, rfl, ?_, ?_⟩
  · intro i w hi hw
    constructor
    · exact cache_clear_line _ INSTRUCTION i w hi hw
    · rw [cache_clear_line _ INSTRUCTION i w hi hw]
      exact (cache_init_line _ INSTRUCTION i w hi hw).symm
  · intro i w hi hw
    constructor
    · exact cache_clear_line _ DATA i w hi hw
    · rw [cache_clear_line _ DATA i w hi hw]
      exact (cache_init_line _ DATA i w hi hw).symm
  · intro addr2
    rw [hp]
    simp only []
    rw [cache_print_invalid _ DATA, cache_print_invalid _ INSTRUCTION]
    · rfl
    · intro i hi w hw
      rw [cache_clear_line _ INSTRUCTION i w hi hw]
    · intro i hi w hw
      rw [cache_clear_line _ DATA i w hi hw]
  · intro addr2
    rw [hc]
    simp only [cache_clear_idem]

/-- C9 witness: clear after the trace `0 0x0`, `1 0x40`, `2 0x0`; line 0 of set 1 of the
data cache and line 0 of set 0 of the instruction cache are back to the initial line. -/
theorem C9_clear_witness :
    ((process_op 1 (run 1 [(0, 0), (1, 0x40), (2, 0)]) 8 0).1.D_cache.sets 1).ways 0 =
      { tag := 0, mesi := MESI_I, lru := 7 } ∧
    ((process_op 1 (run 1 [(0, 0), (1, 0x40), (2, 0)]) 8 0).1.I_cache.sets 0).ways 0 =
      { tag := 0, mesi := MESI_I, lru := 3 } :=
  ⟨((C9_clear 1 (run 1 [(0, 0), (1, 0x40), (2, 0)]) 0).2.1 1 0 (by decide) (by decide)).1,
    ((C9_clear 1 (run 1 [(0, 0), (1, 0x40), (2, 0)]) 0).1 0 0 (by decide) (by decide)).1⟩

/-! ## C5: eviction of the first-inserted line -/

theorem dcache_reads_snoc (g_mode : Int) (c : cache_t) (addrs : List Nat) (addr : Nat) :
    dcache_reads g_mode c (addrs ++ [addr]) =
      (dcache_read g_mode (dcache_reads g_mode c addrs) addr).1 := by
  unfold dcache_reads
  rw [List.foldl_append]
  rfl

/-- Reading `m ≤ 8` distinct tags into an all-Invalid set fills the ways `0..m-1` in order. -/
theorem fill_in_order (g_mode : Int) (c0 : cache_t) (a : Nat → Nat) (idx : Nat)
    (hinit : ∀ j, j < DWAYS → ((c0.sets idx).ways j).mesi = MESI_I ∧
      ((c0.sets idx).ways j).lru = 7)
    (hidx : ∀ k, k < 9 → (decode_addressbyCacheType (a k) DATA).index = idx)
    (htag : ∀ k1, k1 < 9 → ∀ k2, k2 < 9 → k1 ≠ k2 →
      (decode_addressbyCacheType (a k1) DATA).tag ≠ (decode_addressbyCacheType (a k2) DATA).tag)
    (m : Nat) (hm : m ≤ 8) :
    ∀ j, j < 8 →
      ((dcache_reads g_mode c0 ((List.range m).map a)).sets idx).ways j =
        if j < m then
          { tag := (decode_addressbyCacheType (a j) DATA).tag, mesi := MESI_E,
            lru := (m : Int) - 1 - j }
        else { tag := ((c0.sets idx).ways j).tag, mesi := MESI_I, lru := 7 + (m : Int) } := by
  induction m with
  | zero =>
    intro j hj
    obtain ⟨h1, h2⟩ := hinit j hj
    simp only [List.range_zero, List.map_nil, dcache_reads, List.foldl_nil, Nat.not_lt_zero,
      if_false]
    rw [← h1, ← h2]
    simp
  | succ m ih =>
    have hprev := ih (by omega)
    rw [List.range_succ, List.map_append, List.map_cons, List.map_nil, dcache_reads_snoc]
    generalize dcache_reads g_mode c0 ((List.range m).map a) = cm at hprev
    have hix : (decode_addressbyCacheType (a m) DATA).index = idx := hidx m (by omega)
    have hmiss : cache_find_way cm (decode_addressbyCacheType (a m) DATA).index
        (decode_addressbyCacheType (a m) DATA).tag DATA = -1 := by
      rcases cache_find_way_spec cm (decode_addressbyCacheType (a m) DATA).index
          (decode_addressbyCacheType (a m) DATA).tag DATA with ⟨h, _⟩ | ⟨w, hw, _, h3, h4, _⟩
      · exact h
      · exfalso
        rw [hix] at h3 h4
        have hw8 : w < 8 := hw
        rw [hprev w hw8] at h3 h4
        by_cases hwm : w < m
        · rw [if_pos hwm] at h4
          exact htag w (by omega) m (by omega) (by omega) h4
        · rw [if_neg hwm] at h3
          exact h3 rfl
    have hfill : fill_way cm idx DATA = (m : Int) := by
      obtain ⟨w, hw, hf, hb, hall⟩ := fill_way_spec cm idx DATA
      have hw8 : w < 8 := hw
      have hmI : ((cm.sets idx).ways m).mesi = MESI_I := by
        rw [hprev m (by omega), if_neg (lt_irrefl m)]
      have h1 : ¬ m < w := fun hlt => hb m hlt hmI
      have h2 : ¬ w < m := by
        intro hlt
        have hne : ((cm.sets idx).ways w).mesi ≠ MESI_I := by
          rw [hprev w hw8, if_pos hlt]
          show MESI_E ≠ MESI_I
          decide
        exact hall hne m (by show m < 8; omega) hmI
      have : w = m := by omega
      rw [hf, this]
    intro j hj
    have hs := (dcache_read_miss g_mode cm (a m) hmiss).1 idx j
    rw [hix, if_pos rfl, hfill, Int.toNat_ofNat] at hs
    rw [hs]
    unfold touched
    by_cases e1 : j = m
    · subst e1
      simp
    · rw [if_neg e1, hprev j hj, hprev m (by omega), if_neg (lt_irrefl m)]
      by_cases e2 : j < m
      · have e3 : j < m + 1 := by omega
        have hc : j < DWAYS ∧ (m : Int) - 1 - j ≤ 7 + m := ⟨hj, by omega⟩
        simp only [e2, e3, if_true, hc, and_self]
        simp only [line_t.mk.injEq, true_and]
        push_cast
        omega
      · have e3 : ¬ j < m + 1 := by omega
        have hc : j < DWAYS ∧ (7 : Int) + m ≤ 7 + m := ⟨hj, le_refl _⟩
        simp only [e2, e3, if_false, hc, and_self, if_true]
        simp only [line_t.mk.injEq, true_and]
        push_cast
        omega

/-- In a set whose way `j` has rank `7 - j`, the victim is way 0. -/
theorem find_lru_descending (c : cache_t) (idx : Nat)
    (h : ∀ j, j < 8 → ((c.sets idx).ways j).lru = 7 - (j : Int)) :
    cache_find_lru_way c idx DATA = 0 := by
  have h0 : ((c.sets idx).ways 0).lru = 7 := by simpa using h 0 (by omega)
  have h1 : ((c.sets idx).ways 1).lru = 6 := by
    have := h 1 (by omega)
    rw [this]
    norm_num
  have h2 : ((c.sets idx).ways 2).lru = 5 := by
    have := h 2 (by omega)
    rw [this]
    norm_num
  have h3 : ((c.sets idx).ways 3).lru = 4 := by
    have := h 3 (by omega)
    rw [this]
    norm_num
  have h4 : ((c.sets idx).ways 4).lru = 3 := by
    have := h 4 (by omega)
    rw [this]
    norm_num
  have h5 : ((c.sets idx).ways 5).lru = 2 := by
    have := h 5 (by omega)
    rw [this]
    norm_num
  have h6 : ((c.sets idx).ways 6).lru = 1 := by
    have := h 6 (by omega)
    rw [this]
    norm_num
  have h7 : ((c.sets idx).ways 7).lru = 0 := by
    have := h 7 (by omega)
    rw [this]
    norm_num
  have hr : List.range (get_ways_byCacheType DATA) = [0, 1, 2, 3, 4, 5, 6, 7] := by decide
  unfold cache_find_lru_way
  simp only [hr, List.foldl_cons, List.foldl_nil, find_lru_step, h0, h1, h2, h3, h4, h5, h6, h7]
  decide

/-- C5: starting from a data cache whose set `idx` is all Invalid with ranks 7 (as after
`cache_init` or `cache_clear`), nine data reads of addresses that map to set `idx` with
pairwise distinct tags fill the ways 0..7 in order, and the ninth read fills way 0: the first
tag is no longer resident, the other eight are, and the ways 1..7 keep their lines. -/
theorem C5_lru_eviction (g_mode : Int) (c0 : cache_t) (a : Nat → Nat) (idx : Nat)
    (hinit : ∀ j, j < DWAYS → ((c0.sets idx).ways j).mesi = MESI_I ∧
      ((c0.sets idx).ways j).lru = 7)
    (hidx : ∀ k, k < 9 → (decode_addressbyCacheType (a k) DATA).index = idx)
    (htag : ∀ k1, k1 < 9 → ∀ k2, k2 < 9 → k1 ≠ k2 →
      (decode_addressbyCacheType (a k1) DATA).tag ≠
        (decode_addressbyCacheType (a k2) DATA).tag) :
    (∀ j, j < 8 → ((dcache_reads g_mode c0 ((List.range 8).map a)).sets idx).ways j =
      { tag := (decode_addressbyCacheType (a j) DATA).tag, mesi := MESI_E,
        lru := 7 - (j : Int) }) ∧
    cache_find_way (dcache_reads g_mode c0 ((List.range 8).map a)) idx
      (decode_addressbyCacheType (a 8) DATA).tag DATA = -1 ∧
    fill_way (dcache_reads g_mode c0 ((List.range 8).map a)) idx DATA = 0 ∧
    ((dcache_reads g_mode c0 ((List.range 9).map a)).sets idx).ways 0 =
      { tag := (decode_addressbyCacheType (a 8) DATA).tag, mesi := MESI_E, lru := 0 } ∧
    (∀ j, 1 ≤ j → j < 8 → ((dcache_reads g_mode c0 ((List.range 9).map a)).sets idx).ways j =
      { tag := (decode_addressbyCacheType (a j) DATA).tag, mesi := MESI_E,
        lru := 8 - (j : Int) }) ∧
    cache_find_way (dcache_reads g_mode c0 ((List.range 9).map a)) idx
      (decode_addressbyCacheType (a 0) DATA).tag DATA = -1 ∧
    (∀ k, 1 ≤ k → k < 9 →
      cache_find_way (dcache_reads g_mode c0 ((List.range 9).map a)) idx
        (decode_addressbyCacheType (a k) DATA).tag DATA ≥ 0) := by
  have h8 : ∀ j, j < 8 → ((dcache_reads g_mode c0 ((List.range 8).map a)).sets idx).ways j =
      { tag := (decode_addressbyCacheType (a j) DATA).tag, mesi := MESI_E,
        lru := 7 - (j : Int) } := by
    intro j hj
    rw [fill_in_order g_mode c0 a idx hinit hidx htag 8 (le_refl 8) j hj, if_pos hj]
    simp only [line_t.mk.injEq, true_and]
    norm_num
  have hnine : dcache_reads g_mode c0 ((List.range 9).map a) =
      (dcache_read g_mode (dcache_reads g_mode c0 ((List.range 8).map a)) (a 8)).1 := by
    rw [List.range_succ, List.map_append, List.map_cons, List.map_nil, dcache_reads_snoc]
  rw [hnine]
  generalize dcache_reads g_mode c0 ((List.range 8).map a) = c8 at h8
  have hix : (decode_addressbyCacheType (a 8) DATA).index = idx := hidx 8 (by omega)
  have hmiss : cache_find_way c8 idx (decode_addressbyCacheType (a 8) DATA).tag DATA = -1 := by
    rcases cache_find_way_spec c8 idx (decode_addressbyCacheType (a 8) DATA).tag DATA with
      ⟨h, _⟩ | ⟨w, hw, _, _, h4, _⟩
    · exact h
    · exfalso
      have hw8 : w < 8 := hw
      rw [h8 w hw8] at h4
      exact htag w (by omega) 8 (by omega) (by omega) h4
  have hfill : fill_way c8 idx DATA = 0 := by
    unfold fill_way
    rcases cache_find_invalid_way_spec c8 idx DATA with ⟨h1, _⟩ | ⟨w, hw, _, h3, _⟩
    · rw [h1, if_pos (by decide)]
      exact find_lru_descending c8 idx (fun j hj => by rw [h8 j hj])
    · exfalso
      have hw8 : w < 8 := hw
      rw [h8 w hw8] at h3
      exact absurd h3 (show MESI_E ≠ MESI_I by decide)
  have hs : ∀ j, (((dcache_read g_mode c8 (a 8)).1).sets idx).ways j =
      touched DWAYS (c8.sets idx) 0 (decode_addressbyCacheType (a 8) DATA).tag MESI_E j := by
    intro j
    have := (dcache_read_miss g_mode c8 (a 8) (by rw [hix]; exact hmiss)).1 idx j
    rw [hix, if_pos rfl, hfill] at this
    exact this
  have h0 : (((dcache_read g_mode c8 (a 8)).1).sets idx).ways 0 =
      { tag := (decode_addressbyCacheType (a 8) DATA).tag, mesi := MESI_E, lru := 0 } := by
    rw [hs 0]
    rfl
  have hrest : ∀ j, 1 ≤ j → j < 8 → (((dcache_read g_mode c8 (a 8)).1).sets idx).ways j =
      { tag := (decode_addressbyCacheType (a j) DATA).tag, mesi := MESI_E,
        lru := 8 - (j : Int) } := by
    intro j hj1 hj8
    rw [hs j]
    unfold touched
    have e1 : j ≠ 0 := by omega
    have hc : j < DWAYS ∧ ((c8.sets idx).ways j).lru ≤ ((c8.sets idx).ways 0).lru := by
      refine ⟨hj8, ?_⟩
      rw [h8 j hj8, h8 0 (by omega)]
      simp only []
      push_cast
      omega
    rw [if_neg e1, if_pos hc, h8 j hj8]
    simp only [line_t.mk.injEq, true_and]
    omega
  refine ⟨h8, hmiss, hfill, h0, hrest, ?_, ?_⟩
  · rcases cache_find_way_spec (dcache_read g_mode c8 (a 8)).1 idx
        (decode_addressbyCacheType (a 0) DATA).tag DATA with ⟨h, _⟩ | ⟨w, hw, _, _, h4, _⟩
    · exact h
    · exfalso
      have hw8 : w < 8 := hw
      by_cases e : w = 0
      · subst e
        rw [h0] at h4
        exact htag 8 (by omega) 0 (by omega) (by omega) h4
      · rw [hrest w (by omega) hw8] at h4
        exact htag w (by omega) 0 (by omega) e h4
  · intro k hk1 hk9
    rcases cache_find_way_spec (dcache_read g_mode c8 (a 8)).1 idx
        (decode_addressbyCacheType (a k) DATA).tag DATA with ⟨_, h2⟩ | ⟨w, _, h, _⟩
    · exfalso
      by_cases e : k = 8
      · subst e
        refine h2 0 (by decide) ?_
        rw [h0]
        exact ⟨show MESI_E ≠ MESI_I by decide, rfl⟩
      · refine h2 k (by show k < 8; omega) ?_
        rw [hrest k hk1 (by omega)]
        exact ⟨show MESI_E ≠ MESI_I by decide, rfl⟩
    · rw [h]
      exact Int.natCast_nonneg w

/-- C5 witness: the fresh data cache and the nine addresses `k << 20` (tags 0..8, set 0). -/
theorem C5_lru_eviction_witness :
    cache_find_way (dcache_reads 1 (cache_init "D$" DATA)
        ((List.range 9).map (fun k => k <<< 20))) 0
      (decode_addressbyCacheType ((0 : Nat) <<< 20) DATA).tag DATA = -1 ∧
    (∀ k, 1 ≤ k → k < 9 →
      cache_find_way (dcache_reads 1 (cache_init "D$" DATA)
          ((List.range 9).map (fun k => k <<< 20))) 0
        (decode_addressbyCacheType (k <<< 20) DATA).tag DATA ≥ 0) :=
  ⟨(C5_lru_eviction 1 (cache_init "D$" DATA) (fun k => k <<< 20) 0 (by decide) (by decide)
      (by decide)).2.2.2.2.2.1,
    (C5_lru_eviction 1 (cache_init "D$" DATA) (fun k => k <<< 20) 0 (by decide) (by decide)
      (by decide)).2.2.2.2.2.2⟩

/-! ## C11, C12: invalidate and RFO snoop -/

/-- Forcing the state of one line to Invalid changes no tag and no rank. -/
theorem put_invalid_frame (c : cache_t) (idx w i j : Nat) :
    (((c.put_line idx w { (c.sets idx).ways w with mesi := MESI_I }).sets i).ways j).tag =
      ((c.sets i).ways j).tag ∧
    (((c.put_line idx w { (c.sets idx).ways w with mesi := MESI_I }).sets i).ways j).lru =
      ((c.sets i).ways j).lru ∧
    (((c.put_line idx w { (c.sets idx).ways w with mesi := MESI_I }).sets i).ways j).mesi =
      if i = idx ∧ j = w then MESI_I else ((c.sets i).ways j).mesi := by
  rw [put_line_sets]
  by_cases h : i = idx ∧ j = w
  · rw [if_pos h, if_pos h]
    obtain ⟨h1, h2⟩ := h
    subst h1
    subst h2
    exact ⟨rfl, rfl, rfl⟩
  · rw [if_neg h, if_neg h]
    exact ⟨rfl, rfl, rfl⟩

theorem find_way_neg (c : cache_t) (index tag : Nat) (ctype : cache_typee)
    (h : cache_find_way c index tag ctype < 0) : cache_find_way c index tag ctype = -1 := by
  rcases cache_find_way_spec c index tag ctype with ⟨h1, _⟩ | ⟨w, _, h1, _⟩
  · exact h1
  · rw [h1] at h
    omega

/-- C11: `dcache_invalidate` emits nothing and changes no counter, no tag and no rank; when
`cache_find_way` finds the tag of the address in way `w` of its set, the state of that line
becomes Invalid and every other state is kept; when it finds none the cache is unchanged. -/
theorem C11_invalidate_frame (c : cache_t) (addr : Nat) :
    (dcache_invalidate c addr).2 = [] ∧
    (dcache_invalidate c addr).1.stats = c.stats ∧
    (dcache_invalidate c addr).1.name = c.name ∧
    (∀ i j, ((((dcache_invalidate c addr).1).sets i).ways j).tag = ((c.sets i).ways j).tag ∧
      ((((dcache_invalidate c addr).1).sets i).ways j).lru = ((c.sets i).ways j).lru) ∧
    (∀ w : Nat, cache_find_way c (decode_addressbyCacheType addr DATA).index
        (decode_addressbyCacheType addr DATA).tag DATA = (w : Int) →
      ∀ i j, ((((dcache_invalidate c addr).1).sets i).ways j).mesi =
        if i = (decode_addressbyCacheType addr DATA).index ∧ j = w then MESI_I
        else ((c.sets i).ways j).mesi) ∧
    (cache_find_way c (decode_addressbyCacheType addr DATA).index
        (decode_addressbyCacheType addr DATA).tag DATA < 0 →
      (dcache_invalidate c addr).1 = c) := by
  rcases cache_find_way_spec c (decode_addressbyCacheType addr DATA).index
      (decode_addressbyCacheType addr DATA).tag DATA with ⟨h1, _⟩ | ⟨w, _, h1, _⟩
  · have h := dcache_invalidate_miss c addr (by rw [decode_type_irrel]; exact h1)
    rw [h]
    refine ⟨rfl, rfl, rfl, fun _ _ => ⟨rfl, rfl⟩, ?_, fun _ => rfl⟩
    intro w hw
    rw [h1] at hw
    omega
  · have h := dcache_invalidate_hit c addr w (by rw [decode_type_irrel]; exact h1)
    rw [decode_type_irrel] at h
    rw [h]
    refine ⟨rfl, rfl, rfl, ?_, ?_, ?_⟩
    · intro i j
      exact ⟨(put_invalid_frame c _ w i j).1, (put_invalid_frame c _ w i j).2.1⟩
    · intro v hv i j
      rw [h1] at hv
      have : w = v := by omega
      subst this
      exact (put_invalid_frame c _ w i j).2.2
    · intro hneg
      rw [h1] at hneg
      omega

/-- C11 witness: invalidating address 0 after a read of address 0 (resident in way 0 of
set 0) leaves that line Invalid. -/
theorem C11_invalidate_frame_witness :
    ((((dcache_invalidate (dcache_read 1 (cache_init "D$" DATA) 0).1 0).1).sets 0).ways 0).mesi
      = MESI_I :=
  ((C11_invalidate_frame (dcache_read 1 (cache_init "D$" DATA) 0).1 0).2.2.2.2.1 0 (by decide)
    0 0).trans (by decide)

/-- C12: `dcache_rfo_snoop` leaves exactly the cache that `dcache_invalidate` leaves (no
counter, tag or rank changed); in mode 1 it emits one "return data" message when the tag of
the address is resident and nothing otherwise, and in any other mode nothing. -/
theorem C12_rfo_snoop (g_mode : Int) (c : cache_t) (addr : Nat) :
    (dcache_rfo_snoop g_mode c addr).1 = (dcache_invalidate c addr).1 ∧
    (dcache_rfo_snoop g_mode c addr).1.stats = c.stats ∧
    (∀ i j, ((((dcache_rfo_snoop g_mode c addr).1).sets i).ways j).tag = ((c.sets i).ways j).tag ∧
      ((((dcache_rfo_snoop g_mode c addr).1).sets i).ways j).lru = ((c.sets i).ways j).lru) ∧
    (dcache_rfo_snoop 1 c addr).2 =
      (if cache_find_way c (decode_addressbyCacheType addr DATA).index
          (decode_addressbyCacheType addr DATA).tag DATA ≥ 0
        then [event.return_data_to_l2] else []) ∧
    (g_mode ≠ 1 → (dcache_rfo_snoop g_mode c addr).2 = []) := by
  rcases cache_find_way_spec c (decode_addressbyCacheType addr DATA).index
      (decode_addressbyCacheType addr DATA).tag DATA with ⟨h1, _⟩ | ⟨w, _, h1, h3, _⟩
  · have hi := dcache_invalidate_miss c addr (by rw [decode_type_irrel]; exact h1)
    have hs : ∀ g, dcache_rfo_snoop g c addr = (c, []) :=
      fun g => dcache_rfo_snoop_miss g c addr (by rw [decode_type_irrel]; exact h1)
    rw [hs g_mode, hs 1, hi, h1]
    exact ⟨rfl, rfl, fun _ _ => ⟨rfl, rfl⟩, rfl, fun _ => rfl⟩
  · have hi := dcache_invalidate_hit c addr w (by rw [decode_type_irrel]; exact h1)
    have hs : ∀ g, dcache_rfo_snoop g c addr = _ :=
      fun g => dcache_rfo_snoop_hit g c addr w (by rw [decode_type_irrel]; exact h1)
        (by rw [decode_type_irrel]; exact h3)
    rw [hs g_mode, hs 1, hi, h1]
    refine ⟨rfl, rfl, ?_, ?_, ?_⟩
    · intro i j
      exact ⟨(put_invalid_frame c _ w i j).1, (put_invalid_frame c _ w i j).2.1⟩
    · rw [if_pos (Int.natCast_nonneg w)]
      rfl
    · intro hg
      simp only [msg_return_data_to_l2, hg, if_false]

/-! ## C15: the dispatcher touches only the cache of the opcode -/

/-- C15: `process_op` leaves the instruction cache unchanged for the opcodes 0, 1, 3 and 4,
the data cache unchanged for opcode 2, both caches unchanged for opcode 9, and for every
opcode outside 0, 1, 2, 3, 4, 8, 9 it changes nothing and emits nothing. -/
theorem C15_dispatch_frame (g_mode : Int) (st : caches) (opcode : Int) (addr : Nat) :
    (opcode = 0 ∨ opcode = 1 ∨ opcode = 3 ∨ opcode = 4 →
      (process_op g_mode st opcode addr).1.I_cache = st.I_cache) ∧
    (opcode = 2 → (process_op g_mode st opcode addr).1.D_cache = st.D_cache) ∧
    (opcode = 9 → (process_op g_mode st opcode addr).1 = st) ∧
    (opcode ≠ 0 ∧ opcode ≠ 1 ∧ opcode ≠ 2 ∧ opcode ≠ 3 ∧ opcode ≠ 4 ∧ opcode ≠ 8 ∧ opcode ≠ 9 →
      process_op g_mode st opcode addr = (st, [])) := by
  refine ⟨?_, ?_, ?_, ?_⟩
  · intro h
    rcases h with h | h | h | h <;> subst h <;> rfl
  · intro h
    subst h
    rfl
  · intro h
    subst h
    rfl
  · intro ⟨h0, h1, h2, h3, h4, h8, h9⟩
    unfold process_op
    simp only [OP_DREAD, OP_DWRITE, OP_IFETCH, OP_INVALIDATE, OP_RFO_SNOOP, OP_CLEAR, OP_PRINT,
      h0, h1, h2, h3, h4, h8, h9, if_false]

/-- C15 witness: opcode 0 on the fresh caches leaves the instruction cache as it was, and
opcode 7 changes and emits nothing. -/
theorem C15_dispatch_frame_witness :
    (process_op 1 init_caches 0 0x40).1.I_cache = init_caches.I_cache ∧
    process_op 1 init_caches 7 0x40 = (init_caches, []) :=
  ⟨(C15_dispatch_frame 1 init_caches 0 0x40).1 (Or.inl rfl),
    (C15_dispatch_frame 1 init_caches 7 0x40).2.2.2
      ⟨by decide, by decide, by decide, by decide, by decide, by decide, by decide⟩⟩

/-- C12 witness: in mode 0 a snoop of a resident address emits nothing. -/
theorem C12_rfo_snoop_witness :
    (dcache_rfo_snoop 0 (dcache_read 0 (cache_init "D$" DATA) 0).1 0).2 = [] :=
  (C12_rfo_snoop 0 (dcache_read 0 (cache_init "D$" DATA) 0).1 0).2.2.2.2 (by decide)

/-! ## C13, C18: the way filled by a miss -/

/-- When the set has an Invalid way, `fill_way` is the lowest-index Invalid way. -/
theorem fill_way_invalid (c : cache_t) (idx : Nat) (ctype : cache_typee) (v : Nat)
    (hv : v < get_ways_byCacheType ctype) (hI : ((c.sets idx).ways v).mesi = MESI_I)
    (hfirst : ∀ j, j < v → ((c.sets idx).ways j).mesi ≠ MESI_I) :
    fill_way c idx ctype = (v : Int) := by
  unfold fill_way
  rcases cache_find_invalid_way_spec c idx ctype with ⟨_, h2⟩ | ⟨w, hw, h1, h3, h4⟩
  · exact absurd hI (h2 v hv)
  · have h5 : ¬ w < v := fun hlt => hfirst w hlt h3
    have h6 : ¬ v < w := fun hlt => h4 v hlt hI
    have : w = v := by omega
    subst this
    rw [h1, if_neg (by omega)]

/-- When the set has no Invalid way, `fill_way` is the result of `cache_find_lru_way`. -/
theorem fill_way_full (c : cache_t) (idx : Nat) (ctype : cache_typee)
    (hfull : ∀ j, j < get_ways_byCacheType ctype → ((c.sets idx).ways j).mesi ≠ MESI_I) :
    fill_way c idx ctype = cache_find_lru_way c idx ctype := by
  unfold fill_way
  rcases cache_find_invalid_way_spec c idx ctype with ⟨h1, _⟩ | ⟨w, hw, _, h3, _⟩
  · rw [h1, if_pos (by decide)]
  · exact absurd h3 (hfull w hw)

/-- After a fill of way `w` with a tag that no non-Invalid way held, `cache_find_way` finds
the tag in way `w`. -/
theorem find_way_after_fill (c c2 : cache_t) (ctype : cache_typee) (idx t w : Nat) (m : mesi_t)
    (hw : w < get_ways_byCacheType ctype) (hm : m ≠ MESI_I)
    (hno : ∀ j, j < get_ways_byCacheType ctype →
      ¬ (((c.sets idx).ways j).mesi ≠ MESI_I ∧ ((c.sets idx).ways j).tag = t))
    (h : ∀ j, (c2.sets idx).ways j = touched (get_ways_byCacheType ctype) (c.sets idx) w t m j) :
    cache_find_way c2 idx t ctype = (w : Int) := by
  rcases cache_find_way_spec c2 idx t ctype with ⟨_, h2⟩ | ⟨v, hv, h1, h3, h4, _⟩
  · exfalso
    refine h2 w hw ?_
    rw [h w, touched_mesi, touched_tag, if_pos rfl, if_pos rfl]
    exact ⟨hm, rfl⟩
  · by_cases e : v = w
    · rw [h1, e]
    · exfalso
      rw [h v, touched_mesi, if_neg e] at h3
      rw [h v, touched_tag, if_neg e] at h4
      exact hno v hv ⟨h3, h4⟩

/-- C13: on a write miss `dcache_write` fills the way `fill_way` (the lowest-index Invalid
way if there is one, else the result of `cache_find_lru_way`) with the tag of the address in
state Modified and rank 0; the tag is then found there, every other line keeps its tag and
state, `misses` and `writes` are incremented by one (as `unsigned long`) and `hits` and
`reads` are unchanged. -/
theorem C13_write_miss (g_mode : Int) (c : cache_t) (addr : Nat)
    (hmiss : cache_find_way c (decode_addressbyCacheType addr DATA).index
      (decode_addressbyCacheType addr DATA).tag DATA < 0) :
    (((dcache_write g_mode c addr).1.sets (decode_addressbyCacheType addr DATA).index).ways
        (fill_way c (decode_addressbyCacheType addr DATA).index DATA).toNat =
      { tag := (decode_addressbyCacheType addr DATA).tag, mesi := MESI_M, lru := 0 }) ∧
    cache_find_way (dcache_write g_mode c addr).1 (decode_addressbyCacheType addr DATA).index
        (decode_addressbyCacheType addr DATA).tag DATA =
      fill_way c (decode_addressbyCacheType addr DATA).index DATA ∧
    (∀ i j, ¬ (i = (decode_addressbyCacheType addr DATA).index ∧
        j = (fill_way c (decode_addressbyCacheType addr DATA).index DATA).toNat) →
      ((((dcache_write g_mode c addr).1).sets i).ways j).tag = ((c.sets i).ways j).tag ∧
      ((((dcache_write g_mode c addr).1).sets i).ways j).mesi = ((c.sets i).ways j).mesi) ∧
    (dcache_write g_mode c addr).1.stats.misses = ulong_inc c.stats.misses ∧
    (dcache_write g_mode c addr).1.stats.writes = ulong_inc c.stats.writes ∧
    (dcache_write g_mode c addr).1.stats.hits = c.stats.hits ∧
    (dcache_write g_mode c addr).1.stats.reads = c.stats.reads ∧
    (∀ v, v < DWAYS →
      ((c.sets (decode_addressbyCacheType addr DATA).index).ways v).mesi = MESI_I →
      (∀ j, j < v →
        ((c.sets (decode_addressbyCacheType addr DATA).index).ways j).mesi ≠ MESI_I) →
      fill_way c (decode_addressbyCacheType addr DATA).index DATA = (v : Int)) ∧
    ((∀ j, j < DWAYS →
        ((c.sets (decode_addressbyCacheType addr DATA).index).ways j).mesi ≠ MESI_I) →
      fill_way c (decode_addressbyCacheType addr DATA).index DATA =
        cache_find_lru_way c (decode_addressbyCacheType addr DATA).index DATA) := by
  have h1 := find_way_neg _ _ _ _ hmiss
  obtain ⟨hs, hst, _⟩ := dcache_write_miss g_mode c addr (by rw [decode_type_irrel]; exact h1)
  rw [decode_type_irrel] at hs
  obtain ⟨w, hw, hf, _, _⟩ := fill_way_spec c (decode_addressbyCacheType addr DATA).index DATA
  have hno : ∀ j, j < get_ways_byCacheType DATA →
      ¬ (((c.sets (decode_addressbyCacheType addr DATA).index).ways j).mesi ≠ MESI_I ∧
        ((c.sets (decode_addressbyCacheType addr DATA).index).ways j).tag =
          (decode_addressbyCacheType addr DATA).tag) := by
    rcases cache_find_way_spec c (decode_addressbyCacheType addr DATA).index
        (decode_addressbyCacheType addr DATA).tag DATA with ⟨_, h2⟩ | ⟨v, _, hv, _⟩
    · exact h2
    · rw [hv] at h1
      omega
  refine ⟨?_, ?_, ?_, ?_, ?_, ?_, ?_, ?_, ?_⟩
  · rw [hs, if_pos rfl]
    unfold touched
    rw [if_pos rfl]
  · rw [hf]
    refine find_way_after_fill c _ DATA _ _ w MESI_M hw (by decide) hno ?_
    intro j
    rw [hs, if_pos rfl, hf]
    rfl
  · intro i j hij
    rw [hs]
    by_cases e : i = (decode_addressbyCacheType addr DATA).index
    · subst e
      have hj : j ≠ (fill_way c (decode_addressbyCacheType addr DATA).index DATA).toNat :=
        fun hj => hij ⟨rfl, hj⟩
      rw [if_pos rfl, touched_tag, touched_mesi, if_neg hj, if_neg hj]
      exact ⟨rfl, rfl⟩
    · rw [if_neg e]
      exact ⟨rfl, rfl⟩
  · rw [hst]
  · rw [hst]
  · rw [hst]
  · rw [hst]
  · intro v hv hI hfirst
    exact fill_way_invalid c _ DATA v hv hI hfirst
  · intro hfull
    exact fill_way_full c _ DATA hfull

/-- C13 witness: the write `1 0x0` on the fresh data cache fills way 0 in state Modified. -/
theorem C13_write_miss_witness :
    ((dcache_write 1 (cache_init "D$" DATA) 0).1.sets (decode_addressbyCacheType 0 DATA).index).ways
        (fill_way (cache_init "D$" DATA) (decode_addressbyCacheType 0 DATA).index DATA).toNat =
      { tag := (decode_addressbyCacheType 0 DATA).tag, mesi := MESI_M, lru := 0 } :=
  (C13_write_miss 1 (cache_init "D$" DATA) 0 (by decide)).1

/-- C18: on a data-read miss `dcache_read` fills the way `fill_way` (the lowest-index
Invalid way if there is one, else the result of `cache_find_lru_way`) with the tag of the
address in state Exclusive and rank 0; `reads` and `misses` are incremented by one (as
`unsigned long`), `hits` and `writes` are unchanged; in mode 1 the output is a write-back
followed by "read from L2" exactly when the filled way was Modified before, and the single
"read from L2" otherwise (an Invalid way is never Modified). -/
theorem C18_read_miss (g_mode : Int) (c : cache_t) (addr : Nat)
    (hmiss : cache_find_way c (decode_addressbyCacheType addr DATA).index
      (decode_addressbyCacheType addr DATA).tag DATA < 0) :
    (((dcache_read g_mode c addr).1.sets (decode_addressbyCacheType addr DATA).index).ways
        (fill_way c (decode_addressbyCacheType addr DATA).index DATA).toNat =
      { tag := (decode_addressbyCacheType addr DATA).tag, mesi := MESI_E, lru := 0 }) ∧
    (∀ i j, ¬ (i = (decode_addressbyCacheType addr DATA).index ∧
        j = (fill_way c (decode_addressbyCacheType addr DATA).index DATA).toNat) →
      ((((dcache_read g_mode c addr).1).sets i).ways j).tag = ((c.sets i).ways j).tag ∧
      ((((dcache_read g_mode c addr).1).sets i).ways j).mesi = ((c.sets i).ways j).mesi) ∧
    (dcache_read g_mode c addr).1.stats.reads = ulong_inc c.stats.reads ∧
    (dcache_read g_mode c addr).1.stats.misses = ulong_inc c.stats.misses ∧
    (dcache_read g_mode c addr).1.stats.hits = c.stats.hits ∧
    (dcache_read g_mode c addr).1.stats.writes = c.stats.writes ∧
    (dcache_read 1 c addr).2 =
      (if ((c.sets (decode_addressbyCacheType addr DATA).index).ways
          (fill_way c (decode_addressbyCacheType addr DATA).index DATA).toNat).mesi = MESI_M
        then [event.write_to_l2, event.read_from_l2] else [event.read_from_l2]) ∧
    (∀ v, v < DWAYS →
      ((c.sets (decode_addressbyCacheType addr DATA).index).ways v).mesi = MESI_I →
      (∀ j, j < v →
        ((c.sets (decode_addressbyCacheType addr DATA).index).ways j).mesi ≠ MESI_I) →
      fill_way c (decode_addressbyCacheType addr DATA).index DATA = (v : Int)) ∧
    ((∀ j, j < DWAYS →
        ((c.sets (decode_addressbyCacheType addr DATA).index).ways j).mesi ≠ MESI_I) →
      fill_way c (decode_addressbyCacheType addr DATA).index DATA =
        cache_find_lru_way c (decode_addressbyCacheType addr DATA).index DATA) := by
  have h1 := find_way_neg _ _ _ _ hmiss
  obtain ⟨hs, hst, _⟩ := dcache_read_miss g_mode c addr h1
  have hout := (dcache_read_miss 1 c addr h1).2.2
  refine ⟨?_, ?_, ?_, ?_, ?_, ?_, ?_, ?_, ?_⟩
  · rw [hs, if_pos rfl]
    unfold touched
    rw [if_pos rfl]
  · intro i j hij
    rw [hs]
    by_cases e : i = (decode_addressbyCacheType addr DATA).index
    · subst e
      have hj : j ≠ (fill_way c (decode_addressbyCacheType addr DATA).index DATA).toNat :=
        fun hj => hij ⟨rfl, hj⟩
      rw [if_pos rfl, touched_tag, touched_mesi, if_neg hj, if_neg hj]
      exact ⟨rfl, rfl⟩
    · rw [if_neg e]
      exact ⟨rfl, rfl⟩
  · rw [hst]
  · rw [hst]
  · rw [hst]
  · rw [hst]
  · rw [hout]
    rcases cache_find_invalid_way_spec c (decode_addressbyCacheType addr DATA).index DATA with
      ⟨h2, h3⟩ | ⟨w, hw, h2, h3, h4⟩
    · have hf := fill_way_full c (decode_addressbyCacheType addr DATA).index DATA h3
      rw [hf, h2]
      by_cases hM : ((c.sets (decode_addressbyCacheType addr DATA).index).ways
          (cache_find_lru_way c (decode_addressbyCacheType addr DATA).index DATA).toNat).mesi
          = MESI_M
      · rw [if_pos ⟨by decide, hM⟩, if_pos hM]
        rfl
      · rw [if_neg (fun h => hM h.2), if_neg hM]
        rfl
    · have hf := fill_way_invalid c (decode_addressbyCacheType addr DATA).index DATA w hw h3 h4
      rw [hf, h2, Int.toNat_ofNat, h3]
      rw [if_neg (fun h => absurd h.1 (by omega)), if_neg (by decide)]
      rfl
  · intro v hv hI hfirst
    exact fill_way_invalid c _ DATA v hv hI hfirst
  · intro hfull
    exact fill_way_full c _ DATA hfull

/-- C18 witness: a read of tag 0 in a set whose eight ways are Modified with tags 1..8 and
ranks 0..7 (the write-back case). -/
theorem C18_read_miss_witness :
    (dcache_read 1
      { name := "D$", stats := { reads := 0, writes := 8, hits := 0, misses := 8 },
        sets := fun _ => ⟨fun j => { tag := j + 1, mesi := MESI_M, lru := (j : Int) }⟩ } 0).2 =
      [event.write_to_l2, event.read_from_l2] :=
  ((C18_read_miss 1
    { name := "D$", stats := { reads := 0, writes := 8, hits := 0, misses := 8 },
      sets := fun _ => ⟨fun j => { tag := j + 1, mesi := MESI_M, lru := (j : Int) }⟩ } 0
    (by decide)).2.2.2.2.2.2.1).trans (by decide)

/-! ## C17: the victim scan -/

/-- Invariant of the scan of `cache_find_lru_way` over the first `m` ways of a set whose ranks
are non-negative: the accumulator holds the greatest rank seen and the first way holding it
(before the first way: rank 0 and way 0). -/
theorem find_lru_fold_spec (set : set_t) (n : Nat)
    (hpos : ∀ j, j < n → 0 ≤ (set.ways j).lru) (m : Nat) (hm : m ≤ n) :
    ∃ v : Nat, ((List.range m).foldl (find_lru_step set) (0, 0)).2 = (v : Int) ∧
      (∀ j, j < m → (set.ways j).lru ≤ ((List.range m).foldl (find_lru_step set) (0, 0)).1) ∧
      (∀ j, j < v → j < m →
        (set.ways j).lru < ((List.range m).foldl (find_lru_step set) (0, 0)).1) ∧
      ((m = 0 ∧ v = 0 ∧ ((List.range m).foldl (find_lru_step set) (0, 0)).1 = 0) ∨
        (v < m ∧ (set.ways v).lru = ((List.range m).foldl (find_lru_step set) (0, 0)).1)) := by
  induction m with
  | zero =>
    refine ⟨0, rfl, ?_, ?_, Or.inl ⟨rfl, rfl, rfl⟩⟩
    · intro j hj
      omega
    · intro j hj
      omega
  | succ m ih =>
    obtain ⟨v, hv, hle, hlt, hcase⟩ := ih (by omega)
    rw [List.range_succ, List.foldl_append]
    simp only [List.foldl_cons, List.foldl_nil]
    generalize List.foldl (find_lru_step set) (0, 0) (List.range m) = acc at hv hle hlt hcase
    have hm0 := hpos m (by omega)
    unfold find_lru_step
    by_cases hgt : (set.ways m).lru > acc.1
    · rw [if_pos hgt]
      refine ⟨m, rfl, ?_, ?_, Or.inr ⟨by omega, rfl⟩⟩
      · intro j hj
        by_cases e : j = m
        · subst e
          exact le_refl _
        · have := hle j (by omega)
          show (set.ways j).lru ≤ (set.ways m).lru
          omega
      · intro j hj _
        have := hle j hj
        show (set.ways j).lru < (set.ways m).lru
        omega
    · rw [if_neg hgt]
      refine ⟨v, hv, ?_, ?_, ?_⟩
      · intro j hj
        by_cases e : j = m
        · subst e
          omega
        · exact hle j (by omega)
      · intro j hj hjm
        rcases hcase with ⟨h0, hv0, _⟩ | ⟨hvm, _⟩
        · omega
        · exact hlt j hj (by omega)
      · rcases hcase with ⟨h0, hv0, ha⟩ | ⟨hvm, hval⟩
        · right
          subst h0
          subst hv0
          exact ⟨by omega, by omega⟩
        · right
          exact ⟨by omega, hval⟩

/-- In a set whose ranks are non-negative, `cache_find_lru_way` returns the lowest-index way
among those of greatest rank. -/
theorem cache_find_lru_way_spec (c : cache_t) (index : Nat) (ctype : cache_typee)
    (hpos : ∀ j, j < get_ways_byCacheType ctype → 0 ≤ ((c.sets index).ways j).lru) :
    ∃ v : Nat, v < get_ways_byCacheType ctype ∧ cache_find_lru_way c index ctype = (v : Int) ∧
      (∀ j, j < get_ways_byCacheType ctype →
        ((c.sets index).ways j).lru ≤ ((c.sets index).ways v).lru) ∧
      (∀ j, j < v → ((c.sets index).ways j).lru < ((c.sets index).ways v).lru) := by
  obtain ⟨v, hv, hle, hlt, hcase⟩ :=
    find_lru_fold_spec (c.sets index) (get_ways_byCacheType ctype) hpos
      (get_ways_byCacheType ctype) (le_refl _)
  have hn := ways_pos ctype
  rcases hcase with ⟨h0, _, _⟩ | ⟨hvn, hval⟩
  · omega
  · refine ⟨v, hvn, hv, ?_, ?_⟩
    · intro j hj
      rw [hval]
      exact hle j hj
    · intro j hj
      rw [hval]
      exact hlt j hj (by omega)

/-- C17: for every set whose ranks are all non-negative, `cache_find_lru_way` returns a way
of the set whose rank is the greatest rank of the set, and no way of lower index holds that
rank. -/
theorem C17_find_lru_way (c : cache_t) (index : Nat) (ctype : cache_typee)
    (hpos : ∀ j, j < get_ways_byCacheType ctype → 0 ≤ ((c.sets index).ways j).lru) :
    ∃ v : Nat, v < get_ways_byCacheType ctype ∧ cache_find_lru_way c index ctype = (v : Int) ∧
      (∀ j, j < get_ways_byCacheType ctype →
        ((c.sets index).ways j).lru ≤ ((c.sets index).ways v).lru) ∧
      (∀ j, j < get_ways_byCacheType ctype →
        ((c.sets index).ways j).lru = ((c.sets index).ways v).lru → v ≤ j) := by
  obtain ⟨v, hv, hf, hle, hlt⟩ := cache_find_lru_way_spec c index ctype hpos
  refine ⟨v, hv, hf, hle, ?_⟩
  intro j _ hj
  by_contra hcon
  have := hlt j (by omega)
  omega

/-- C17 witness: set 0 of the data cache after the reads of two tags (ranks 1, 0, 9, ..., 9):
the victim scan returns way 2, the first of the ways of rank 9. -/
theorem C17_find_lru_way_witness :
    ∃ v : Nat, v < get_ways_byCacheType DATA ∧
      cache_find_lru_way (run 1 [(0, 0), (0, 0x100000)]).D_cache 0 DATA = (v : Int) ∧
      (∀ j, j < get_ways_byCacheType DATA →
        (((run 1 [(0, 0), (0, 0x100000)]).D_cache.sets 0).ways j).lru ≤
          (((run 1 [(0, 0), (0, 0x100000)]).D_cache.sets 0).ways v).lru) ∧
      (∀ j, j < get_ways_byCacheType DATA →
        (((run 1 [(0, 0), (0, 0x100000)]).D_cache.sets 0).ways j).lru =
          (((run 1 [(0, 0), (0, 0x100000)]).D_cache.sets 0).ways v).lru → v ≤ j) :=
  C17_find_lru_way (run 1 [(0, 0), (0, 0x100000)]).D_cache 0 DATA (by decide)

/-! ## C19: ranks of the non-Invalid ways -/

theorem run_ok_of (g_mode : Int) (ops : List (Int × Nat)) (ctype : cache_typee) :
    cache_ok ctype ((run g_mode ops).of ctype) := by
  obtain ⟨hI, hD⟩ := run_ok g_mode ops
  cases ctype
  · exact hI
  · exact hD

theorem ceil_log2_ways (ctype : cache_typee) :
    get_ways_byCacheType ctype ≤ 2 ^ ceil_log2 (get_ways_byCacheType ctype) := by
  cases ctype <;> decide

/-- In a set of rank shape the non-Invalid ways hold pairwise distinct ranks in `[0, n-1]`. -/
theorem lru_shape_valid (n : Nat) (s : set_t) (h : lru_shape n s) :
    (∀ w, w < n → (s.ways w).mesi ≠ MESI_I → 0 ≤ (s.ways w).lru ∧ (s.ways w).lru ≤ (n : Int) - 1) ∧
    (∀ w1 w2, w1 < n → w2 < n → (s.ways w1).mesi ≠ MESI_I → (s.ways w2).mesi ≠ MESI_I →
      (s.ways w1).lru = (s.ways w2).lru → w1 = w2) := by
  obtain ⟨k, hk, hA, hB, hC⟩ := h
  have hlt : ∀ w, w < n → (s.ways w).mesi ≠ MESI_I → w < k := by
    intro w hw hm
    by_contra hcon
    exact hm (hA w (by omega) hw).2
  constructor
  · intro w hw hm
    have := hB w (hlt w hw hm)
    omega
  · intro w1 w2 h1 h2 m1 m2 he
    exact hC w1 w2 (hlt w1 h1 m1) (hlt w2 h2 m2) he

/-- In a set of rank shape without Invalid way the ranks are a permutation of `0..n-1` and
the victim scan returns the only way of rank `n - 1`. -/
theorem lru_shape_full_victim (c : cache_t) (idx : Nat) (ctype : cache_typee)
    (h : lru_shape (get_ways_byCacheType ctype) (c.sets idx))
    (hfull : ∀ w, w < get_ways_byCacheType ctype → ((c.sets idx).ways w).mesi ≠ MESI_I) :
    ranks_perm (get_ways_byCacheType ctype) (c.sets idx) ∧
    ∃ v : Nat, v < get_ways_byCacheType ctype ∧ cache_find_lru_way c idx ctype = (v : Int) ∧
      ((c.sets idx).ways v).lru = (get_ways_byCacheType ctype : Int) - 1 ∧
      ∀ j, j < get_ways_byCacheType ctype →
        ((c.sets idx).ways j).lru = (get_ways_byCacheType ctype : Int) - 1 → j = v := by
  have hperm := rank_shape_full _ _ (lru_shape_rank_shape _ _ h) hfull
  obtain ⟨hb, hinj⟩ := lru_shape_valid _ _ h
  refine ⟨hperm, ?_⟩
  obtain ⟨v, hv, hf, hle, _⟩ := cache_find_lru_way_spec c idx ctype
    (fun j hj => (hb j hj (hfull j hj)).1)
  have hn := ways_pos ctype
  have htop : ((get_ways_byCacheType ctype : Int) - 1) ∈
      ranks (c.sets idx) (get_ways_byCacheType ctype) := by
    refine (List.Perm.mem_iff hperm).2 (List.mem_map.2
      ⟨get_ways_byCacheType ctype - 1, List.mem_range.2 (by omega), ?_⟩)
    show ((get_ways_byCacheType ctype - 1 : Nat) : Int) = _
    omega
  obtain ⟨j, hj, hjr⟩ := List.mem_map.1 htop
  have hjn := List.mem_range.1 hj
  have h1 := hle j hjn
  have h2 := (hb v hv (hfull v hv)).2
  have hvr : ((c.sets idx).ways v).lru = (get_ways_byCacheType ctype : Int) - 1 := by omega
  refine ⟨v, hv, hf, hvr, ?_⟩
  intro j2 hj2 hr
  exact hinj j2 v hj2 hv (hfull j2 hj2) (hfull v hv) (by rw [hr, hvr])

/-- C19: in every state reachable from the fresh caches by trace operations, in each set of
either cache the non-Invalid ways hold pairwise distinct ranks in `[0, ways - 1]`, which fit
in `ceil(log2(ways))` bits; and a set without Invalid way has ranks that are a permutation
of `0..ways-1`, `cache_find_lru_way` returning the only way of rank `ways - 1`. -/
theorem C19_valid_ranks (g_mode : Int) (ops : List (Int × Nat)) (ctype : cache_typee) (i : Nat)
    (hi : i < get_numsets_byCacheType ctype) :
    (∀ w, w < get_ways_byCacheType ctype →
      ((((run g_mode ops).of ctype).sets i).ways w).mesi ≠ MESI_I →
      0 ≤ ((((run g_mode ops).of ctype).sets i).ways w).lru ∧
      ((((run g_mode ops).of ctype).sets i).ways w).lru ≤ (get_ways_byCacheType ctype : Int) - 1 ∧
      ((((run g_mode ops).of ctype).sets i).ways w).lru <
        ((2 ^ ceil_log2 (get_ways_byCacheType ctype) : Nat) : Int)) ∧
    (∀ w1 w2, w1 < get_ways_byCacheType ctype → w2 < get_ways_byCacheType ctype →
      ((((run g_mode ops).of ctype).sets i).ways w1).mesi ≠ MESI_I →
      ((((run g_mode ops).of ctype).sets i).ways w2).mesi ≠ MESI_I →
      ((((run g_mode ops).of ctype).sets i).ways w1).lru =
        ((((run g_mode ops).of ctype).sets i).ways w2).lru → w1 = w2) ∧
    ((∀ w, w < get_ways_byCacheType ctype →
        ((((run g_mode ops).of ctype).sets i).ways w).mesi ≠ MESI_I) →
      ranks_perm (get_ways_byCacheType ctype) (((run g_mode ops).of ctype).sets i) ∧
      ∃ v : Nat, v < get_ways_byCacheType ctype ∧
        cache_find_lru_way ((run g_mode ops).of ctype) i ctype = (v : Int) ∧
        ((((run g_mode ops).of ctype).sets i).ways v).lru = (get_ways_byCacheType ctype : Int) - 1 ∧
        ∀ j, j < get_ways_byCacheType ctype →
          ((((run g_mode ops).of ctype).sets i).ways j).lru =
            (get_ways_byCacheType ctype : Int) - 1 → j = v) := by
  have hshape := (run_ok_of g_mode ops ctype i hi).1
  obtain ⟨hb, hinj⟩ := lru_shape_valid _ _ hshape
  refine ⟨?_, hinj, fun hfull => lru_shape_full_victim _ i ctype hshape hfull⟩
  intro w hw hm
  obtain ⟨h1, h2⟩ := hb w hw hm
  refine ⟨h1, h2, ?_⟩
  have h3 : ((get_ways_byCacheType ctype : Nat) : Int) ≤
      ((2 ^ ceil_log2 (get_ways_byCacheType ctype) : Nat) : Int) :=
    Int.ofNat_le.2 (ceil_log2_ways ctype)
  omega

/-- C19 witness: way 0 of set 0 of the data cache after the reads of two tags. -/
theorem C19_valid_ranks_witness :
    0 ≤ ((((run 1 [(0, 0), (0, 0x100000)]).of DATA).sets 0).ways 0).lru ∧
    ((((run 1 [(0, 0), (0, 0x100000)]).of DATA).sets 0).ways 0).lru ≤
      (get_ways_byCacheType DATA : Int) - 1 ∧
    ((((run 1 [(0, 0), (0, 0x100000)]).of DATA).sets 0).ways 0).lru <
      ((2 ^ ceil_log2 (get_ways_byCacheType DATA) : Nat) : Int) :=
  (C19_valid_ranks 1 [(0, 0), (0, 0x100000)] DATA 0 (by decide)).1 0 (by decide) (by decide)

/-! ## C20: the counters -/

theorem stats_ok_hit_read (s : stats_t) (h : stats_ok s) :
    stats_ok
      { reads := ulong_inc s.reads, writes := s.writes,
        hits := ulong_inc s.hits, misses := s.misses } := by
  unfold stats_ok ulong_inc at *
  simp only []
  omega

theorem stats_ok_miss_read (s : stats_t) (h : stats_ok s) :
    stats_ok
      { reads := ulong_inc s.reads, writes := s.writes,
        hits := s.hits, misses := ulong_inc s.misses } := by
  unfold stats_ok ulong_inc at *
  simp only []
  omega

theorem stats_ok_hit_write (s : stats_t) (h : stats_ok s) :
    stats_ok
      { reads := s.reads, writes := ulong_inc s.writes,
        hits := ulong_inc s.hits, misses := s.misses } := by
  unfold stats_ok ulong_inc at *
  simp only []
  omega

theorem stats_ok_miss_write (s : stats_t) (h : stats_ok s) :
    stats_ok
      { reads := s.reads, writes := ulong_inc s.writes,
        hits := s.hits, misses := ulong_inc s.misses } := by
  unfold stats_ok ulong_inc at *
  simp only []
  omega

theorem stats_ok_zero : stats_ok { reads := 0, writes := 0, hits := 0, misses := 0 } := by
  unfold stats_ok
  decide

theorem dcache_read_stats_ok (g_mode : Int) (c : cache_t) (addr : Nat) (h : stats_ok c.stats) :
    stats_ok (dcache_read g_mode c addr).1.stats := by
  rcases cache_find_way_spec c (decode_addressbyCacheType addr DATA).index
      (decode_addressbyCacheType addr DATA).tag DATA with ⟨h1, _⟩ | ⟨w, _, h1, _⟩
  · rw [(dcache_read_miss g_mode c addr h1).2.1]
    exact stats_ok_miss_read _ h
  · rw [(dcache_read_hit g_mode c addr w h1).2.1]
    exact stats_ok_hit_read _ h

theorem dcache_write_stats_ok (g_mode : Int) (c : cache_t) (addr : Nat) (h : stats_ok c.stats) :
    stats_ok (dcache_write g_mode c addr).1.stats := by
  rcases cache_find_way_spec c (decode_addressbyCacheType addr INSTRUCTION).index
      (decode_addressbyCacheType addr INSTRUCTION).tag DATA with ⟨h1, _⟩ | ⟨w, _, h1, _⟩
  · rw [(dcache_write_miss g_mode c addr h1).2.1]
    exact stats_ok_miss_write _ h
  · rw [(dcache_write_hit g_mode c addr w h1).2.1]
    exact stats_ok_hit_write _ h

theorem icache_ifetch_stats_ok (g_mode : Int) (c : cache_t) (addr : Nat)
    (h : stats_ok c.stats) :
    stats_ok (icache_ifetch g_mode c addr).1.stats ∧
    (icache_ifetch g_mode c addr).1.stats.writes = c.stats.writes := by
  rcases cache_find_way_spec c (decode_addressbyCacheType addr INSTRUCTION).index
      (decode_addressbyCacheType addr INSTRUCTION).tag INSTRUCTION with
    ⟨h1, _⟩ | ⟨w, _, h1, _⟩
  · rw [(icache_ifetch_miss g_mode c addr h1).2.1]
    exact ⟨stats_ok_miss_read _ h, rfl⟩
  · rw [(icache_ifetch_hit g_mode c addr w h1).2.1]
    exact ⟨stats_ok_hit_read _ h, rfl⟩

theorem dcache_invalidate_stats (c : cache_t) (addr : Nat) :
    (dcache_invalidate c addr).1.stats = c.stats := by
  rcases cache_find_way_spec c (decode_addressbyCacheType addr INSTRUCTION).index
      (decode_addressbyCacheType addr INSTRUCTION).tag DATA with ⟨h1, _⟩ | ⟨w, _, h1, _⟩
  · rw [dcache_invalidate_miss c addr h1]
  · rw [dcache_invalidate_hit c addr w h1]
    rfl

theorem dcache_rfo_snoop_stats (g_mode : Int) (c : cache_t) (addr : Nat) :
    (dcache_rfo_snoop g_mode c addr).1.stats = c.stats := by
  rcases cache_find_way_spec c (decode_addressbyCacheType addr INSTRUCTION).index
      (decode_addressbyCacheType addr INSTRUCTION).tag DATA with ⟨h1, _⟩ | ⟨w, _, h1, h3, _⟩
  · rw [dcache_rfo_snoop_miss g_mode c addr h1]
  · rw [dcache_rfo_snoop_hit g_mode c addr w h1 h3]
    rfl

theorem process_op_stats_ok (g_mode : Int) (st : caches) (opcode : Int) (addr : Nat)
    (h : stats_ok st.I_cache.stats ∧ stats_ok st.D_cache.stats ∧ st.I_cache.stats.writes = 0) :
    stats_ok (process_op g_mode st opcode addr).1.I_cache.stats ∧
    stats_ok (process_op g_mode st opcode addr).1.D_cache.stats ∧
    (process_op g_mode st opcode addr).1.I_cache.stats.writes = 0 := by
  obtain ⟨hI, hD, hw⟩ := h
  unfold process_op
  split
  · exact ⟨hI, dcache_read_stats_ok g_mode _ addr hD, hw⟩
  split
  · exact ⟨hI, dcache_write_stats_ok g_mode _ addr hD, hw⟩
  split
  · exact ⟨(icache_ifetch_stats_ok g_mode _ addr hI).1,
      hD, by rw [(icache_ifetch_stats_ok g_mode _ addr hI).2]; exact hw⟩
  split
  · refine ⟨hI, ?_, hw⟩
    show stats_ok (dcache_invalidate st.D_cache addr).1.stats
    rw [dcache_invalidate_stats]
    exact hD
  split
  · refine ⟨hI, ?_, hw⟩
    show stats_ok (dcache_rfo_snoop g_mode st.D_cache addr).1.stats
    rw [dcache_rfo_snoop_stats]
    exact hD
  split
  · exact ⟨stats_ok_zero, stats_ok_zero, rfl⟩
  split
  · exact ⟨hI, hD, hw⟩
  · exact ⟨hI, hD, hw⟩

/-- C20: in every state reachable from the fresh caches by trace operations, the counters of
each cache satisfy `hits + misses = reads + writes` modulo `2^64` (the width of the
`unsigned long` counters, each of which stays below `2^64`), and the `writes` counter of the
instruction cache is 0. -/
theorem C20_counters (g_mode : Int) (ops : List (Int × Nat)) :
    ((run g_mode ops).I_cache.stats.hits + (run g_mode ops).I_cache.stats.misses) % 2 ^ 64 =
      ((run g_mode ops).I_cache.stats.reads + (run g_mode ops).I_cache.stats.writes) % 2 ^ 64 ∧
    ((run g_mode ops).D_cache.stats.hits + (run g_mode ops).D_cache.stats.misses) % 2 ^ 64 =
      ((run g_mode ops).D_cache.stats.reads + (run g_mode ops).D_cache.stats.writes) % 2 ^ 64 ∧
    (run g_mode ops).I_cache.stats.writes = 0 ∧
    stats_ok (run g_mode ops).I_cache.stats ∧
    stats_ok (run g_mode ops).D_cache.stats := by
  have h := run_induction
    (fun st => stats_ok st.I_cache.stats ∧ stats_ok st.D_cache.stats ∧
      st.I_cache.stats.writes = 0) g_mode
    ⟨stats_ok_zero, stats_ok_zero, rfl⟩
    (fun st opcode addr hst => process_op_stats_ok g_mode st opcode addr hst) ops
  exact ⟨h.1.1, h.2.1.1, h.2.2, h.1, h.2.1⟩

/-! ## C14: the end-to-end scenario -/

theorem process_op_dread (g_mode : Int) (st : caches) (addr : Nat) :
    process_op g_mode st 0 addr =
      ({ st with D_cache := (dcache_read g_mode st.D_cache addr).1 },
        (dcache_read g_mode st.D_cache addr).2) := rfl

theorem flatten_map_range_nil {α : Type} (f : Nat → List α) (n : Nat)
    (h : ∀ i, i < n → f i = []) : ((List.range n).map f).flatten = [] := by
  rw [List.flatten_eq_nil_iff]
  intro l hl
  obtain ⟨i, hi, rfl⟩ := List.mem_map.1 hl
  exact h i (List.mem_range.1 hi)

theorem flatten_map_range_one {α : Type} (f : Nat → List α) (a n : Nat) (ha : a < n)
    (h : ∀ i, i < n → i ≠ a → f i = []) : ((List.range n).map f).flatten = f a := by
  induction n with
  | zero => omega
  | succ n ih =>
    rw [List.range_succ, List.map_append, List.flatten_append]
    simp only [List.map_cons, List.map_nil, List.flatten_cons, List.flatten_nil,
      List.append_nil]
    by_cases e : a = n
    · subst e
      rw [flatten_map_range_nil f a (fun i hi => h i (by omega) (by omega))]
      rfl
    · rw [ih (by omega) (fun i hi hia => h i (by omega) hia), h n (by omega) (fun hn => e hn.symm)]
      exact List.append_nil _

theorem flatten_map_range_two {α : Type} (f : Nat → List α) (a b n : Nat) (hab : a < b)
    (hb : b < n) (h : ∀ i, i < n → i ≠ a → i ≠ b → f i = []) :
    ((List.range n).map f).flatten = f a ++ f b := by
  induction n with
  | zero => omega
  | succ n ih =>
    rw [List.range_succ, List.map_append, List.flatten_append]
    simp only [List.map_cons, List.map_nil, List.flatten_cons, List.flatten_nil,
      List.append_nil]
    by_cases e : b = n
    · subst e
      rw [flatten_map_range_one f a b hab (fun i hi hia => h i (by omega) hia (by omega))]
    · rw [ih (by omega) (fun i hi hia hib => h i (by omega) hia hib),
        h n (by omega) (by omega) (fun hn => e hn.symm)]
      exact List.append_nil _

/-- The states of the lines of the data cache after the reads `0 0x0` and `0 0x10000` on the
fresh cache: Exclusive in way 0 of the sets 0 and 0x400, Invalid elsewhere. -/
theorem scenario_mesi (i j : Nat) (hi : i < NUM_SETS_DCACHE) (hj : j < DWAYS) :
    ((((dcache_read 1 (dcache_read 1 (cache_init "D$" DATA) 0).1 0x10000).1).sets i).ways j).mesi =
      if (i = 0 ∨ i = 0x400) ∧ j = 0 then MESI_E else MESI_I := by
  have hm1 : cache_find_way (cache_init "D$" DATA) (decode_addressbyCacheType 0 DATA).index
      (decode_addressbyCacheType 0 DATA).tag DATA = -1 := by decide
  have hm2 : cache_find_way (dcache_read 1 (cache_init "D$" DATA) 0).1
      (decode_addressbyCacheType 0x10000 DATA).index
      (decode_addressbyCacheType 0x10000 DATA).tag DATA = -1 := by decide
  have hs1 := (dcache_read_miss 1 (cache_init "D$" DATA) 0 hm1).1
  have hs2 := (dcache_read_miss 1 (dcache_read 1 (cache_init "D$" DATA) 0).1 0x10000 hm2).1
  have hx1 : (decode_addressbyCacheType 0 DATA).index = 0 := by decide
  have hx2 : (decode_addressbyCacheType 0x10000 DATA).index = 0x400 := by decide
  have hf1 : (fill_way (cache_init "D$" DATA) 0 DATA).toNat = 0 := by decide
  have hf2 : (fill_way (dcache_read 1 (cache_init "D$" DATA) 0).1 0x400 DATA).toNat = 0 := by
    decide
  have h0 : ((( cache_init "D$" DATA).sets i).ways j).mesi = MESI_I := by
    rw [cache_init_line "D$" DATA i j hi hj]
  rw [hx1] at hs1
  rw [hx2] at hs2
  rw [hs2 i j]
  by_cases e2 : i = 0x400
  · subst e2
    rw [if_pos rfl, touched_mesi, hf2, hs1, if_neg (show ¬ (0x400 = 0) by decide)]
    by_cases ej : j = 0
    · rw [if_pos ej, if_pos ⟨Or.inr rfl, ej⟩]
    · rw [if_neg ej, if_neg (fun h => ej h.2)]
      exact h0
  · rw [if_neg e2, hs1 i j]
    by_cases e1 : i = 0
    · subst e1
      rw [if_pos rfl, touched_mesi, hf1]
      by_cases ej : j = 0
      · rw [if_pos ej, if_pos ⟨Or.inl rfl, ej⟩]
      · rw [if_neg ej, if_neg (fun h => ej h.2)]
        exact h0
    · rw [if_neg e1, if_neg (fun h => h.1.elim e1 e2)]
      exact h0

theorem scenario_run :
    run 1 [(0, 0), (0, 0x10000)] =
      { I_cache := init_caches.I_cache,
        D_cache := (dcache_read 1 (dcache_read 1 (cache_init "D$" DATA) 0).1 0x10000).1 } := by
  simp only [run, List.foldl_cons, List.foldl_nil]
  rw [process_op_dread, process_op_dread]
  rfl

/-- C14: on the fresh caches the operations `0 0x0` then `0 0x10000` are two data-read
misses (data-cache reads 2, misses 2, hits 0); the only non-Invalid lines of the data cache
are way 0 of set 0 and way 0 of set 0x400, each with tag 0, state Exclusive and rank 0, and
the state print lists exactly them; the instruction cache is as initialised; after a
following opcode 8 no line of either cache is non-Invalid. -/
theorem C14_scenario :
    cache_find_way init_caches.D_cache (decode_addressbyCacheType 0 DATA).index
      (decode_addressbyCacheType 0 DATA).tag DATA = -1 ∧
    cache_find_way (run 1 [(0, 0)]).D_cache (decode_addressbyCacheType 0x10000 DATA).index
      (decode_addressbyCacheType 0x10000 DATA).tag DATA = -1 ∧
    (run 1 [(0, 0), (0, 0x10000)]).D_cache.stats =
      { reads := 2, writes := 0, hits := 0, misses := 2 } ∧
    (∀ i j, i < NUM_SETS_DCACHE → j < DWAYS →
      ((((run 1 [(0, 0), (0, 0x10000)]).D_cache.sets i).ways j).mesi ≠ MESI_I ↔
        (i = 0 ∨ i = 0x400) ∧ j = 0)) ∧
    ((run 1 [(0, 0), (0, 0x10000)]).D_cache.sets 0).ways 0 =
      { tag := 0, mesi := MESI_E, lru := 0 } ∧
    ((run 1 [(0, 0), (0, 0x10000)]).D_cache.sets 0x400).ways 0 =
      { tag := 0, mesi := MESI_E, lru := 0 } ∧
    (run 1 [(0, 0), (0, 0x10000)]).I_cache = init_caches.I_cache ∧
    (process_op 1 (run 1 [(0, 0), (0, 0x10000)]) 9 0).2 =
      [event.contents "D$", event.set_header 0, event.way_line 0 0 "E" "000",
        event.set_header 0x400, event.way_line 0 0 "E" "000", event.contents "I$"] ∧
    (∀ i j, i < NUM_SETS_DCACHE →
      (j < DWAYS →
        ((((process_op 1 (run 1 [(0, 0), (0, 0x10000)]) 8 0).1).D_cache.sets i).ways j).mesi
          = MESI_I) ∧
      (j < IWAYS →
        ((((process_op 1 (run 1 [(0, 0), (0, 0x10000)]) 8 0).1).I_cache.sets i).ways j).mesi
          = MESI_I)) := by
  have hmesi : ∀ i j, i < NUM_SETS_DCACHE → j < DWAYS →
      ((((run 1 [(0, 0), (0, 0x10000)]).D_cache.sets i).ways j).mesi ≠ MESI_I ↔
        (i = 0 ∨ i = 0x400) ∧ j = 0) := by
    intro i j hi hj
    rw [scenario_run]
    show ((((dcache_read 1 (dcache_read 1 (cache_init "D$" DATA) 0).1 0x10000).1).sets i).ways
      j).mesi ≠ MESI_I ↔ _
    rw [scenario_mesi i j hi hj]
    by_cases h : (i = 0 ∨ i = 0x400) ∧ j = 0
    · rw [if_pos h]
      exact ⟨fun _ => h, fun _ => by decide⟩
    · rw [if_neg h]
      exact ⟨fun hc => absurd rfl hc, fun hc => absurd hc h⟩
  refine ⟨by decide, by decide, by decide, hmesi, by decide, by decide, ?_, ?_, ?_⟩
  · rw [scenario_run]
  · have hp : process_op 1 (run 1 [(0, 0), (0, 0x10000)]) 9 0 =
        (run 1 [(0, 0), (0, 0x10000)],
          cache_print (run 1 [(0, 0), (0, 0x10000)]).D_cache DATA ++
            cache_print (run 1 [(0, 0), (0, 0x10000)]).I_cache INSTRUCTION) := rfl
    have hI : cache_print (run 1 [(0, 0), (0, 0x10000)]).I_cache INSTRUCTION =
        [event.contents "I$"] := by
      rw [scenario_run]
      refine cache_print_invalid _ INSTRUCTION ?_
      intro i hi w hw
      show (((cache_init "I$" INSTRUCTION).sets i).ways w).mesi = MESI_I
      rw [cache_init_line "I$" INSTRUCTION i w hi hw]
    have hD : cache_print (run 1 [(0, 0), (0, 0x10000)]).D_cache DATA =
        [event.contents "D$", event.set_header 0, event.way_line 0 0 "E" "000",
          event.set_header 0x400, event.way_line 0 0 "E" "000"] := by
      unfold cache_print
      have hn : get_numsets_byCacheType DATA = 16384 := rfl
      have hname : (run 1 [(0, 0), (0, 0x10000)]).D_cache.name = "D$" := by
        rw [scenario_run]
        rfl
      simp only [hn, hname]
      rw [flatten_map_range_two _ 0 0x400 16384 (by decide) (by decide)]
      · have e0 : print_set ((run 1 [(0, 0), (0, 0x10000)]).D_cache.sets 0) 0
            (get_ways_byCacheType DATA) =
            [event.set_header 0, event.way_line 0 0 "E" "000"] := by decide
        have e1 : print_set ((run 1 [(0, 0), (0, 0x10000)]).D_cache.sets 0x400) 0x400
            (get_ways_byCacheType DATA) =
            [event.set_header 0x400, event.way_line 0 0 "E" "000"] := by decide
        rw [e0, e1]
        rfl
      · intro i hi h0 h1
        refine print_set_invalid _ _ _ ?_
        intro w hw
        by_contra hc
        have := (hmesi i w hi hw).1 hc
        omega
    rw [hp]
    simp only []
    rw [hI, hD]
    rfl
  · intro i j hi
    have hc : process_op 1 (run 1 [(0, 0), (0, 0x10000)]) 8 0 =
        ({ I_cache := cache_clear (run 1 [(0, 0), (0, 0x10000)]).I_cache INSTRUCTION,
           D_cache := cache_clear (run 1 [(0, 0), (0, 0x10000)]).D_cache DATA }, []) := rfl
    rw [hc]
    constructor
    · intro hj
      show (((cache_clear _ DATA).sets i).ways j).mesi = MESI_I
      rw [cache_clear_line _ DATA i j hi hj]
    · intro hj
      show (((cache_clear _ INSTRUCTION).sets i).ways j).mesi = MESI_I
      rw [cache_clear_line _ INSTRUCTION i j hi hj]

/-! ## C16: touch is move-to-front -/

/-- Distinct ranks within `[0, n)` on the ways below `n` form a permutation of `0..n-1`. -/
theorem ranks_perm_of_inj (n : Nat) (s : set_t)
    (hB : ∀ w, w < n → 0 ≤ (s.ways w).lru ∧ (s.ways w).lru < n)
    (hC : ∀ w1 w2, w1 < n → w2 < n → (s.ways w1).lru = (s.ways w2).lru → w1 = w2) :
    ranks_perm n s := by
  unfold ranks_perm ranks
  have hnd : ((List.range n).map (fun w => (s.ways w).lru)).Nodup :=
    List.Nodup.map_on
      (fun x hx y hy hxy => hC x y (List.mem_range.1 hx) (List.mem_range.1 hy) hxy)
      (List.nodup_range n)
  have hsub : (List.range n).map (fun w => (s.ways w).lru) ⊆ (List.range n).map Int.ofNat := by
    intro r hr
    obtain ⟨j, hj, hjr⟩ := List.mem_map.1 hr
    have hb := hB j (List.mem_range.1 hj)
    rw [hjr] at hb
    refine List.mem_map.2 ⟨r.toNat, List.mem_range.2 (by omega), ?_⟩
    exact Int.toNat_of_nonneg hb.1
  exact (List.subperm_of_subset hnd hsub).perm_of_length_le (by simp)

/-- A permutation of `0..n-1` has its ranks in `[0, n)` and pairwise distinct. -/
theorem ranks_perm_inj (n : Nat) (s : set_t) (h : ranks_perm n s) :
    (∀ w, w < n → 0 ≤ (s.ways w).lru ∧ (s.ways w).lru < n) ∧
    (∀ w1 w2, w1 < n → w2 < n → (s.ways w1).lru = (s.ways w2).lru → w1 = w2) := by
  unfold ranks_perm ranks at h
  constructor
  · intro w hw
    have hm : (s.ways w).lru ∈ (List.range n).map (fun w => (s.ways w).lru) :=
      List.mem_map.2 ⟨w, List.mem_range.2 hw, rfl⟩
    obtain ⟨r, hr, hrw⟩ := List.mem_map.1 ((List.Perm.mem_iff h).1 hm)
    have hrn := List.mem_range.1 hr
    rw [← hrw]
    show 0 ≤ (r : Int) ∧ (r : Int) < n
    omega
  · intro w1 w2 h1 h2 he
    have hnd : ((List.range n).map (fun w => (s.ways w).lru)).Nodup := by
      rw [List.Perm.nodup_iff h]
      exact List.Nodup.map_on (fun x _ y _ hxy => Int.ofNat.inj hxy) (List.nodup_range n)
    exact List.inj_on_of_nodup_map hnd (List.mem_range.2 h1) (List.mem_range.2 h2) he

/-- The ranks after `cache_update_lru` on way `w`. -/
theorem update_lru_rank (c : cache_t) (index w : Nat) (ctype : cache_typee) (j : Nat) :
    (((cache_update_lru c index (w : Int) ctype).sets index).ways j).lru =
      if j = w then 0
      else if j < get_ways_byCacheType ctype ∧
          ((c.sets index).ways j).lru ≤ ((c.sets index).ways w).lru then
        ((c.sets index).ways j).lru + 1
      else ((c.sets index).ways j).lru := by
  rw [update_lru_sets, if_pos rfl, Int.toNat_ofNat]
  by_cases e : j = w
  · rw [if_pos e, if_pos e]
  · rw [if_neg e, if_neg e]
    split <;> rfl

/-- C16: on a set whose ranks are a permutation of `0..ways-1`, `cache_update_lru` on a way
`w` of the set yields a permutation of `0..ways-1` again, gives `w` rank 0, raises by one
the rank of every way that was ranked below `w`, and keeps every other rank; on the recency
list (the ways in rank order) this is the move of `w` to the front. -/
theorem C16_touch_move_to_front (c : cache_t) (index : Nat) (ctype : cache_typee) (w : Nat)
    (hw : w < get_ways_byCacheType ctype)
    (hperm : ranks_perm (get_ways_byCacheType ctype) (c.sets index)) :
    ranks_perm (get_ways_byCacheType ctype)
      ((cache_update_lru c index (w : Int) ctype).sets index) ∧
    (((cache_update_lru c index (w : Int) ctype).sets index).ways w).lru = 0 ∧
    (∀ j, j < get_ways_byCacheType ctype → j ≠ w →
      ((c.sets index).ways j).lru < ((c.sets index).ways w).lru →
      (((cache_update_lru c index (w : Int) ctype).sets index).ways j).lru =
        ((c.sets index).ways j).lru + 1) ∧
    (∀ j, j < get_ways_byCacheType ctype → j ≠ w →
      ¬ ((c.sets index).ways j).lru < ((c.sets index).ways w).lru →
      (((cache_update_lru c index (w : Int) ctype).sets index).ways j).lru =
        ((c.sets index).ways j).lru) ∧
    recency ((cache_update_lru c index (w : Int) ctype).sets index) (get_ways_byCacheType ctype) =
      move_to_front w (recency (c.sets index) (get_ways_byCacheType ctype)) := by
  obtain ⟨hB, hC⟩ := ranks_perm_inj _ _ hperm
  have hr := update_lru_rank c index w ctype
  have hBw := hB w hw
  -- the new ranks, way by way
  have hnew0 : (((cache_update_lru c index (w : Int) ctype).sets index).ways w).lru = 0 := by
    rw [hr w, if_pos rfl]
  have hnewlt : ∀ j, j < get_ways_byCacheType ctype → j ≠ w →
      ((c.sets index).ways j).lru < ((c.sets index).ways w).lru →
      (((cache_update_lru c index (w : Int) ctype).sets index).ways j).lru =
        ((c.sets index).ways j).lru + 1 := by
    intro j hj hne hlt
    rw [hr j, if_neg hne, if_pos ⟨hj, by omega⟩]
  have hnewge : ∀ j, j < get_ways_byCacheType ctype → j ≠ w →
      ¬ ((c.sets index).ways j).lru < ((c.sets index).ways w).lru →
      (((cache_update_lru c index (w : Int) ctype).sets index).ways j).lru =
        ((c.sets index).ways j).lru := by
    intro j hj hne hge
    have hne2 : ((c.sets index).ways j).lru ≠ ((c.sets index).ways w).lru :=
      fun he => hne (hC j w hj hw he)
    rw [hr j, if_neg hne, if_neg (fun h => by omega)]
  -- the new ranks are again distinct and within range
  have hB2 : ∀ j, j < get_ways_byCacheType ctype →
      0 ≤ (((cache_update_lru c index (w : Int) ctype).sets index).ways j).lru ∧
      (((cache_update_lru c index (w : Int) ctype).sets index).ways j).lru <
        get_ways_byCacheType ctype := by
    intro j hj
    have hBj := hB j hj
    by_cases e : j = w
    · rw [e, hnew0]
      omega
    · by_cases hlt : ((c.sets index).ways j).lru < ((c.sets index).ways w).lru
      · rw [hnewlt j hj e hlt]
        omega
      · rw [hnewge j hj e hlt]
        omega
  have hC2 : ∀ w1 w2, w1 < get_ways_byCacheType ctype → w2 < get_ways_byCacheType ctype →
      (((cache_update_lru c index (w : Int) ctype).sets index).ways w1).lru =
        (((cache_update_lru c index (w : Int) ctype).sets index).ways w2).lru → w1 = w2 := by
    intro w1 w2 h1 h2
    have b1 := hB w1 h1
    have b2 := hB w2 h2
    have c12 := hC w1 w2 h1 h2
    have c1w := hC w1 w h1 hw
    have c2w := hC w2 w h2 hw
    rw [hr w1, hr w2]
    by_cases e1 : w1 = w
    · by_cases e2 : w2 = w
      · intro _
        omega
      · rw [if_pos e1, if_neg e2]
        split <;> intro h <;> omega
    · by_cases e2 : w2 = w
      · rw [if_neg e1, if_pos e2]
        split <;> intro h <;> omega
      · rw [if_neg e1, if_neg e2]
        split <;> split <;> intro h <;> omega
  refine ⟨ranks_perm_of_inj _ _ hB2 hC2, hnew0, hnewlt, hnewge, ?_⟩
  -- the recency lists
  unfold move_to_front recency
  have hLp := List.perm_insertionSort (rank_le (c.sets index))
    (List.range (get_ways_byCacheType ctype))
  have hLs := List.sorted_insertionSort (rank_le (c.sets index))
    (List.range (get_ways_byCacheType ctype))
  have hL2p := List.perm_insertionSort
    (rank_le ((cache_update_lru c index (w : Int) ctype).sets index))
    (List.range (get_ways_byCacheType ctype))
  have hL2s := List.sorted_insertionSort
    (rank_le ((cache_update_lru c index (w : Int) ctype).sets index))
    (List.range (get_ways_byCacheType ctype))
  generalize List.insertionSort (rank_le (c.sets index))
    (List.range (get_ways_byCacheType ctype)) = L at hLp hLs
  have hmemL : ∀ a, a ∈ L ↔ a < get_ways_byCacheType ctype := by
    intro a
    rw [List.Perm.mem_iff hLp, List.mem_range]
  have hLnd : L.Nodup := (List.Perm.nodup_iff hLp).2 (List.nodup_range _)
  have hwL : w ∈ L := (hmemL w).2 hw
  have hperm2 : (List.insertionSort
      (rank_le ((cache_update_lru c index (w : Int) ctype).sets index))
      (List.range (get_ways_byCacheType ctype))).Perm (w :: L.erase w) :=
    hL2p.trans (hLp.symm.trans (List.perm_cons_erase hwL))
  have hsorted : List.Sorted (rank_le ((cache_update_lru c index (w : Int) ctype).sets index))
      (w :: L.erase w) := by
    rw [List.sorted_cons]
    constructor
    · intro b hb
      obtain ⟨hbw, hbL⟩ := (List.Nodup.mem_erase_iff hLnd).1 hb
      have hbn := (hmemL b).1 hbL
      have hBb := hB b hbn
      left
      rw [hnew0]
      by_cases hlt : ((c.sets index).ways b).lru < ((c.sets index).ways w).lru
      · rw [hnewlt b hbn hbw hlt]
        omega
      · have hne2 : ((c.sets index).ways b).lru ≠ ((c.sets index).ways w).lru :=
          fun he => hbw (hC b w hbn hw he)
        rw [hnewge b hbn hbw hlt]
        omega
    · have hsub : List.Pairwise (rank_le (c.sets index)) (L.erase w) :=
        List.Pairwise.sublist (List.erase_sublist w L) hLs
      refine List.Pairwise.imp_of_mem ?_ hsub
      intro a b ha hb hab
      obtain ⟨haw, haL⟩ := (List.Nodup.mem_erase_iff hLnd).1 ha
      obtain ⟨hbw, hbL⟩ := (List.Nodup.mem_erase_iff hLnd).1 hb
      have han := (hmemL a).1 haL
      have hbn := (hmemL b).1 hbL
      have ca := hC a w han hw
      have cb := hC b w hbn hw
      have cab := hC a b han hbn
      unfold rank_le at hab ⊢
      rw [hr a, hr b, if_neg haw, if_neg hbw]
      split <;> split <;> omega
  exact List.eq_of_perm_of_sorted hperm2 hL2s hsorted

/-- C16 witness: an 8-way set with ranks 7, 6, ..., 0 (recency list 7, 6, ..., 0) and the
touch of way 3. -/
theorem C16_touch_move_to_front_witness :
    recency ((cache_update_lru
        { name := "D$", stats := { reads := 8, writes := 0, hits := 0, misses := 8 },
          sets := fun _ => ⟨fun j => { tag := j, mesi := MESI_E, lru := 7 - (j : Int) }⟩ }
        0 (3 : Nat) DATA).sets 0) (get_ways_byCacheType DATA) = [3, 7, 6, 5, 4, 2, 1, 0] :=
  ((C16_touch_move_to_front
    { name := "D$", stats := { reads := 8, writes := 0, hits := 0, misses := 8 },
      sets := fun _ => ⟨fun j => { tag := j, mesi := MESI_E, lru := 7 - (j : Int) }⟩ }
    0 DATA 3 (by decide) (by
      show List.Perm _ _
      decide)).2.2.2.2).trans (by decide)

/-! ## C21: an access after an invalidation misses -/

theorem decode_index_lt (addr : Nat) (ctype : cache_typee) :
    (decode_addressbyCacheType addr ctype).index < get_numsets_byCacheType ctype := by
  rw [(decode_fields addr ctype).2.1]
  have h : (addr >>> 6) &&& 16383 < 2 ^ 14 :=
    Nat.and_lt_two_pow _ (by norm_num : (16383 : Nat) < 2 ^ 14)
  have hn : get_numsets_byCacheType ctype = 2 ^ 14 := by
    cases ctype <;> rfl
  rw [hn]
  exact h

theorem rfo_snoop_eq_invalidate (g_mode : Int) (c : cache_t) (addr : Nat) :
    (dcache_rfo_snoop g_mode c addr).1 = (dcache_invalidate c addr).1 := by
  rcases cache_find_way_spec c (decode_addressbyCacheType addr INSTRUCTION).index
      (decode_addressbyCacheType addr INSTRUCTION).tag DATA with ⟨h1, _⟩ | ⟨w, _, h1, h3, _⟩
  · rw [dcache_rfo_snoop_miss g_mode c addr h1, dcache_invalidate_miss c addr h1]
  · rw [dcache_rfo_snoop_hit g_mode c addr w h1 h3, dcache_invalidate_hit c addr w h1]

/-- In a set without duplicate residency, `dcache_invalidate` leaves no non-Invalid line with
the tag of the address. -/
theorem invalidate_no_match (c : cache_t) (addr : Nat)
    (hd : no_dup (get_ways_byCacheType DATA) (c.sets (decode_addressbyCacheType addr DATA).index)) :
    ∀ j, j < get_ways_byCacheType DATA →
      ¬ ((((dcache_invalidate c addr).1.sets (decode_addressbyCacheType addr DATA).index).ways
            j).mesi ≠ MESI_I ∧
        (((dcache_invalidate c addr).1.sets (decode_addressbyCacheType addr DATA).index).ways
            j).tag = (decode_addressbyCacheType addr DATA).tag) := by
  rcases cache_find_way_spec c (decode_addressbyCacheType addr DATA).index
      (decode_addressbyCacheType addr DATA).tag DATA with ⟨h1, h2⟩ | ⟨w, hw, h1, h3, h4, _⟩
  · rw [dcache_invalidate_miss c addr (by rw [decode_type_irrel]; exact h1)]
    exact h2
  · have h := dcache_invalidate_hit c addr w (by rw [decode_type_irrel]; exact h1)
    rw [decode_type_irrel] at h
    rw [h]
    intro j hj
    obtain ⟨ht, _, hm⟩ :=
      put_invalid_frame c (decode_addressbyCacheType addr DATA).index w
        (decode_addressbyCacheType addr DATA).index j
    show ¬ (_ ≠ MESI_I ∧ _ = _)
    rw [ht, hm]
    by_cases e : j = w
    · rw [if_pos ⟨rfl, e⟩]
      exact fun hc => hc.1 rfl
    · rw [if_neg (fun hc => e hc.2)]
      intro hc
      exact e (hd j w hj hw hc.1 h3 (by rw [hc.2, h4]))

/-- When no non-Invalid line of the set holds the tag of the address, `dcache_read` and
`dcache_write` take their miss branch. -/
theorem access_misses (g_mode : Int) (c : cache_t) (addr : Nat)
    (hno : ∀ j, j < get_ways_byCacheType DATA →
      ¬ (((c.sets (decode_addressbyCacheType addr DATA).index).ways j).mesi ≠ MESI_I ∧
        ((c.sets (decode_addressbyCacheType addr DATA).index).ways j).tag =
          (decode_addressbyCacheType addr DATA).tag)) :
    cache_find_way c (decode_addressbyCacheType addr DATA).index
      (decode_addressbyCacheType addr DATA).tag DATA = -1 ∧
    (dcache_read g_mode c addr).1.stats.misses = ulong_inc c.stats.misses ∧
    (dcache_read g_mode c addr).1.stats.hits = c.stats.hits ∧
    (dcache_write g_mode c addr).1.stats.misses = ulong_inc c.stats.misses ∧
    (dcache_write g_mode c addr).1.stats.hits = c.stats.hits := by
  have h1 : cache_find_way c (decode_addressbyCacheType addr DATA).index
      (decode_addressbyCacheType addr DATA).tag DATA = -1 := by
    rcases cache_find_way_spec c (decode_addressbyCacheType addr DATA).index
        (decode_addressbyCacheType addr DATA).tag DATA with ⟨h, _⟩ | ⟨w, hw, _, h3, h4, _⟩
    · exact h
    · exact absurd ⟨h3, h4⟩ (hno w hw)
  have hr := (dcache_read_miss g_mode c addr h1).2.1
  have hwr := (dcache_write_miss g_mode c addr (by rw [decode_type_irrel]; exact h1)).2.1
  refine ⟨h1, ?_, ?_, ?_, ?_⟩
  · rw [hr]
  · rw [hr]
  · rw [hwr]
  · rw [hwr]

/-- C21: in every state reachable from the fresh caches by trace operations and for every
address, after `dcache_invalidate` or `dcache_rfo_snoop` on the address no non-Invalid way
of its set holds its tag (`cache_find_way` returns `-1`), and a `dcache_read` or
`dcache_write` of the same address right after it increments `misses` by one (as
`unsigned long`) and leaves `hits` unchanged. -/
theorem C21_miss_after_invalidation (g_mode : Int) (ops : List (Int × Nat)) (addr : Nat) :
    ((∀ j, j < DWAYS →
        ¬ ((((dcache_invalidate (run g_mode ops).D_cache addr).1.sets
              (decode_addressbyCacheType addr DATA).index).ways j).mesi ≠ MESI_I ∧
          (((dcache_invalidate (run g_mode ops).D_cache addr).1.sets
              (decode_addressbyCacheType addr DATA).index).ways j).tag =
            (decode_addressbyCacheType addr DATA).tag)) ∧
      cache_find_way (dcache_invalidate (run g_mode ops).D_cache addr).1
        (decode_addressbyCacheType addr DATA).index
        (decode_addressbyCacheType addr DATA).tag DATA = -1 ∧
      (dcache_read g_mode (dcache_invalidate (run g_mode ops).D_cache addr).1 addr).1.stats.misses =
        ulong_inc (dcache_invalidate (run g_mode ops).D_cache addr).1.stats.misses ∧
      (dcache_read g_mode (dcache_invalidate (run g_mode ops).D_cache addr).1 addr).1.stats.hits =
        (dcache_invalidate (run g_mode ops).D_cache addr).1.stats.hits ∧
      (dcache_write g_mode (dcache_invalidate (run g_mode ops).D_cache addr).1 addr).1.stats.misses =
        ulong_inc (dcache_invalidate (run g_mode ops).D_cache addr).1.stats.misses ∧
      (dcache_write g_mode (dcache_invalidate (run g_mode ops).D_cache addr).1 addr).1.stats.hits =
        (dcache_invalidate (run g_mode ops).D_cache addr).1.stats.hits) ∧
    ((∀ j, j < DWAYS →
        ¬ ((((dcache_rfo_snoop g_mode (run g_mode ops).D_cache addr).1.sets
              (decode_addressbyCacheType addr DATA).index).ways j).mesi ≠ MESI_I ∧
          (((dcache_rfo_snoop g_mode (run g_mode ops).D_cache addr).1.sets
              (decode_addressbyCacheType addr DATA).index).ways j).tag =
            (decode_addressbyCacheType addr DATA).tag)) ∧
      cache_find_way (dcache_rfo_snoop g_mode (run g_mode ops).D_cache addr).1
        (decode_addressbyCacheType addr DATA).index
        (decode_addressbyCacheType addr DATA).tag DATA = -1 ∧
      (dcache_read g_mode (dcache_rfo_snoop g_mode (run g_mode ops).D_cache addr).1
          addr).1.stats.misses =
        ulong_inc (dcache_rfo_snoop g_mode (run g_mode ops).D_cache addr).1.stats.misses ∧
      (dcache_read g_mode (dcache_rfo_snoop g_mode (run g_mode ops).D_cache addr).1
          addr).1.stats.hits =
        (dcache_rfo_snoop g_mode (run g_mode ops).D_cache addr).1.stats.hits ∧
      (dcache_write g_mode (dcache_rfo_snoop g_mode (run g_mode ops).D_cache addr).1
          addr).1.stats.misses =
        ulong_inc (dcache_rfo_snoop g_mode (run g_mode ops).D_cache addr).1.stats.misses ∧
      (dcache_write g_mode (dcache_rfo_snoop g_mode (run g_mode ops).D_cache addr).1
          addr).1.stats.hits =
        (dcache_rfo_snoop g_mode (run g_mode ops).D_cache addr).1.stats.hits) := by
  have hd := ((run_ok g_mode ops).2 (decode_addressbyCacheType addr DATA).index
    (decode_index_lt addr DATA)).2
  have hno := invalidate_no_match (run g_mode ops).D_cache addr hd
  have hacc := access_misses g_mode (dcache_invalidate (run g_mode ops).D_cache addr).1 addr hno
  rw [rfo_snoop_eq_invalidate]
  exact ⟨⟨hno, hacc⟩, ⟨hno, hacc⟩⟩

end L1SplitCache
